import Mathlib

/-!
# Simple2D animation and scene core

A shallow embedding of the animation, animation-chain, scene-object, scene and
object-group code of `Simple2DLib.h` / `Simple2D.cpp`.

Conventions of the embedding:

* `double` values are exact rationals (`ℚ`); a value that is not a finite
  number in the C++ program (division by a zero interval, a floating point
  to `int` conversion outside the range of `int`, an uninitialised member)
  is `none` in an `Option ℚ`;
* `GetTickCount()` is the argument `now`, reduced modulo `2^32` (it is a
  `DWORD`); `int` members are stored as 32-bit two's complement values;
* objects referred to through pointers are identified by a natural number
  (their address);
* callbacks held in `std::function` members are represented by a flag (is a
  handler installed) and a counter of the invocations made so far.
-/

namespace S2D

/-! ## Machine arithmetic -/

/-- Value returned by `GetTickCount()`, a 32-bit `DWORD`, at time `now`. -/
def GetTickCount (now : Nat) : Int := ((now % 2 ^ 32 : Nat) : Int)

/-- Conversion of an integer to the 32-bit signed type `int`. -/
def toInt32 (x : Int) : Int := (x + 2 ^ 31) % 2 ^ 32 - 2 ^ 31

/-- Conversion of an integer to the 32-bit unsigned type `DWORD`. -/
def toUInt32 (x : Int) : Int := x % 2 ^ 32

/-- Truncation toward zero, the value of `static_cast<int>(x)`; the
conversion is undefined (`none`) when the truncated value is not an `int`. -/
def castInt (x : ℚ) : Option Int :=
  let t : Int := if 0 ≤ x then ⌊x⌋ else -⌊-x⌋
  if -(2 ^ 31) ≤ t ∧ t < 2 ^ 31 then some t else none

/-! ## Animation (`TypedAnimation<double>`) -/

/-- Cycle types of an animation: `enum CycleType { Repeat, Clamp, Reverse }`. -/
inductive CycleType
  | Repeat
  | Clamp
  | Reverse
  deriving DecidableEq, Repr

namespace Animations

/-- Shaping function `Animations::WaitZero`. -/
def WaitZero (_intervalPc : ℚ) : ℚ := 0

/-- Shaping function `Animations::WaitOne`. -/
def WaitOne (_intervalPc : ℚ) : ℚ := 1

/-- Shaping function `Animations::Linear`. -/
def Linear (intervalPc : ℚ) : ℚ := intervalPc

end Animations

/-- Members of `TypedAnimation<double>`.  `onStart` records whether a start
handler is installed and `onStartCalls` counts its invocations. -/
structure Animation where
  amplitude : ℚ
  intervalMs : Int
  startTime : Int
  timeOffset : Int
  base : ℚ
  cropLower : ℚ
  cropUpper : ℚ
  cycleType : CycleType
  animFunc : ℚ → ℚ
  paused : Bool
  animPcAtPauseTime : ℚ
  onStart : Bool
  onStartCalls : Nat

namespace Animation

/-- The unsigned expression `GetTickCount() - startTime - timeOffset`. -/
def elapsed (a : Animation) (now : Nat) : Int :=
  toUInt32 (GetTickCount now - a.startTime - a.timeOffset)

/-- The position before the cycle policy is applied, without the `offset`:
`elapsed / intervalMs + animPcAtPauseTime`, replaced by `animPcAtPauseTime`
while paused.  A zero interval makes the quotient infinite or NaN: `none`. -/
def rawPos (a : Animation) (now : Nat) : Option ℚ :=
  if a.paused then some a.animPcAtPauseTime
  else if a.intervalMs = 0 then none
  else some ((a.elapsed now : ℚ) / (a.intervalMs : ℚ) + a.animPcAtPauseTime)

/-- The cycle policy of `GetAnimPos` applied to a finite position. -/
def applyCycle (ct : CycleType) (animPc : ℚ) : Option ℚ :=
  match ct with
  | CycleType.Repeat => (castInt animPc).map (fun (k : Int) => animPc - (k : ℚ))
  | CycleType.Clamp => some (min animPc 1)
  | CycleType.Reverse =>
      (castInt animPc).map (fun (k : Int) =>
        let reverseSection : Bool := decide (Int.tmod k 2 = 1)
        let frac : ℚ := animPc - (k : ℚ)
        if reverseSection then 1 - frac else frac)

/-- `TypedAnimation<T>::GetAnimPos(offset)`.  With a non-finite raw position
the `min(animPc, 1.0f)` of the Clamp branch (`a < b ? a : b`) yields `1`;
the other branches convert the position to `int`, which is undefined. -/
def GetAnimPos (a : Animation) (now : Nat) (offset : ℚ) : Option ℚ :=
  match a.rawPos now with
  | some x => applyCycle a.cycleType (x + offset)
  | none =>
      match a.cycleType with
      | CycleType.Clamp => some 1
      | _ => none

/-- `TypedAnimation<T>::Crop`. -/
def Crop (a : Animation) (pos : ℚ) : ℚ :=
  if a.cropUpper ≥ a.cropLower then (a.cropUpper - a.cropLower) * pos + a.cropLower
  else a.cropLower - (a.cropLower - a.cropUpper) * pos

/-- `TypedAnimation<T>::GetAnimFixed`. -/
def GetAnimFixed (a : Animation) (pos : ℚ) : ℚ :=
  a.animFunc (a.Crop pos) * a.amplitude + a.base

/-- `TypedAnimation<T>::GetAnimOffset(offset)`. -/
def GetAnimOffset (a : Animation) (now : Nat) (offset : ℚ) : Option ℚ :=
  (a.GetAnimPos now offset).map (fun pos => a.animFunc (a.Crop pos) * a.amplitude + a.base)

/-- `TypedAnimation<T>::Done`. -/
def Done (a : Animation) (now : Nat) : Bool :=
  decide (a.cycleType = CycleType.Clamp) && decide (a.GetAnimPos now 0 = some 1)

/-- `TypedAnimation<T>::Reset(pause)`. -/
def Reset (a : Animation) (now : Nat) (pause : Bool) : Animation :=
  { a with
    startTime := toInt32 (GetTickCount now)
    animPcAtPauseTime := 0
    onStartCalls := if !pause && a.onStart then a.onStartCalls + 1 else a.onStartCalls
    paused := pause }

/-- `TypedAnimation<T>::Pause(pause)`.  When the position to snapshot is not
a finite number the snapshot is left unspecified (kept as it was). -/
def Pause (a : Animation) (now : Nat) (pause : Bool) : Animation :=
  if pause && !a.paused then
    { a with animPcAtPauseTime := (a.GetAnimPos now 0).getD a.animPcAtPauseTime, paused := pause }
  else if !pause && a.paused then
    { a with startTime := toInt32 (GetTickCount now), paused := pause }
  else
    { a with paused := pause }

/-- `TypedAnimation<T>::IsPaused`. -/
def IsPaused (a : Animation) : Bool := a.paused

/-- `TypedAnimation<T>::SetPos`. -/
def SetPos (a : Animation) (now : Nat) (pc : ℚ) : Animation :=
  { a with animPcAtPauseTime := pc, timeOffset := 0, startTime := toInt32 (GetTickCount now) }

/-- `TypedAnimation<T>::SetPosTime`. -/
def SetPosTime (a : Animation) (now : Nat) (ms : Int) : Animation :=
  { a with animPcAtPauseTime := 0, timeOffset := ms, startTime := toInt32 (GetTickCount now) }

/-- `TypedAnimation<T>::SetCycleType`. -/
def SetCycleType (a : Animation) (ct : CycleType) : Animation := { a with cycleType := ct }

/-- `TypedAnimation<T>::SetStartEventHandler`; `installed` is false for a null handler. -/
def SetStartEventHandler (a : Animation) (installed : Bool) : Animation :=
  { a with onStart := installed }

/-- The constructor `TypedAnimation(func, interval, amp, b, ct, startPaused)`,
run at time `now`; the crop bounds are `[0, 1]`.  The C++ defaults are
`amp = 1`, `b = 0`, `ct = Repeat`, `startPaused = true`. -/
def create (now : Nat) (func : ℚ → ℚ) (interval : Int) (amp : ℚ) (b : ℚ)
    (ct : CycleType) (startPaused : Bool) : Animation :=
  Reset
    { amplitude := amp, intervalMs := interval, startTime := 0, timeOffset := 0, base := b,
      cropLower := 0, cropUpper := 1, cycleType := ct, animFunc := func, paused := startPaused,
      animPcAtPauseTime := 0, onStart := false, onStartCalls := 0 }
    now startPaused

/-- `TypedAnimation<T>::FromTo(start, end, interval, startFunc, startPaused)`;
`startFunc` is true when a start handler is passed.  The constructor is
called with its default cycle type (Repeat) and `startPaused = true`. -/
def FromTo (now : Nat) (start stop : ℚ) (interval : Int) (startFunc : Bool)
    (startPaused : Bool) : Animation :=
  let a := (create now Animations.Linear interval (stop - start) start
    CycleType.Repeat true).SetStartEventHandler startFunc
  if !startPaused then a.Reset now false else a

end Animation

/-! ## AnimationChain -/

/-- Members of `AnimationChain`.  `index` is the `unsigned int` position in
`animations`; `finalValue` is `none` until it is first assigned; `onDone`
records whether a completion handler is installed and `onDoneCalls` counts
its invocations. -/
structure AnimationChain where
  done : Bool
  paused : Bool
  animations : List Animation
  index : Nat
  finalValue : Option ℚ
  onDone : Bool
  onDoneCalls : Nat
  cycleType : CycleType

namespace AnimationChain

/-- In-place update `animations[i] = f(animations[i])`. -/
def modifyAt (l : List Animation) (i : Nat) (f : Animation → Animation) : List Animation :=
  match l[i]? with
  | some x => l.set i (f x)
  | none => l

/-- The default constructor `AnimationChain()`. -/
def empty : AnimationChain :=
  { done := true, paused := true, animations := [], index := 0, finalValue := none,
    onDone := false, onDoneCalls := 0, cycleType := CycleType.Clamp }

/-- `AnimationChain::Add`, run at time `now`. -/
def Add (c : AnimationChain) (now : Nat) (a : Animation) : AnimationChain :=
  { c with
    animations := c.animations ++ [(a.SetCycleType CycleType.Clamp).Reset now true]
    done := false }

/-- The conversion constructor `AnimationChain(const Animation &)`, run at time `now`. -/
def ofAnimation (now : Nat) (a : Animation) : AnimationChain :=
  Add { done := false, paused := true, animations := [], index := 0, finalValue := none,
        onDone := false, onDoneCalls := 0, cycleType := CycleType.Clamp } now a

/-- `AnimationChain::SetDoneEventHandler`; `installed` is false for a null handler. -/
def SetDoneEventHandler (c : AnimationChain) (installed : Bool) : AnimationChain :=
  { c with onDone := installed }

/-- `AnimationChain::SetCycleType`. -/
def SetCycleType (c : AnimationChain) (ct : CycleType) : AnimationChain :=
  { c with cycleType := ct }

/-- The branch `index < animations.size()` of `AnimationChain::Start`:
optionally reset the current entry, clear `done`, unpause the entry. -/
def startEntry (c : AnimationChain) (now : Nat) (reset : Bool) : AnimationChain :=
  { c with
    animations := modifyAt c.animations c.index
      (fun a => (if reset then a.Reset now false else a).Pause now false)
    done := false }

/-- `AnimationChain::Start(reset)`.  In the Repeat branch the call of
`Reset()` is written out: it sets `index = 0` and, when the chain is not
empty, calls `Start(true)`, which then takes the branch `index < size`. -/
def Start (c : AnimationChain) (now : Nat) (reset : Bool) : AnimationChain :=
  let c1 := { c with paused := false }
  if c1.index < c1.animations.length then c1.startEntry now reset
  else
    let c2 :=
      if c1.cycleType = CycleType.Clamp ∧ c1.done = false then
        { c1 with done := true
                  onDoneCalls := if c1.onDone then c1.onDoneCalls + 1 else c1.onDoneCalls }
      else c1
    if c2.cycleType = CycleType.Repeat then
      let c3 := { c2 with index := 0 }
      if 0 < c3.animations.length then c3.startEntry now true else c3
    else c2

/-- `AnimationChain::Reset`. -/
def Reset (c : AnimationChain) (now : Nat) : AnimationChain :=
  let c1 := { c with index := 0 }
  if 0 < c1.animations.length then c1.Start now true else c1

/-- `AnimationChain::Pause(pause)`. -/
def Pause (c : AnimationChain) (now : Nat) (pause : Bool) : AnimationChain :=
  let c1 :=
    if c.index < c.animations.length then
      { c with animations := modifyAt c.animations c.index (fun a => a.Pause now pause) }
    else c
  let c2 := if !pause then c1.Start now false else c1
  { c2 with paused := pause }

/-- `AnimationChain::IsPaused`. -/
def IsPaused (c : AnimationChain) : Bool := c.paused

/-- `AnimationChain::Done`. -/
def Done (c : AnimationChain) : Bool := c.done

/-- `AnimationChain::Update`.  An `index` beyond the end reads outside the
vector; the chain is then left as it is. -/
def Update (c : AnimationChain) (now : Nat) : AnimationChain :=
  if c.index = c.animations.length then c
  else
    match c.animations[c.index]? with
    | none => c
    | some a =>
        if a.Done now then
          Start { c with finalValue := a.GetAnimOffset now 0, index := c.index + 1 } now true
        else c

/-- `AnimationChain::GetAnimOffset(offset)`: the chain after the call and
the value returned (`none` when the value read is not a finite number or is
read outside the vector). -/
def GetAnimOffset (c : AnimationChain) (now : Nat) (offset : ℚ) : AnimationChain × Option ℚ :=
  let c1 := c.Update now
  if c1.done = false then
    (c1, (c1.animations[c1.index]?).bind (fun a => a.GetAnimOffset now offset))
  else (c1, c1.finalValue)

/-- A run of `GetAnimOffset()` polls at the given times, in order. -/
def polls (c : AnimationChain) (times : List Nat) : AnimationChain :=
  times.foldl (fun c1 t => (c1.GetAnimOffset t 0).1) c

/-- The shape every chain built through the public interface has: the
index is inside the vector and the chain is not done, or the index is just
past the end and the chain is done. -/
def WellFormed (c : AnimationChain) : Prop :=
  (c.index < c.animations.length ∧ c.done = false)
    ∨ (c.index = c.animations.length ∧ c.done = true)

/-- The value of the last entry at position 1 (`GetAnimFixed(1)` of the last
entry), when the chain has an entry. -/
def valueAtOne (c : AnimationChain) : Option ℚ :=
  (c.animations.map (fun a => a.GetAnimFixed 1)).getLast?

/-- What one call may do to a Clamp chain with a completion handler: the
shape is kept; a done chain keeps its frozen value and handler count; a
chain that is not done either stays so, or becomes done with the handler
invoked once and the last entry's value at position 1 frozen. -/
def StepOK (c c1 : AnimationChain) : Prop :=
  c1.cycleType = CycleType.Clamp ∧ c1.WellFormed ∧ c1.onDone = true
  ∧ c1.valueAtOne = c.valueAtOne
  ∧ (c.done = true →
      c1.done = true ∧ c1.finalValue = c.finalValue ∧ c1.onDoneCalls = c.onDoneCalls)
  ∧ (c.done = false →
      (c1.done = false ∧ c1.onDoneCalls = c.onDoneCalls)
      ∨ (c1.done = true ∧ c1.onDoneCalls = c.onDoneCalls + 1 ∧ c1.finalValue = c.valueAtOne))

end AnimationChain

/-- The calls on a chain considered in the completion invariant. -/
inductive ChainCall
  | update
  | getAnimOffset (offset : ℚ)
  | start (reset : Bool)
  | pause (pause : Bool)

namespace AnimationChain

/-- The chain after one call made at time `now`. -/
def call (c : AnimationChain) (k : ChainCall) (now : Nat) : AnimationChain :=
  match k with
  | ChainCall.update => c.Update now
  | ChainCall.getAnimOffset offset => (c.GetAnimOffset now offset).1
  | ChainCall.start reset => c.Start now reset
  | ChainCall.pause pause => c.Pause now pause

/-- The chain after a sequence of timed calls. -/
def calls (c : AnimationChain) (ks : List (ChainCall × Nat)) : AnimationChain :=
  ks.foldl (fun c1 k => c1.call k.1 k.2) c

end AnimationChain

/-! ## The two-entry chain of the chain-sequencing scenario -/

/-- A Linear entry of a chain: interval `I`, amplitude `amp`, base `b`,
default crop, forced to Clamp, with the epoch set at time `s`. -/
def linEntry (s : Nat) (I : Int) (amp b : ℚ) (paused : Bool) : Animation :=
  { amplitude := amp, intervalMs := I, startTime := toInt32 (GetTickCount s), timeOffset := 0,
    base := b, cropLower := 0, cropUpper := 1, cycleType := CycleType.Clamp,
    animFunc := Animations.Linear, paused := paused, animPcAtPauseTime := 0,
    onStart := false, onStartCalls := 0 }

/-- The chain `FromTo(0, 1, I1)` then `FromTo(1, 2, I2)`, built at time `tc`,
given a completion handler and started with `Start()` at time 0. -/
def seqChain (tc : Nat) (I1 I2 : Int) : AnimationChain :=
  ((((AnimationChain.ofAnimation tc (Animation.FromTo tc 0 1 I1 false true)).Add tc
    (Animation.FromTo tc 1 2 I2 false true)).SetDoneEventHandler true).Start 0 false)

/-- The state of `seqChain` while its first entry runs. -/
def seqPhase0 (tc : Nat) (I1 I2 : Int) : AnimationChain :=
  { done := false, paused := false,
    animations := [linEntry 0 I1 1 0 false, linEntry tc I2 1 1 true],
    index := 0, finalValue := none, onDone := true, onDoneCalls := 0,
    cycleType := CycleType.Clamp }

/-- The state of `seqChain` while its second entry runs, started at time `s1`. -/
def seqPhase1 (s1 : Nat) (I1 I2 : Int) : AnimationChain :=
  { done := false, paused := false,
    animations := [linEntry 0 I1 1 0 false, linEntry s1 I2 1 1 false],
    index := 1, finalValue := some 1, onDone := true, onDoneCalls := 0,
    cycleType := CycleType.Clamp }

/-- The state of `seqChain` once complete. -/
def seqPhase2 (s1 : Nat) (I1 I2 : Int) : AnimationChain :=
  { done := true, paused := false,
    animations := [linEntry 0 I1 1 0 false, linEntry s1 I2 1 1 false],
    index := 2, finalValue := some 2, onDone := true, onDoneCalls := 1,
    cycleType := CycleType.Clamp }

/-! ## SceneObject -/

/-- The binding names: `enum SceneObjectBindings`. -/
inductive SceneObjectBindings
  | BindNone | BindU | BindV | BindX | BindY | BindZ | BindWidth | BindHeight
  | BindR | BindG | BindB | BindAlpha | BindAlpha2 | BindSize | BindRotation
  | BindRotX | BindRotY | BindRotZ | BindX2 | BindY2 | BindWidth2 | BindHeight2
  | BindBaseX | BindBaseY
  deriving DecidableEq, Repr

open SceneObjectBindings in
/-- The binding names in increasing enumeration order, the order in which a
`std::map<SceneObjectBindings, AnimationChain>` is traversed. -/
def allBindings : List SceneObjectBindings :=
  [BindNone, BindU, BindV, BindX, BindY, BindZ, BindWidth, BindHeight,
   BindR, BindG, BindB, BindAlpha, BindAlpha2, BindSize, BindRotation,
   BindRotX, BindRotY, BindRotZ, BindX2, BindY2, BindWidth2, BindHeight2,
   BindBaseX, BindBaseY]

/-- The removal policy: `enum SceneObjectDeleteBehaviour`. -/
inductive SceneObjectDeleteBehaviour
  | SODB_Destroy
  | SODB_Release
  deriving DecidableEq, Repr

/-- A `SceneObject` of some concrete subtype.  `self` is its address;
`owner` the address of the owning manager (or null); `animations` the map of
bound chains; `getBinding b` tells whether the subtype's `getBinding(b)` is a
non-null pointer and `field b` is the `double` it points to;
`isInterfaceObject` and `isTabbedItem` are the results of the
`dynamic_cast`s to `InterfaceObject *` and `ITabbedItem *`; `justGotFocus`
is the member of `InterfaceObject`.  The update hook `doUpdate` is the
default one of the base class, which does nothing. -/
structure SceneObject where
  self : Nat
  owner : Option Nat
  animations : SceneObjectBindings → Option AnimationChain
  masterAnimation : SceneObjectBindings
  deleteBehaviour : SceneObjectDeleteBehaviour
  done : Bool
  visible : Bool
  getBinding : SceneObjectBindings → Bool
  field : SceneObjectBindings → Option ℚ
  isInterfaceObject : Bool
  isTabbedItem : Bool
  justGotFocus : Bool

namespace SceneObject

/-- `SceneObject::Bind(bindname, AnimationChain &, master)`; the `Assert` on
`getBinding(bindname)` only writes a debug message. -/
def Bind (o : SceneObject) (bindname : SceneObjectBindings) (anim : AnimationChain)
    (master : Bool) : SceneObject :=
  let o1 := { o with animations := Function.update o.animations bindname (some anim) }
  if master then { o1 with masterAnimation := bindname } else o1

/-- `SceneObject::Bind(bindname, Animation &, master)`, run at time `now`:
the animation is converted to a chain and bound. -/
def BindAnimation (o : SceneObject) (now : Nat) (bindname : SceneObjectBindings)
    (anim : Animation) (master : Bool) : SceneObject :=
  o.Bind bindname (AnimationChain.ofAnimation now anim) master

/-- `SceneObject::Unbind`. -/
def Unbind (o : SceneObject) (bindname : SceneObjectBindings) : SceneObject :=
  { o with animations := Function.update o.animations bindname none }

/-- `SceneObject::SetMasterAnimation`. -/
def SetMasterAnimation (o : SceneObject) (bindname : SceneObjectBindings) : SceneObject :=
  { o with masterAnimation := bindname }

/-- `SceneObject::SetDeleteBehaviour`. -/
def SetDeleteBehaviour (o : SceneObject) (sodb : SceneObjectDeleteBehaviour) : SceneObject :=
  { o with deleteBehaviour := sodb }

/-- `SceneObject::SetOwner`. -/
def SetOwner (o : SceneObject) (parent : Option Nat) : SceneObject :=
  { o with owner := parent }

/-- `SceneObject::IsOn`. -/
def IsOn (o : SceneObject) : Bool := o.visible

/-- `SceneObject::Done`. -/
def Done (o : SceneObject) : Bool := o.done

/-- `SceneObject::SetDone`. -/
def SetDone (o : SceneObject) : SceneObject := { o with done := true }

/-- One round of the loop of `SceneObject::Update`, for the map entry with
key `b` if there is one: poll the chain, write the value through
`getBinding(b)`, set `done` when `b` is the master binding and the chain is
done.  Writing through a null `getBinding(b)` is undefined: `none`. -/
def updateBinding (now : Nat) (o : SceneObject) (b : SceneObjectBindings) : Option SceneObject :=
  match o.animations b with
  | none => some o
  | some chain =>
      if o.getBinding b = false then none
      else
        let r := chain.GetAnimOffset now 0
        let o1 := { o with
          animations := Function.update o.animations b (some r.1)
          field := Function.update o.field b r.2 }
        some (if o1.masterAnimation = b ∧ r.1.Done = true then { o1 with done := true } else o1)

/-- `SceneObject::Update`, run at time `now`. -/
def Update (o : SceneObject) (now : Nat) : Option SceneObject :=
  allBindings.foldlM (updateBinding now) o

/-- `SceneObject::ResetAnimations`, run at time `now`. -/
def ResetAnimations (o : SceneObject) (now : Nat) : SceneObject :=
  { o with
    animations := fun b => (o.animations b).map (fun chain => chain.Reset now)
    done := false }

/-- Every bound name resolves to a field of the object. -/
def Bindable (o : SceneObject) : Prop :=
  ∀ b, o.animations b ≠ none → o.getBinding b = true

end SceneObject

/-! ## ObjectManager and Scene -/

/-- A `Scene`: the `objects` list of its `ObjectManager` base, the
`markedForRemoval` vector of object addresses, its own address `self`, and
the application's focus object pointer, which `Remove` may clear. -/
structure Scene where
  self : Nat
  objects : List SceneObject
  markedForRemoval : List Nat
  focusObject : Option Nat

namespace Scene

/-- `ObjectManager::Add(SO *obj)`: the manager takes the object over. -/
def Add (s : Scene) (obj : SceneObject) : Scene :=
  { s with objects := s.objects ++
      [(obj.SetDeleteBehaviour SceneObjectDeleteBehaviour.SODB_Destroy).SetOwner (some s.self)] }

/-- `ObjectManager::Add(SO &obj)`: a copy of the object, allocated at address
`addr`, is added. -/
def AddCopy (s : Scene) (obj : SceneObject) (addr : Nat) : Scene :=
  s.Add { obj with self := addr }

/-- `ObjectManager::AddRef`: the object is added without taking it over. -/
def AddRef (s : Scene) (obj : SceneObject) : Scene :=
  { s with objects := s.objects ++
      [(obj.SetDeleteBehaviour SceneObjectDeleteBehaviour.SODB_Release).SetOwner (some s.self)] }

/-- `ObjectManager::Remove`, for the object at address `addr`: the first list
entry at that address is located (`find_ptr`); if there is one, the focus is
taken from it when it is an `InterfaceObject`, and it is erased (destroyed)
or released.  A removed object leaves the model. -/
def Remove (s : Scene) (addr : Nat) : Scene :=
  match s.objects.find? (fun o => o.self == addr) with
  | none => s
  | some o =>
      { s with
        focusObject :=
          if o.isInterfaceObject ∧ s.focusObject = some o.self then none else s.focusObject
        objects := s.objects.eraseP (fun o => o.self == addr) }

/-- The first loop of `Scene::Update` and the `clear()` that follows it. -/
def flush (s : Scene) : Scene :=
  { (s.markedForRemoval.foldl Remove s) with markedForRemoval := [] }

/-- The second loop of `Scene::Update` over the remaining list: the updated
objects and the addresses pushed on `markedForRemoval`, in order. -/
def updateLoop (now : Nat) : List SceneObject → Option (List SceneObject × List Nat)
  | [] => some ([], [])
  | obj :: rest =>
      match (if obj.IsOn then obj.Update now else some obj) with
      | none => none
      | some obj1 =>
          match updateLoop now rest with
          | none => none
          | some (rest1, marks) =>
              some (obj1 :: rest1, if obj.IsOn && obj1.Done then obj1.self :: marks else marks)

/-- `Scene::Update`, run at time `now`. -/
def Update (s : Scene) (now : Nat) : Option Scene :=
  match updateLoop now (s.flush).objects with
  | none => none
  | some (objs, marks) => some { s.flush with objects := objs, markedForRemoval := marks }

end Scene

namespace SceneObject

/-- The value one poll at time `now` writes to the field of binding `b`:
the value of the chain bound to `b`, or the present value when none is bound. -/
def polledField (o : SceneObject) (now : Nat) (b : SceneObjectBindings) : Option ℚ :=
  match o.animations b with
  | some chain => (chain.GetAnimOffset now 0).2
  | none => o.field b

/-- Whether a chain is bound to the master binding and is done after one
poll at time `now`. -/
def masterDone (o : SceneObject) (now : Nat) : Bool :=
  match o.animations o.masterAnimation with
  | some chain => (chain.GetAnimOffset now 0).1.Done
  | none => false

/-- The object after the rounds of the `Update` loop for the names in `bs`,
in closed form: every chain bound to a name of `bs` has been polled once,
its value written to the field, and `done` set when the master binding is
among them and its chain is done after the poll. -/
def polled (o : SceneObject) (now : Nat) (bs : List SceneObjectBindings) : SceneObject :=
  { o with
    animations := fun b =>
      if b ∈ bs then (o.animations b).map (fun chain => (chain.GetAnimOffset now 0).1)
      else o.animations b
    field := fun b => if b ∈ bs then o.polledField now b else o.field b
    done := o.done || (decide (o.masterAnimation ∈ bs) && o.masterDone now) }

/-- The object after `SceneObject::Update` at time `now`, in closed form. -/
def updated (o : SceneObject) (now : Nat) : SceneObject :=
  { o with
    animations := fun b => (o.animations b).map (fun chain => (chain.GetAnimOffset now 0).1)
    field := fun b => o.polledField now b
    done := o.done || o.masterDone now }

end SceneObject

namespace Scene

/-- Erasure of the first list entry at address `addr`, the effect of
`ObjectManager::Remove` on the list. -/
def eraseAddr (l : List SceneObject) (addr : Nat) : List SceneObject :=
  l.eraseP (fun o => o.self == addr)

/-- What the traversal of `Scene::Update` does to one object: update it when
it is on, leave it alone otherwise. -/
def visit (now : Nat) (obj : SceneObject) : SceneObject :=
  if obj.IsOn then obj.updated now else obj

end Scene

/-! ## The end-to-end scenario -/

/-- The constructor `Scene()` of a scene at address `self`, with no focus object. -/
def Scene.empty (self : Nat) : Scene :=
  { self := self, objects := [], markedForRemoval := [], focusObject := none }

open SceneObjectBindings in
/-- A `Rectangle(x, y, w, h, brush)` at address `addr`: the constructor of the
base class, and `Rectangle::getBinding`, which resolves the names X, Y,
Width, Height and Alpha (initially -1). -/
def Rectangle (addr : Nat) (x y w h : Int) : SceneObject :=
  { self := addr, owner := none, animations := fun _ => none, masterAnimation := BindNone,
    deleteBehaviour := SceneObjectDeleteBehaviour.SODB_Destroy, done := false, visible := true,
    getBinding := fun b => decide (b = BindX ∨ b = BindY ∨ b = BindWidth ∨ b = BindHeight
      ∨ b = BindAlpha),
    field := fun b =>
      if b = BindX then some (x : ℚ) else if b = BindY then some (y : ℚ)
      else if b = BindWidth then some (w : ℚ) else if b = BindHeight then some (h : ℚ)
      else if b = BindAlpha then some (-1) else none,
    isInterfaceObject := false, isTabbedItem := false, justGotFocus := false }

/-- The chain made from `FromTo(start, stop, I)` once started at time 0, while
its entry runs. -/
def runChain (start stop : ℚ) (I : Int) : AnimationChain :=
  { done := false, paused := false, animations := [linEntry 0 I (stop - start) start false],
    index := 0, finalValue := none, onDone := false, onDoneCalls := 0,
    cycleType := CycleType.Clamp }

/-- The chain made from `FromTo(start, stop, I)` once complete. -/
def doneChain (start stop : ℚ) (I : Int) : AnimationChain :=
  { done := true, paused := false, animations := [linEntry 0 I (stop - start) start false],
    index := 1, finalValue := some stop, onDone := false, onDoneCalls := 0,
    cycleType := CycleType.Clamp }

/-- The chain made from `FromTo(start, stop, I)` at time `tc` and never started. -/
def idleChain (tc : Nat) (start stop : ℚ) (I : Int) : AnimationChain :=
  { done := false, paused := true, animations := [linEntry tc I (stop - start) start true],
    index := 0, finalValue := none, onDone := false, onDoneCalls := 0,
    cycleType := CycleType.Clamp }

open SceneObjectBindings in
/-- The scene of the end-to-end scenario as the claim words it: a rectangle
whose X binding is bound, as master, to `FromTo(0, 100, 1000)`, added to an
empty scene, with no further call on the chain or the object. -/
def scenarioScene : Scene :=
  (Scene.empty 0).Add
    ((Rectangle 1 0 0 10 10).BindAnimation 0 BindX (Animation.FromTo 0 0 100 1000 false true) true)

open SceneObjectBindings in
/-- The scene of the end-to-end scenario with the chain started at time 0
before it is bound. -/
def startedScene : Scene :=
  (Scene.empty 0).Add
    ((Rectangle 1 0 0 10 10).Bind BindX
      ((AnimationChain.ofAnimation 0 (Animation.FromTo 0 0 100 1000 false true)).Start 0 false)
      true)

/-! ## ObjectGroup: tab order -/

/-- An `ObjectGroup`: its `SceneObject` base and the `objects` list of its
`ObjectManager` base. -/
structure ObjectGroup where
  base : SceneObject
  objects : List SceneObject

/-- The outcome of `FindTabbedItem`: the item returned (its address), a null
pointer, an execution with undefined behaviour (an iterator moved before
`begin()` or dereferenced at `end()`), or a loop cut off by the iteration
bound of the model. -/
inductive TabResult
  | item (addr : Nat)
  | null
  | undefined
  | outOfFuel
  deriving DecidableEq, Repr

/-- The variables of the search loop of `FindTabbedItem`: the iterators `it`
and `found` as list positions (`end` is the length of the list, `found` is
`none` when it equals `end`) and the pointer `obj`. -/
structure TabState where
  it : Nat
  found : Option Nat
  obj : Option Nat

namespace ObjectGroup

/-- One pass through the body of the `do ... while` loop. -/
def tabStep (objs : List SceneObject) (forwards : Bool) (s : TabState) : Option TabState :=
  let it1 := if s.it = objs.length then (if forwards then 0 else objs.length - 1) else s.it
  match objs[it1]? with
  | none => none
  | some o =>
      some
        { obj := if o.isTabbedItem then some o.self else none
          found := if o.isTabbedItem && o.IsOn then some it1 else s.found
          it := if forwards then it1 + 1 else (if it1 ≠ 0 then it1 - 1 else objs.length) }

/-- The loop condition, with the precedence of the C++ operators:
`(found == end && (focus != nullptr && obj != focus)) || (focus == nullptr && it != end)`. -/
def tabContinue (objs : List SceneObject) (focus : Option Nat) (s : TabState) : Bool :=
  (s.found.isNone && (focus.isSome && (s.obj != focus)))
    || (focus.isNone && (s.it != objs.length))

/-- The `do ... while` loop, run for at most `fuel` passes. -/
def tabLoop (objs : List SceneObject) (forwards : Bool) (focus : Option Nat) :
    Nat → TabState → Option (Option TabState)
  | 0, _ => none
  | fuel + 1, s =>
      match tabStep objs forwards s with
      | none => some none
      | some s1 =>
          if tabContinue objs focus s1 then tabLoop objs forwards focus fuel s1
          else some (some s1)

/-- What `FindTabbedItem` returns after the loop. -/
def tabReturn (objs : List SceneObject) (focus : Option Nat) (s : TabState) : TabResult :=
  match s.found with
  | some i =>
      match objs[i]? with
      | some o => if o.isTabbedItem then TabResult.item o.self else TabResult.null
      | none => TabResult.undefined
  | none =>
      match focus with
      | some f => if s.obj = some f then TabResult.item f else TabResult.null
      | none => TabResult.null

/-- The pointer `focus = dynamic_cast<ITabbedItem *>(GetFocusObject())`:
the address of the focus object when there is one and it is tab-capable. -/
def tabFocus (focusObject : Option SceneObject) : Option Nat :=
  match focusObject with
  | some fo => if fo.isTabbedItem then some fo.self else none
  | none => none

/-- The start position of the search and the value `focus` has from then on.
`find_ptr` gives the position of the first child at the focus address, or
`end`.  The result is `none` when the iterator is moved before `begin()`:
backwards from a focus item that is the first child. -/
def tabStart (objs : List SceneObject) (focus0 : Option Nat) (forwards : Bool) :
    Option (Nat × Option Nat) :=
  match focus0 with
  | some f =>
      let it := objs.findIdx (fun o => o.self == f)
      if it = objs.length then some (if forwards then 0 else objs.length - 1, none)
      else if forwards then some (it + 1, some f)
      else if it = 0 then none
      else some (it - 1, some f)
  | none => some (if forwards then 0 else objs.length - 1, none)

/-- The search loop, run for at most `2 * size + 2` passes from position
`it`, and the return statements after it. -/
def tabSearch (objs : List SceneObject) (forwards : Bool) (it : Nat) (focus : Option Nat) :
    TabResult :=
  match tabLoop objs forwards focus (2 * objs.length + 2)
      { it := it, found := none, obj := none } with
  | none => TabResult.outOfFuel
  | some none => TabResult.undefined
  | some (some s) => tabReturn objs focus s

/-- `ObjectGroup::FindTabbedItem(forwards)`; `focusObject` is the object the
application's focus pointer refers to, if any. -/
def FindTabbedItem (g : ObjectGroup) (focusObject : Option SceneObject) (forwards : Bool) :
    TabResult :=
  if g.base.visible = false then TabResult.null
  else if g.objects.length = 0 then TabResult.null
  else
    match tabStart g.objects (tabFocus focusObject) forwards with
    | none => TabResult.undefined
    | some (it, focus) => tabSearch g.objects forwards it focus

end ObjectGroup

/-- A tab-capable interface object (such as a `TextBox`) at address `addr`. -/
def tabItem (addr : Nat) (visible : Bool) : SceneObject :=
  { self := addr, owner := none, animations := fun _ => none,
    masterAnimation := SceneObjectBindings.BindNone,
    deleteBehaviour := SceneObjectDeleteBehaviour.SODB_Destroy, done := false,
    visible := visible, getBinding := fun _ => false, field := fun _ => none,
    isInterfaceObject := true, isTabbedItem := true, justGotFocus := false }

/-- A visible group at address `addr` with the given children. -/
def tabGroup (addr : Nat) (children : List SceneObject) : ObjectGroup :=
  { base :=
      { self := addr, owner := none, animations := fun _ => none,
        masterAnimation := SceneObjectBindings.BindNone,
        deleteBehaviour := SceneObjectDeleteBehaviour.SODB_Destroy, done := false,
        visible := true, getBinding := fun _ => false, field := fun _ => none,
        isInterfaceObject := false, isTabbedItem := false, justGotFocus := false },
    objects := children }

open SceneObjectBindings in
/-- A rectangle whose X binding is bound, as master, to the started Clamp
chain of `FromTo(0, 100, 1000)` and whose Y binding is bound to the started
chain of `FromTo(0, 1, 1000)` set to Repeat. -/
def demoObject : SceneObject :=
  ((Rectangle 1 0 0 10 10).Bind BindX (runChain 0 100 1000) true).Bind BindY
    ((runChain 0 1 1000).SetCycleType CycleType.Repeat) false

namespace ObjectGroup

/-- A child that `FindTabbedItem` may select: tab-capable and visible. -/
def eligible (o : SceneObject) : Bool := o.isTabbedItem && o.IsOn

/-- The child referred to by the iterator `found`, if it is not `end`. -/
def foundItem (objs : List SceneObject) (s : TabState) : Option SceneObject :=
  s.found.bind (fun i => objs[i]?)

/-- The first eligible child of `l`, or else `other`. -/
def firstEligibleOr (l : List SceneObject) (other : Option SceneObject) : Option SceneObject :=
  match l.find? eligible with
  | some o => some o
  | none => other

/-- The result that stands for a selected child: its address, or a null pointer. -/
def resultOf (o : Option SceneObject) : TabResult :=
  match o with
  | some x => TabResult.item x.self
  | none => TabResult.null

end ObjectGroup

/-- The chains that can be built through the public interface of
`AnimationChain`, the cycle type being set to Clamp or Repeat only (as the
class requires). -/
inductive AnimationChain.Built : AnimationChain → Prop
  | empty : Built AnimationChain.empty
  | ofAnimation (now : Nat) (a : Animation) : Built (AnimationChain.ofAnimation now a)
  | add (c : AnimationChain) (now : Nat) (a : Animation) : Built c → Built (c.Add now a)
  | setDoneEventHandler (c : AnimationChain) (installed : Bool) :
      Built c → Built (c.SetDoneEventHandler installed)
  | setCycleType (c : AnimationChain) (ct : CycleType) :
      Built c → ct ≠ CycleType.Reverse → Built (c.SetCycleType ct)
  | start (c : AnimationChain) (now : Nat) (reset : Bool) : Built c → Built (c.Start now reset)
  | reset (c : AnimationChain) (now : Nat) : Built c → Built (c.Reset now)
  | pause (c : AnimationChain) (now : Nat) (pause : Bool) : Built c → Built (c.Pause now pause)
  | update (c : AnimationChain) (now : Nat) : Built c → Built (c.Update now)
  | getAnimOffset (c : AnimationChain) (now : Nat) (offset : ℚ) :
      Built c → Built (c.GetAnimOffset now offset).1

namespace SceneObject

/-- `SceneObject::Update` of a subtype that overrides the update hook, run at
time `now`: the loop over the bound names, then `doUpdate()`, which acts on
the object as the loop leaves it.  `SceneObject.Update` is the case of the
default hook, which does nothing. -/
def UpdateWith (doUpdate : SceneObject → SceneObject) (o : SceneObject) (now : Nat) :
    Option SceneObject :=
  (allBindings.foldlM (updateBinding now) o).map doUpdate

end SceneObject

namespace ObjectGroup

/-- The loop of `ObjectGroup::doUpdate` over the child list: `Update()` is
called on each child in list order, whether the child is visible or not;
`childHook` is the update hook of the children.  The loop is undefined when
the `Update()` of a child is. -/
def updateChildren (childHook : SceneObject → SceneObject) (now : Nat) :
    List SceneObject → Option (List SceneObject)
  | [] => some []
  | obj :: rest =>
      match obj.UpdateWith childHook now with
      | none => none
      | some obj1 =>
          match updateChildren childHook now rest with
          | none => none
          | some rest1 => some (obj1 :: rest1)

/-- `ObjectGroup::doUpdate`, run at time `now`. -/
def doUpdate (childHook : SceneObject → SceneObject) (g : ObjectGroup) (now : Nat) :
    Option ObjectGroup :=
  match updateChildren childHook now g.objects with
  | none => none
  | some objs => some { g with objects := objs }

/-- `SceneObject::Update` on an `ObjectGroup`, run at time `now`: the loop
over the group's own bound names, then the hook `ObjectGroup::doUpdate`. -/
def Update (childHook : SceneObject → SceneObject) (g : ObjectGroup) (now : Nat) :
    Option ObjectGroup :=
  match allBindings.foldlM (SceneObject.updateBinding now) g.base with
  | none => none
  | some b => doUpdate childHook { g with base := b } now

end ObjectGroup

namespace ObjectGroup

/-- The position a pass of the search loop examines when it starts with the
iterator at `it`: `it` itself, or after the wrap-around at `end` the first
position (forwards) or the last (backwards). -/
def tabVisit (n : Nat) (forwards : Bool) (it : Nat) : Nat :=
  if it = n then (if forwards then 0 else n - 1) else it

/-- The number of passes the search loop can still make after a pass that
examines position `v` in a list of `n` children: with a focus item at
position `i`, the passes up to the one that examines the focus item again;
with none, the passes up to the end of the list (forwards) or down to its
start (backwards). -/
def tabMeasure (n : Nat) (forwards : Bool) (i : Option Nat) (v : Nat) : Nat :=
  match i with
  | some i =>
      if forwards then (if v ≤ i then i - v else i + n - v)
      else (if i ≤ v then v - i else v + n - i)
  | none => if forwards then n - 1 - v else v

end ObjectGroup

/-! ## ObjectManager: mouse dispatch -/

/-- The part of an `InterfaceObject` the mouse dispatchers use: what its
`OnMouseMove(x, y, keys)` and `OnMouseButton(button, x, y, keys)` return for
given arguments (true: the event is consumed). -/
structure MouseHandlers where
  OnMouseMove : Int → Int → Nat → Bool
  OnMouseButton : Nat → Int → Int → Nat → Bool

/-- A mouse event as a dispatcher passes it on: a move (`none`) or a button
event with its button code. -/
abbrev MouseEvent := Option Nat

/-- A call of a handler made during a dispatch: the address of the object
and the coordinates passed to it. -/
structure HandlerCall where
  self : Nat
  x : Int
  y : Int
  deriving DecidableEq, Repr

/-- A child of an `ObjectManager` as the mouse dispatchers see it.  `self` is
its address; `interface` is the result of `dynamic_cast<InterfaceObject *>`
(`none` for a null pointer).  A `group` is an object for which
`dynamic_cast<ObjectGroup *>` succeeds, with its `visible` flag, its members
`baseX`, `baseY`, `x`, `y` and its child list; a `manager` is an object that
is an `ObjectManager` but no `ObjectGroup`; a `plain` object is neither. -/
inductive MouseObject
  | plain (self : Nat) (interface : Option MouseHandlers)
  | group (self : Nat) (interface : Option MouseHandlers) (visible : Bool)
      (baseX baseY x y : ℚ) (objects : List MouseObject)
  | manager (self : Nat) (interface : Option MouseHandlers) (objects : List MouseObject)

namespace MouseObject

/-- The address of the object. -/
def self : MouseObject → Nat
  | plain s _ => s
  | group s _ _ _ _ _ _ _ => s
  | manager s _ _ => s

/-- The `InterfaceObject` part of the object, if it has one. -/
def interface : MouseObject → Option MouseHandlers
  | plain _ i => i
  | group _ i _ _ _ _ _ _ => i
  | manager _ i _ => i

end MouseObject

/-- The call `i->OnMouseMove(x, y, keys)` or `i->OnMouseButton(button, x, y,
keys)` of a dispatcher on a child, made when the child is an
`InterfaceObject`: whether the event was consumed, and the call made. -/
def offerInterface (ev : MouseEvent) (keys : Nat) (self : Nat) (interface : Option MouseHandlers)
    (x y : Int) : Bool × List HandlerCall :=
  match interface with
  | some h =>
      (match ev with
        | none => h.OnMouseMove x y keys
        | some button => h.OnMouseButton button x y keys,
       [{ self := self, x := x, y := y }])
  | none => (false, [])

mutual

/-- One round of the loop of `ObjectManager::DispatchOnMouseMove` /
`DispatchOnMouseButton`, for the child `o`: whether the event was consumed
and the handler calls made, in order.  A visible group is given the
coordinates `x - static_cast<int>(baseX - x_group)` and
`y - static_cast<int>(baseY - y_group)`; the result is undefined (`none`)
when a conversion to `int` is. -/
def dispatchObject (ev : MouseEvent) (keys : Nat) (o : MouseObject) (x y : Int) :
    Option (Bool × List HandlerCall) :=
  match o with
  | MouseObject.plain self interface => some (offerInterface ev keys self interface x y)
  | MouseObject.group self interface visible baseX baseY gx gy objects =>
      let r := offerInterface ev keys self interface x y
      if r.1 then some r
      else if visible then
        match castInt (baseX - gx), castInt (baseY - gy) with
        | some dx, some dy =>
            match dispatchList ev keys objects (x - dx) (y - dy) with
            | some r2 => some (r2.1, r.2 ++ r2.2)
            | none => none
        | _, _ => none
      else some r
  | MouseObject.manager self interface objects =>
      let r := offerInterface ev keys self interface x y
      if r.1 then some r
      else
        match dispatchList ev keys objects x y with
        | some r2 => some (r2.1, r.2 ++ r2.2)
        | none => none

/-- The loop of `ObjectManager::DispatchOnMouseMove` / `DispatchOnMouseButton`
over the child list: `return true` at the first child that consumes the
event, `return false` after the last child. -/
def dispatchList (ev : MouseEvent) (keys : Nat) (l : List MouseObject) (x y : Int) :
    Option (Bool × List HandlerCall) :=
  match l with
  | [] => some (false, [])
  | o :: rest =>
      match dispatchObject ev keys o x y with
      | none => none
      | some r =>
          if r.1 then some r
          else
            match dispatchList ev keys rest x y with
            | some r2 => some (r2.1, r.2 ++ r2.2)
            | none => none

end

/-- `ObjectManager::DispatchOnMouseMove(x, y, keys)` on the child list
`objects`. -/
def DispatchOnMouseMove (objects : List MouseObject) (x y : Int) (keys : Nat) :
    Option (Bool × List HandlerCall) :=
  dispatchList none keys objects x y

/-- `ObjectManager::DispatchOnMouseButton(button, x, y, keys)` on the child
list `objects`. -/
def DispatchOnMouseButton (objects : List MouseObject) (button : Nat) (x y : Int) (keys : Nat) :
    Option (Bool × List HandlerCall) :=
  dispatchList (some button) keys objects x y

/-- The handler calls that offering the event to each child of `l` in turn
makes, one child after the other. -/
def dispatchCalls (ev : MouseEvent) (keys : Nat) (l : List MouseObject) (x y : Int) :
    List HandlerCall :=
  match l with
  | [] => []
  | o :: rest =>
      (match dispatchObject ev keys o x y with
        | some r => r.2
        | none => []) ++ dispatchCalls ev keys rest x y

/-- The translation `ObjectGroup::doDraw` applies to the render target before
it draws the children: `Translation(baseX + x, baseY + y)`. -/
def groupDrawOffset (baseX baseY x y : ℚ) : ℚ × ℚ := (baseX + x, baseY + y)

/-- An interface object at address `addr` whose handlers consume the event
when the point lies in the box `[0, w) × [0, h)` of its own coordinates (an
`InterfaceObject` at local position (0, 0) whose `doOnMouseMove` and
`doOnMouseButton` return true). -/
def hitBox (addr : Nat) (w h : Int) : MouseObject :=
  MouseObject.plain addr (some
    { OnMouseMove := fun x y _ => decide (0 ≤ x ∧ x < w ∧ 0 ≤ y ∧ y < h),
      OnMouseButton := fun _ x y _ => decide (0 ≤ x ∧ x < w ∧ 0 ≤ y ∧ y < h) })

/-! # Properties

Everything above is the embedding of the code; the theorems follow. -/

/-! ## Basic facts on the machine arithmetic -/

theorem GetTickCount_of_lt {now : Nat} (h : now < 2 ^ 32) : GetTickCount now = (now : Int) := by
  unfold GetTickCount
  rw [Nat.mod_eq_of_lt h]

theorem toUInt32_toInt32_sub (x y : Int) : toUInt32 (x - toInt32 y) = toUInt32 (x - y) := by
  unfold toUInt32 toInt32
  omega

theorem toUInt32_of_range {x : Int} (h0 : 0 ≤ x) (h1 : x < 2 ^ 32) : toUInt32 x = x := by
  unfold toUInt32
  omega

theorem GetTickCount_nonneg (now : Nat) : 0 ≤ GetTickCount now := by
  unfold GetTickCount
  exact Int.ofNat_nonneg _

theorem GetTickCount_lt (now : Nat) : GetTickCount now < 2 ^ 32 := by
  unfold GetTickCount
  have : now % 2 ^ 32 < 2 ^ 32 := Nat.mod_lt _ (by norm_num)
  exact_mod_cast this

/-- Elapsed time of an animation whose epoch was set at time `s`, read at time `t`. -/
theorem toUInt32_tick_sub (s t : Nat) (hs : s ≤ t) (ht : t < 2 ^ 32) :
    toUInt32 (GetTickCount t - toInt32 (GetTickCount s) - 0) = ((t - s : Nat) : Int) := by
  have hs' : s < 2 ^ 32 := lt_of_le_of_lt hs ht
  rw [GetTickCount_of_lt ht, GetTickCount_of_lt hs']
  unfold toUInt32 toInt32
  omega

/-! ## Animation: position and value of a started Clamp animation -/

/-- Position of an unpaused Clamp animation with a positive interval. -/
theorem Animation.GetAnimPos_clamp_running (a : Animation) (now : Nat) (offset : ℚ)
    (hc : a.cycleType = CycleType.Clamp) (hp : a.paused = false) (hi : a.intervalMs ≠ 0) :
    a.GetAnimPos now offset
      = some (min ((a.elapsed now : ℚ) / (a.intervalMs : ℚ) + a.animPcAtPauseTime + offset) 1) := by
  simp [Animation.GetAnimPos, Animation.rawPos, hp, hi, hc, Animation.applyCycle]

/-- Position of a paused Clamp animation. -/
theorem Animation.GetAnimPos_clamp_paused (a : Animation) (now : Nat) (offset : ℚ)
    (hc : a.cycleType = CycleType.Clamp) (hp : a.paused = true) :
    a.GetAnimPos now offset = some (min (a.animPcAtPauseTime + offset) 1) := by
  simp [Animation.GetAnimPos, Animation.rawPos, hp, hc, Animation.applyCycle]

/-- Value of a Linear animation with the default crop at a given position. -/
theorem Animation.linear_value (a : Animation) (pos : ℚ)
    (hf : a.animFunc = Animations.Linear) (hl : a.cropLower = 0) (hu : a.cropUpper = 1) :
    a.animFunc (a.Crop pos) * a.amplitude + a.base = a.base + a.amplitude * pos := by
  simp [Animation.Crop, hf, hl, hu, Animations.Linear]
  ring

/-- C1: a Linear Clamp animation with amplitude A, base B, interval I > 0 and
the default crop, started at time 0 (constructed paused and unpaused at time 0,
or constructed unpaused at time 0), has value B + A * min (t / I) 1 at every
tick t; in particular B at t = 0, A / 2 + B at the half interval, and A + B
at every t ≥ I. -/
theorem C1_linear_clamp_value (c : Nat) (A B : ℚ) (I : Int) (a : Animation)
    (hI : 0 < I)
    (ha : a = (Animation.create c Animations.Linear I A B CycleType.Clamp true).Pause 0 false
        ∨ a = Animation.create 0 Animations.Linear I A B CycleType.Clamp false) :
    (∀ t : Nat, t < 2 ^ 32 →
        a.GetAnimOffset t 0 = some (B + A * min ((t : ℚ) / (I : ℚ)) 1))
    ∧ a.GetAnimOffset 0 0 = some B
    ∧ (∀ h : Nat, I = 2 * (h : Int) → h < 2 ^ 32 → a.GetAnimOffset h 0 = some (A / 2 + B))
    ∧ (∀ t : Nat, I ≤ (t : Int) → t < 2 ^ 32 → a.GetAnimOffset t 0 = some (A + B)) := by
  have hI0 : I ≠ 0 := ne_of_gt hI
  have hIq : (0 : ℚ) < (I : ℚ) := by exact_mod_cast hI
  have key : ∀ t : Nat, t < 2 ^ 32 →
      a.GetAnimOffset t 0 = some (B + A * min ((t : ℚ) / (I : ℚ)) 1) := by
    intro t ht
    have hel : a.elapsed t = (t : Int) ∧ a.cycleType = CycleType.Clamp ∧ a.paused = false
        ∧ a.intervalMs = I ∧ a.animPcAtPauseTime = 0 ∧ a.animFunc = Animations.Linear
        ∧ a.cropLower = 0 ∧ a.cropUpper = 1 ∧ a.amplitude = A ∧ a.base = B := by
      have h0 := toUInt32_tick_sub 0 t (Nat.zero_le _) ht
      rcases ha with ha | ha <;> subst ha <;>
        simp [Animation.elapsed, Animation.create, Animation.Pause, Animation.Reset] <;>
        simpa using h0
    obtain ⟨h1, h2, h3, h4, h5, h6, h7, h8, h9, h10⟩ := hel
    unfold Animation.GetAnimOffset
    rw [Animation.GetAnimPos_clamp_running a t 0 h2 h3 (by rw [h4]; exact hI0)]
    simp only [Option.map_some']
    rw [Animation.linear_value a _ h6 h7 h8, h1, h4, h5, h9, h10]
    simp
  refine ⟨key, ?_, ?_, ?_⟩
  · rw [key 0 (by norm_num)]
    simp
  · intro h hh hlt
    rw [key h hlt]
    have hpos : (0 : ℚ) < (h : ℚ) := by
      have : (0 : Int) < (h : Int) := by omega
      exact_mod_cast this
    have hq : (I : ℚ) = 2 * (h : ℚ) := by exact_mod_cast hh
    have : (h : ℚ) / (I : ℚ) = 1 / 2 := by
      rw [hq]; field_simp; ring
    rw [this]
    have : min ((1 : ℚ) / 2) 1 = 1 / 2 := by norm_num
    rw [this]
    congr 1
    ring
  · intro t hle hlt
    rw [key t hlt]
    have hq : (I : ℚ) ≤ (t : ℚ) := by exact_mod_cast hle
    have : (1 : ℚ) ≤ (t : ℚ) / (I : ℚ) := by
      rw [le_div_iff₀ hIq]; simpa using hq
    rw [min_eq_right this]
    congr 1
    ring

/-! ## AnimationChain: the two-entry sequencing scenario -/

theorem seqChain_eq (tc : Nat) (I1 I2 : Int) : seqChain tc I1 I2 = seqPhase0 tc I1 I2 := by
  simp [seqChain, seqPhase0, AnimationChain.ofAnimation, AnimationChain.Add,
    AnimationChain.SetDoneEventHandler, AnimationChain.Start, AnimationChain.startEntry,
    AnimationChain.modifyAt, Animation.FromTo, Animation.create, Animation.Reset,
    Animation.SetStartEventHandler, Animation.SetCycleType, Animation.Pause, linEntry]
  norm_num

/-- Elapsed time of a running chain entry. -/
theorem linEntry_elapsed (s t : Nat) (I : Int) (amp b : ℚ) (p : Bool)
    (hs : s ≤ t) (ht : t < 2 ^ 32) :
    (linEntry s I amp b p).elapsed t = ((t - s : Nat) : Int) := by
  simpa [linEntry, Animation.elapsed] using toUInt32_tick_sub s t hs ht

/-- Position of a running Linear entry. -/
theorem linEntry_pos (s t : Nat) (I : Int) (amp b offset : ℚ)
    (hs : s ≤ t) (ht : t < 2 ^ 32) (hI : 0 < I) :
    (linEntry s I amp b false).GetAnimPos t offset
      = some (min (((t - s : Nat) : ℚ) / (I : ℚ) + offset) 1) := by
  rw [Animation.GetAnimPos_clamp_running _ _ _ rfl rfl (by simpa [linEntry] using ne_of_gt hI),
    linEntry_elapsed s t I amp b false hs ht]
  simp [linEntry]

/-- Value of a running Linear entry. -/
theorem linEntry_value (s t : Nat) (I : Int) (amp b offset : ℚ)
    (hs : s ≤ t) (ht : t < 2 ^ 32) (hI : 0 < I) :
    (linEntry s I amp b false).GetAnimOffset t offset
      = some (b + amp * min (((t - s : Nat) : ℚ) / (I : ℚ) + offset) 1) := by
  unfold Animation.GetAnimOffset
  rw [linEntry_pos s t I amp b offset hs ht hI]
  simp only [Option.map_some']
  rw [Animation.linear_value _ _ rfl rfl rfl]
  simp [linEntry]

/-- A running Linear entry is done exactly from its interval on. -/
theorem linEntry_done (s t : Nat) (I : Int) (amp b : ℚ)
    (hs : s ≤ t) (ht : t < 2 ^ 32) (hI : 0 < I) :
    (linEntry s I amp b false).Done t = decide (I ≤ ((t - s : Nat) : Int)) := by
  have hIq : (0 : ℚ) < (I : ℚ) := by exact_mod_cast hI
  unfold Animation.Done
  rw [linEntry_pos s t I amp b 0 hs ht hI]
  have hc : (linEntry s I amp b false).cycleType = CycleType.Clamp := rfl
  simp only [hc, decide_True, Bool.true_and, add_zero, Option.some.injEq]
  congr 1
  rw [min_eq_right_iff, le_div_iff₀ hIq, one_mul]
  exact propext ⟨fun h => by exact_mod_cast h, fun h => by exact_mod_cast h⟩

theorem seqPhase0_update_lt (tc : Nat) (I1 I2 : Int) (t : Nat) (ht : t < 2 ^ 32)
    (hI1 : 0 < I1) (hlt : (t : Int) < I1) :
    (seqPhase0 tc I1 I2).Update t = seqPhase0 tc I1 I2 := by
  have hd : (linEntry 0 I1 1 0 false).Done t = false := by
    rw [linEntry_done 0 t I1 1 0 (Nat.zero_le _) ht hI1]
    simpa using hlt
  simp only [linEntry] at hd
  simp [AnimationChain.Update, seqPhase0, hd, linEntry]

theorem seqPhase0_update_ge (tc : Nat) (I1 I2 : Int) (t : Nat) (ht : t < 2 ^ 32)
    (hI1 : 0 < I1) (hge : I1 ≤ (t : Int)) :
    (seqPhase0 tc I1 I2).Update t = seqPhase1 t I1 I2 := by
  have hd : (linEntry 0 I1 1 0 false).Done t = true := by
    rw [linEntry_done 0 t I1 1 0 (Nat.zero_le _) ht hI1]
    simpa using hge
  have hq : (I1 : ℚ) ≤ (t : ℚ) := by exact_mod_cast hge
  have hIq : (0 : ℚ) < (I1 : ℚ) := by exact_mod_cast hI1
  have hv : (linEntry 0 I1 1 0 false).GetAnimOffset t 0 = some 1 := by
    rw [linEntry_value 0 t I1 1 0 0 (Nat.zero_le _) ht hI1]
    have : (1 : ℚ) ≤ ((t - 0 : Nat) : ℚ) / (I1 : ℚ) + 0 := by
      rw [add_zero, le_div_iff₀ hIq]; simpa using hq
    rw [min_eq_right this]
    norm_num
  simp only [linEntry] at hd hv
  simp [AnimationChain.Update, seqPhase0, seqPhase1, hd, hv, AnimationChain.Start,
    AnimationChain.startEntry, AnimationChain.modifyAt, Animation.Reset, Animation.Pause, linEntry]

theorem seqPhase1_update_lt (s1 : Nat) (I1 I2 : Int) (t : Nat) (ht : t < 2 ^ 32)
    (hI2 : 0 < I2) (hs : s1 ≤ t) (hlt : (t : Int) < (s1 : Int) + I2) :
    (seqPhase1 s1 I1 I2).Update t = seqPhase1 s1 I1 I2 := by
  have hd : (linEntry s1 I2 1 1 false).Done t = false := by
    rw [linEntry_done s1 t I2 1 1 hs ht hI2]
    simp only [decide_eq_false_iff_not, not_le]
    omega
  simp only [linEntry] at hd
  simp [AnimationChain.Update, seqPhase1, hd, linEntry]

theorem seqPhase1_update_ge (s1 : Nat) (I1 I2 : Int) (t : Nat) (ht : t < 2 ^ 32)
    (hI2 : 0 < I2) (hs : s1 ≤ t) (hge : (s1 : Int) + I2 ≤ (t : Int)) :
    (seqPhase1 s1 I1 I2).Update t = seqPhase2 s1 I1 I2 := by
  have hle : I2 ≤ ((t - s1 : Nat) : Int) := by omega
  have hd : (linEntry s1 I2 1 1 false).Done t = true := by
    rw [linEntry_done s1 t I2 1 1 hs ht hI2]
    simpa using hle
  have hq : (I2 : ℚ) ≤ ((t - s1 : Nat) : ℚ) := by exact_mod_cast hle
  have hIq : (0 : ℚ) < (I2 : ℚ) := by exact_mod_cast hI2
  have hv : (linEntry s1 I2 1 1 false).GetAnimOffset t 0 = some 2 := by
    rw [linEntry_value s1 t I2 1 1 0 hs ht hI2]
    have : (1 : ℚ) ≤ ((t - s1 : Nat) : ℚ) / (I2 : ℚ) + 0 := by
      rw [add_zero, le_div_iff₀ hIq]; simpa using hq
    rw [min_eq_right this]
    norm_num
  simp only [linEntry] at hd hv
  simp [AnimationChain.Update, seqPhase1, seqPhase2, hd, hv, AnimationChain.Start, linEntry]

theorem seqPhase2_update (s1 : Nat) (I1 I2 : Int) (t : Nat) :
    (seqPhase2 s1 I1 I2).Update t = seqPhase2 s1 I1 I2 := by
  simp [AnimationChain.Update, seqPhase2]

/-- The chain left by `GetAnimOffset` is the one left by its call of `Update`. -/
theorem AnimationChain.GetAnimOffset_fst (c : AnimationChain) (now : Nat) (offset : ℚ) :
    (c.GetAnimOffset now offset).1 = c.Update now := by
  unfold AnimationChain.GetAnimOffset
  by_cases h : (c.Update now).done = false <;> simp [h]

theorem polls_append (c : AnimationChain) (pre : List Nat) (t : Nat) :
    c.polls (pre ++ [t]) = ((c.polls pre).GetAnimOffset t 0).1 := by
  simp [AnimationChain.polls, List.foldl_append]

/-- State of the two-entry chain after a non-decreasing run of polls: its
first entry still runs and no poll reached `I1`; or its second entry runs
since the first poll made at or after `I1`; or it is complete, a later poll
having been made `I2` or more after that one. -/
theorem seqChain_polls_state (tc : Nat) (I1 I2 : Int) (hI1 : 0 < I1) (hI2 : 0 < I2)
    (pre : List Nat) (hsorted : pre.Sorted (· ≤ ·)) (hb : ∀ u ∈ pre, u < 2 ^ 32) :
    ((seqChain tc I1 I2).polls pre = seqPhase0 tc I1 I2 ∧ ∀ u ∈ pre, (u : Int) < I1)
    ∨ (∃ s1 ∈ pre, I1 ≤ (s1 : Int) ∧ (∀ u ∈ pre, I1 ≤ (u : Int) → s1 ≤ u)
        ∧ ((seqChain tc I1 I2).polls pre = seqPhase1 s1 I1 I2
          ∨ ((seqChain tc I1 I2).polls pre = seqPhase2 s1 I1 I2
              ∧ ∃ s2 ∈ pre, (s1 : Int) + I2 ≤ (s2 : Int)))) := by
  induction pre using List.reverseRecOn with
  | nil => left; simp [AnimationChain.polls, seqChain_eq]
  | append_singleton pre t ih =>
    have hs1 : pre.Sorted (· ≤ ·) := (List.pairwise_append.1 hsorted).1
    have hle : ∀ u ∈ pre, u ≤ t := fun u hu =>
      (List.pairwise_append.1 hsorted).2.2 u hu t (by simp)
    have ht : t < 2 ^ 32 := hb t (by simp)
    rw [polls_append]
    rcases ih hs1 (fun u hu => hb u (by simp [hu])) with ⟨h0, hall⟩ | ⟨s1, hs1m, hs1I, hfirst, hph⟩
    · rw [h0]
      by_cases hlt : (t : Int) < I1
      · left
        refine ⟨by simp [AnimationChain.GetAnimOffset_fst, seqPhase0_update_lt tc I1 I2 t ht hI1 hlt], ?_⟩
        intro u hu
        rcases List.mem_append.1 hu with hu | hu
        · exact hall u hu
        · simp at hu; subst hu; exact hlt
      · right
        have hge : I1 ≤ (t : Int) := not_lt.1 hlt
        refine ⟨t, by simp, hge, ?_, Or.inl ?_⟩
        · intro u hu huI
          rcases List.mem_append.1 hu with hu | hu
          · exact absurd (hall u hu) (not_lt.2 huI)
          · simp at hu; subst hu; exact le_refl _
        · simp [AnimationChain.GetAnimOffset_fst, seqPhase0_update_ge tc I1 I2 t ht hI1 hge]
    · right
      have hst : s1 ≤ t := hle s1 hs1m
      refine ⟨s1, by simp [hs1m], hs1I, ?_, ?_⟩
      · intro u hu huI
        rcases List.mem_append.1 hu with hu | hu
        · exact hfirst u hu huI
        · simp at hu; subst hu; exact hst
      · rcases hph with h1 | ⟨h2, s2, hs2m, hs2⟩
        · rw [h1]
          by_cases hlt : (t : Int) < (s1 : Int) + I2
          · left
            simp [AnimationChain.GetAnimOffset_fst, seqPhase1_update_lt s1 I1 I2 t ht hI2 hst hlt]
          · right
            refine ⟨by simp [AnimationChain.GetAnimOffset_fst,
              seqPhase1_update_ge s1 I1 I2 t ht hI2 hst (not_lt.1 hlt)], t, by simp, not_lt.1 hlt⟩
        · right
          rw [h2]
          exact ⟨by simp [AnimationChain.GetAnimOffset_fst, seqPhase2_update],
            s2, by simp [hs2m], hs2⟩

/-- Value returned by a poll of a chain in a known state. -/
theorem AnimationChain.GetAnimOffset_snd (c : AnimationChain) (now : Nat) (offset : ℚ) :
    (c.GetAnimOffset now offset).2
      = if (c.Update now).done = false then
          ((c.Update now).animations[(c.Update now).index]?).bind
            (fun a => a.GetAnimOffset now offset)
        else (c.Update now).finalValue := by
  unfold AnimationChain.GetAnimOffset
  by_cases h : (c.Update now).done = false <;> simp [h]

/-- C2 (as amended): for the started two-entry chain (Linear 0 to 1 over I1,
then Linear 1 to 2 over I2, Clamp, with a completion handler) and every
non-decreasing schedule of polls: a poll at a time t with 2 t ≤ I1 returns a
value in [0, 1]; a poll at time t returns exactly 2, with the handler invoked
exactly once and the chain done, when an earlier poll was made at a time s
with I1 ≤ s and s + I2 ≤ t; without such an earlier poll the handler has not
been invoked. -/
theorem C2_chain_sequencing (tc : Nat) (I1 I2 : Int) (hI1 : 0 < I1) (hI2 : 0 < I2)
    (pre : List Nat) (t : Nat) (hsorted : (pre ++ [t]).Sorted (· ≤ ·))
    (hb : ∀ u ∈ pre ++ [t], u < 2 ^ 32) :
    (2 * (t : Int) ≤ I1 →
        ∃ v : ℚ, (((seqChain tc I1 I2).polls pre).GetAnimOffset t 0).2 = some v ∧ 0 ≤ v ∧ v ≤ 1)
    ∧ ((∃ s ∈ pre, I1 ≤ (s : Int) ∧ (s : Int) + I2 ≤ (t : Int)) →
        (((seqChain tc I1 I2).polls pre).GetAnimOffset t 0).2 = some 2
        ∧ (((seqChain tc I1 I2).polls pre).GetAnimOffset t 0).1.onDoneCalls = 1
        ∧ (((seqChain tc I1 I2).polls pre).GetAnimOffset t 0).1.Done = true)
    ∧ ((¬ ∃ s ∈ pre, I1 ≤ (s : Int) ∧ (s : Int) + I2 ≤ (t : Int)) →
        (((seqChain tc I1 I2).polls pre).GetAnimOffset t 0).1.onDoneCalls = 0) := by
  have hs1 : pre.Sorted (· ≤ ·) := (List.pairwise_append.1 hsorted).1
  have hle : ∀ u ∈ pre, u ≤ t := fun u hu =>
    (List.pairwise_append.1 hsorted).2.2 u hu t (by simp)
  have ht : t < 2 ^ 32 := hb t (by simp)
  have hst := seqChain_polls_state tc I1 I2 hI1 hI2 pre hs1 (fun u hu => hb u (by simp [hu]))
  have hIq : (0 : ℚ) < (I1 : ℚ) := by exact_mod_cast hI1
  refine ⟨?_, ?_, ?_⟩
  · intro h2t
    have hlt : (t : Int) < I1 := by omega
    rcases hst with ⟨h0, _⟩ | ⟨s1, hs1m, hs1I, _, _⟩
    · refine ⟨min (((t - 0 : Nat) : ℚ) / (I1 : ℚ) + 0) 1, ?_, ?_, min_le_right _ _⟩
      · rw [AnimationChain.GetAnimOffset_snd, h0, seqPhase0_update_lt tc I1 I2 t ht hI1 hlt]
        have := linEntry_value 0 t I1 1 0 0 (Nat.zero_le _) ht hI1
        simp only [linEntry] at this
        simp [seqPhase0, linEntry, this]
      · apply le_min _ zero_le_one
        have : (0 : ℚ) ≤ ((t - 0 : Nat) : ℚ) := Nat.cast_nonneg _
        simpa using div_nonneg this (le_of_lt hIq)
    · exact absurd (show (s1 : Int) ≤ t by exact_mod_cast hle s1 hs1m) (by omega)
  · rintro ⟨s, hsm, hsI, hsT⟩
    rcases hst with ⟨_, hall⟩ | ⟨s1, hs1m, hs1I, hfirst, hph⟩
    · exact absurd (hall s hsm) (not_lt.2 hsI)
    · have hs1s : (s1 : Int) ≤ s := by exact_mod_cast hfirst s hsm hsI
      have hs1t : s1 ≤ t := hle s1 hs1m
      rcases hph with h1 | ⟨h2, _⟩
      · rw [AnimationChain.GetAnimOffset_snd, AnimationChain.GetAnimOffset_fst, h1,
          seqPhase1_update_ge s1 I1 I2 t ht hI2 hs1t (by omega)]
        simp [seqPhase2, AnimationChain.Done]
      · rw [AnimationChain.GetAnimOffset_snd, AnimationChain.GetAnimOffset_fst, h2,
          seqPhase2_update]
        simp [seqPhase2, AnimationChain.Done]
  · intro hno
    rw [AnimationChain.GetAnimOffset_fst]
    rcases hst with ⟨h0, _⟩ | ⟨s1, hs1m, hs1I, _, hph⟩
    · rw [h0]
      by_cases hlt : (t : Int) < I1
      · rw [seqPhase0_update_lt tc I1 I2 t ht hI1 hlt]; rfl
      · rw [seqPhase0_update_ge tc I1 I2 t ht hI1 (not_lt.1 hlt)]; rfl
    · have hs1t : s1 ≤ t := hle s1 hs1m
      rcases hph with h1 | ⟨_, s2, hs2m, hs2⟩
      · have hlt : (t : Int) < (s1 : Int) + I2 := by
          by_contra hc
          exact hno ⟨s1, hs1m, hs1I, not_lt.1 hc⟩
        rw [h1, seqPhase1_update_lt s1 I1 I2 t ht hI2 hs1t hlt]; rfl
      · have : (s2 : Int) ≤ t := by exact_mod_cast hle s2 hs2m
        exact absurd ⟨s1, hs1m, hs1I, by omega⟩ hno

/-- C2 (as stated) fails: with I1 = I2 = 1000 ms, the chain started at time 0
and polled for the first time at t = 2000 ≥ I1 + I2 returns 1, not 2, and the
completion handler has not been invoked. -/
theorem C2_counterexample :
    (((seqChain 0 1000 1000).polls []).GetAnimOffset 2000 0).2 = some 1
    ∧ (((seqChain 0 1000 1000).polls []).GetAnimOffset 2000 0).2 ≠ some 2
    ∧ (((seqChain 0 1000 1000).polls []).GetAnimOffset 2000 0).1.onDoneCalls = 0 := by
  have hu : (seqChain 0 1000 1000).Update 2000 = seqPhase1 2000 1000 1000 := by
    rw [seqChain_eq]
    exact seqPhase0_update_ge 0 1000 1000 2000 (by norm_num) (by norm_num) (by norm_num)
  have hv : (linEntry 2000 1000 1 1 false).GetAnimOffset 2000 0 = some 1 := by
    rw [linEntry_value 2000 2000 1000 1 1 0 (le_refl _) (by norm_num) (by norm_num)]
    norm_num
  have h2 : (((seqChain 0 1000 1000).polls []).GetAnimOffset 2000 0).2 = some 1 := by
    simp only [linEntry] at hv
    simp [AnimationChain.polls, AnimationChain.GetAnimOffset_snd, hu, seqPhase1, linEntry, hv]
  refine ⟨h2, ?_, ?_⟩
  · rw [h2]; norm_num
  · simp [AnimationChain.polls, AnimationChain.GetAnimOffset_fst, hu, seqPhase1]

/-! ## AnimationChain: completion of a Clamp chain -/

theorem Animation.GetAnimFixed_Reset (a : Animation) (now : Nat) (p : Bool) (x : ℚ) :
    (a.Reset now p).GetAnimFixed x = a.GetAnimFixed x := by
  simp [Animation.GetAnimFixed, Animation.Crop, Animation.Reset]

theorem Animation.GetAnimFixed_Pause (a : Animation) (now : Nat) (p : Bool) (x : ℚ) :
    (a.Pause now p).GetAnimFixed x = a.GetAnimFixed x := by
  unfold Animation.Pause
  split_ifs <;> simp [Animation.GetAnimFixed, Animation.Crop]

theorem AnimationChain.length_modifyAt (l : List Animation) (i : Nat) (f : Animation → Animation) :
    (AnimationChain.modifyAt l i f).length = l.length := by
  unfold AnimationChain.modifyAt
  split <;> simp

theorem AnimationChain.map_modifyAt (l : List Animation) (i : Nat) (f : Animation → Animation)
    (g : Animation → ℚ) (hfg : ∀ a, g (f a) = g a) :
    (AnimationChain.modifyAt l i f).map g = l.map g := by
  unfold AnimationChain.modifyAt
  split
  · rename_i x hx
    apply List.ext_getElem?
    intro n
    by_cases hn : i = n
    · subst hn
      have hlt : i < l.length := by
        by_contra hc
        rw [List.getElem?_eq_none (not_lt.1 hc)] at hx
        exact Option.noConfusion hx
      have hxe : l[i] = x := by
        rw [List.getElem?_eq_getElem hlt] at hx
        exact Option.some.inj hx
      simp [List.getElem?_set, hfg, hlt, hxe]
    · simp [List.getElem?_set, hn]
  · rfl

/-- A done entry returns its value at position 1. -/
theorem Animation.GetAnimOffset_of_Done (a : Animation) (now : Nat) (h : a.Done now = true) :
    a.GetAnimOffset now 0 = some (a.GetAnimFixed 1) := by
  unfold Animation.Done at h
  simp only [Bool.and_eq_true, decide_eq_true_eq] at h
  unfold Animation.GetAnimOffset
  rw [h.2]
  simp [Animation.GetAnimFixed]

theorem AnimationChain.valueAtOne_modifyAt (c : AnimationChain) (i : Nat)
    (f : Animation → Animation) (hf : ∀ a, (f a).GetAnimFixed 1 = a.GetAnimFixed 1) :
    (AnimationChain.modifyAt c.animations i f).map (fun a => a.GetAnimFixed 1)
      = c.animations.map (fun a => a.GetAnimFixed 1) :=
  AnimationChain.map_modifyAt c.animations i f (fun a => a.GetAnimFixed 1) hf

/-- Effect of the branch `index < size` of `Start`. -/
theorem AnimationChain.startEntry_facts (c : AnimationChain) (now : Nat) (reset : Bool) :
    (c.startEntry now reset).done = false
    ∧ (c.startEntry now reset).index = c.index
    ∧ (c.startEntry now reset).animations.length = c.animations.length
    ∧ (c.startEntry now reset).cycleType = c.cycleType
    ∧ (c.startEntry now reset).onDone = c.onDone
    ∧ (c.startEntry now reset).onDoneCalls = c.onDoneCalls
    ∧ (c.startEntry now reset).finalValue = c.finalValue
    ∧ (c.startEntry now reset).valueAtOne = c.valueAtOne := by
  refine ⟨rfl, rfl, ?_, rfl, rfl, rfl, rfl, ?_⟩
  · simp [AnimationChain.startEntry, AnimationChain.length_modifyAt]
  · unfold AnimationChain.valueAtOne
    simp only [AnimationChain.startEntry]
    rw [AnimationChain.valueAtOne_modifyAt]
    intro a
    rw [Animation.GetAnimFixed_Pause]
    split_ifs
    · rw [Animation.GetAnimFixed_Reset]
    · rfl

/-- `Start` on a Clamp chain whose index is inside the vector. -/
theorem AnimationChain.Start_inside (c : AnimationChain) (now : Nat) (reset : Bool)
    (hi : c.index < c.animations.length) :
    (c.Start now reset).done = false
    ∧ (c.Start now reset).index = c.index
    ∧ (c.Start now reset).animations.length = c.animations.length
    ∧ (c.Start now reset).cycleType = c.cycleType
    ∧ (c.Start now reset).onDone = c.onDone
    ∧ (c.Start now reset).onDoneCalls = c.onDoneCalls
    ∧ (c.Start now reset).finalValue = c.finalValue
    ∧ (c.Start now reset).valueAtOne = c.valueAtOne := by
  have h := AnimationChain.startEntry_facts { c with paused := false } now reset
  have he : c.Start now reset = AnimationChain.startEntry { c with paused := false } now reset := by
    simp [AnimationChain.Start, hi]
  rw [he]
  exact h

/-- `Start` on a Clamp chain whose index is just past the end. -/
theorem AnimationChain.Start_at_end (c : AnimationChain) (now : Nat) (reset : Bool)
    (hc : c.cycleType = CycleType.Clamp) (hi : c.index = c.animations.length) :
    c.Start now reset
      = { c with
          paused := false
          done := true
          onDoneCalls := if c.done = false ∧ c.onDone = true then c.onDoneCalls + 1
                         else c.onDoneCalls } := by
  cases hd : c.done <;> cases ho : c.onDone <;>
    simp [AnimationChain.Start, hi, hc, hd, ho]

theorem AnimationChain.StepOK_Start (c : AnimationChain) (now : Nat) (reset : Bool)
    (hc : c.cycleType = CycleType.Clamp) (hwf : c.WellFormed) (hcb : c.onDone = true) :
    c.StepOK (c.Start now reset) := by
  rcases hwf with ⟨hi, hd⟩ | ⟨hi, hd⟩
  · obtain ⟨h1, h2, h3, h4, h5, h6, h7, h8⟩ := AnimationChain.Start_inside c now reset hi
    refine ⟨by rw [h4, hc], Or.inl ⟨by rw [h2, h3]; exact hi, h1⟩, by rw [h5, hcb], h8, ?_, ?_⟩
    · intro h; rw [hd] at h; exact Bool.noConfusion h
    · intro _; exact Or.inl ⟨h1, h6⟩
  · rw [AnimationChain.Start_at_end c now reset hc hi]
    refine ⟨hc, Or.inr ⟨hi, rfl⟩, hcb, rfl, ?_, ?_⟩
    · intro _; exact ⟨rfl, rfl, by simp [hd]⟩
    · intro h; rw [hd] at h; exact Bool.noConfusion h

theorem AnimationChain.StepOK_Update (c : AnimationChain) (now : Nat)
    (hc : c.cycleType = CycleType.Clamp) (hwf : c.WellFormed) (hcb : c.onDone = true) :
    c.StepOK (c.Update now) := by
  have hrefl : c.StepOK c :=
    ⟨hc, hwf, hcb, rfl, fun h => ⟨h, rfl, rfl⟩, fun h => Or.inl ⟨h, rfl⟩⟩
  rcases hwf with ⟨hi, hd⟩ | ⟨hi, hd⟩
  · have hne : c.index ≠ c.animations.length := ne_of_lt hi
    have hget : c.animations[c.index]? = some c.animations[c.index] :=
      List.getElem?_eq_getElem hi
    unfold AnimationChain.Update
    rw [if_neg hne, hget]
    simp only
    by_cases hdone : (c.animations[c.index]).Done now = true
    · rw [if_pos hdone]
      have hfv := Animation.GetAnimOffset_of_Done _ now hdone
      rw [hfv]
      by_cases hlast : c.index + 1 < c.animations.length
      · obtain ⟨h1, h2, h3, h4, h5, h6, h7, h8⟩ := AnimationChain.Start_inside
          { c with finalValue := some ((c.animations[c.index]).GetAnimFixed 1),
                   index := c.index + 1 } now true hlast
        refine ⟨by rw [h4]; exact hc, Or.inl ⟨by rw [h2, h3]; exact hlast, h1⟩,
          by rw [h5]; exact hcb, h8, ?_, ?_⟩
        · intro h; rw [hd] at h; exact Bool.noConfusion h
        · intro _; exact Or.inl ⟨h1, h6⟩
      · have hend : c.index + 1 = c.animations.length := by omega
        rw [AnimationChain.Start_at_end
          { c with finalValue := some ((c.animations[c.index]).GetAnimFixed 1),
                   index := c.index + 1 } now true hc hend]
        refine ⟨hc, Or.inr ⟨hend, rfl⟩, hcb, rfl, ?_, ?_⟩
        · intro h; rw [hd] at h; exact Bool.noConfusion h
        · intro _
          refine Or.inr ⟨rfl, by simp [hd, hcb], ?_⟩
          show some ((c.animations[c.index]).GetAnimFixed 1) = c.valueAtOne
          unfold AnimationChain.valueAtOne
          rw [List.getLast?_eq_getElem?, List.length_map, List.getElem?_map]
          have : c.animations.length - 1 = c.index := by omega
          rw [this, hget]
          rfl
    · rw [if_neg hdone]
      exact hrefl
  · unfold AnimationChain.Update
    rw [if_pos hi]
    exact hrefl

theorem AnimationChain.StepOK_Pause (c : AnimationChain) (now : Nat) (pause : Bool)
    (hc : c.cycleType = CycleType.Clamp) (hwf : c.WellFormed) (hcb : c.onDone = true) :
    c.StepOK (c.Pause now pause) := by
  rcases hwf with ⟨hi, hd⟩ | ⟨hi, hd⟩
  · -- the current entry is paused or unpaused, the chain stays not done
    obtain ⟨l, hl⟩ : ∃ l, l = AnimationChain.modifyAt c.animations c.index
        (fun a => a.Pause now pause) := ⟨_, rfl⟩
    have hmap : l.map (fun a => a.GetAnimFixed 1)
        = c.animations.map (fun a => a.GetAnimFixed 1) := by
      rw [hl]
      exact AnimationChain.valueAtOne_modifyAt c c.index _
        (fun a => Animation.GetAnimFixed_Pause a now pause 1)
    have hlen : l.length = c.animations.length := by
      rw [hl]; exact AnimationChain.length_modifyAt _ _ _
    have hv : ({ c with animations := l } : AnimationChain).valueAtOne = c.valueAtOne := by
      unfold AnimationChain.valueAtOne
      simp only
      rw [hmap]
    cases pause
    · have hi1 : ({ c with animations := l } : AnimationChain).index
          < ({ c with animations := l } : AnimationChain).animations.length := by
        simpa [hlen] using hi
      obtain ⟨h1, h2, h3, h4, h5, h6, h7, h8⟩ := AnimationChain.Start_inside _ now false hi1
      have he : c.Pause now false
          = { (AnimationChain.Start { c with animations := l } now false) with paused := false } := by
        simp [AnimationChain.Pause, hi, hl]
      rw [he]
      refine ⟨by simpa [hc] using h4, Or.inl ⟨?_, by simpa using h1⟩, by simpa [hcb] using h5,
        ?_, ?_, ?_⟩
      · simpa [h2, h3, hlen] using hi
      · unfold AnimationChain.valueAtOne at h8 hv ⊢
        simpa using h8.trans hv
      · intro h; rw [hd] at h; exact Bool.noConfusion h
      · intro _; exact Or.inl ⟨by simpa using h1, by simpa using h6⟩
    · have he : c.Pause now true = { c with animations := l, paused := true } := by
        simp [AnimationChain.Pause, hi, hl]
      rw [he]
      refine ⟨hc, Or.inl ⟨by simpa [hlen] using hi, hd⟩, hcb, ?_, ?_, ?_⟩
      · unfold AnimationChain.valueAtOne at hv ⊢
        simpa using hv
      · intro h; rw [hd] at h; exact Bool.noConfusion h
      · intro _; exact Or.inl ⟨hd, rfl⟩
  · -- the chain is complete: nothing but the pause flag changes
    have hnl : ¬ c.index < c.animations.length := by omega
    cases pause
    · have he : c.Pause now false = { c with paused := false } := by
        simp [AnimationChain.Pause, hnl, AnimationChain.Start_at_end c now false hc hi, hd]
      rw [he]
      exact ⟨hc, Or.inr ⟨hi, hd⟩, hcb, rfl, fun h => ⟨h, rfl, rfl⟩,
        fun h => Or.inl ⟨h, rfl⟩⟩
    · have he : c.Pause now true = { c with paused := true } := by
        simp [AnimationChain.Pause, hnl]
      rw [he]
      exact ⟨hc, Or.inr ⟨hi, hd⟩, hcb, rfl, fun h => ⟨h, rfl, rfl⟩,
        fun h => Or.inl ⟨h, rfl⟩⟩

/-- Every call keeps the completion discipline of a Clamp chain. -/
theorem AnimationChain.StepOK_call (c : AnimationChain) (k : ChainCall) (now : Nat)
    (hc : c.cycleType = CycleType.Clamp) (hwf : c.WellFormed) (hcb : c.onDone = true) :
    c.StepOK (c.call k now) := by
  cases k with
  | update => exact AnimationChain.StepOK_Update c now hc hwf hcb
  | getAnimOffset offset =>
      show c.StepOK (c.GetAnimOffset now offset).1
      rw [AnimationChain.GetAnimOffset_fst]
      exact AnimationChain.StepOK_Update c now hc hwf hcb
  | start reset => exact AnimationChain.StepOK_Start c now reset hc hwf hcb
  | pause pause => exact AnimationChain.StepOK_Pause c now pause hc hwf hcb

theorem AnimationChain.StepOK_refl (c : AnimationChain)
    (hc : c.cycleType = CycleType.Clamp) (hwf : c.WellFormed) (hcb : c.onDone = true) :
    c.StepOK c :=
  ⟨hc, hwf, hcb, rfl, fun h => ⟨h, rfl, rfl⟩, fun h => Or.inl ⟨h, rfl⟩⟩

theorem AnimationChain.StepOK_trans {a b c : AnimationChain}
    (hab : a.StepOK b) (hbc : b.StepOK c) : a.StepOK c := by
  obtain ⟨_, _, _, hv1, hd1, hn1⟩ := hab
  obtain ⟨h1, h2, h3, hv2, hd2, hn2⟩ := hbc
  refine ⟨h1, h2, h3, hv2.trans hv1, ?_, ?_⟩
  · intro h
    obtain ⟨hb, hf, hk⟩ := hd1 h
    obtain ⟨hb2, hf2, hk2⟩ := hd2 hb
    exact ⟨hb2, hf2.trans hf, hk2.trans hk⟩
  · intro h
    rcases hn1 h with ⟨hb, hk⟩ | ⟨hb, hk, hf⟩
    · rcases hn2 hb with ⟨hb2, hk2⟩ | ⟨hb2, hk2, hf2⟩
      · exact Or.inl ⟨hb2, hk2.trans hk⟩
      · exact Or.inr ⟨hb2, by rw [hk2, hk], by rw [hf2, hv1]⟩
    · obtain ⟨hb2, hf2, hk2⟩ := hd2 hb
      exact Or.inr ⟨hb2, hk2.trans hk, hf2.trans hf⟩

theorem AnimationChain.calls_append (c : AnimationChain) (ks js : List (ChainCall × Nat)) :
    c.calls (ks ++ js) = (c.calls ks).calls js := by
  simp [AnimationChain.calls, List.foldl_append]

theorem AnimationChain.calls_singleton (c : AnimationChain) (k : ChainCall × Nat) :
    c.calls [k] = c.call k.1 k.2 := rfl

/-- Every sequence of calls keeps the completion discipline of a Clamp chain. -/
theorem AnimationChain.StepOK_calls (ks : List (ChainCall × Nat)) (c : AnimationChain)
    (hc : c.cycleType = CycleType.Clamp) (hwf : c.WellFormed) (hcb : c.onDone = true) :
    c.StepOK (c.calls ks) := by
  induction ks generalizing c with
  | nil => exact AnimationChain.StepOK_refl c hc hwf hcb
  | cons k ks ih =>
    have h1 := AnimationChain.StepOK_call c k.1 k.2 hc hwf hcb
    have h2 := ih (c.call k.1 k.2) h1.1 h1.2.1 h1.2.2.1
    exact AnimationChain.StepOK_trans h1 h2

/-- A complete Clamp chain returns its frozen value for every offset, at every time. -/
theorem AnimationChain.GetAnimOffset_frozen (c : AnimationChain) (now : Nat) (offset : ℚ)
    (hwf : c.WellFormed) (hd : c.done = true) :
    c.GetAnimOffset now offset = (c, c.finalValue) := by
  rcases hwf with ⟨_, hd2⟩ | ⟨hi, _⟩
  · rw [hd] at hd2; exact Bool.noConfusion hd2
  · have hu : c.Update now = c := by
      unfold AnimationChain.Update
      rw [if_pos hi]
    unfold AnimationChain.GetAnimOffset
    simp [hu, hd]

/-- C3: for a Clamp chain with at least one entry and a completion handler,
over every sequence of Update / GetAnimOffset / Start / Pause calls (at any
times, in particular non-decreasing ones): the handler is invoked at most
once; each call invokes it at most once, and does so exactly when Done()
turns from false to true in that call; once Done() is true it stays true, the
frozen finalValue no longer changes and GetAnimOffset returns it for every
offset and time; and the value frozen when the chain completes is the last
entry's value at position 1. -/
theorem C3_clamp_chain_completion (c : AnimationChain)
    (hc : c.cycleType = CycleType.Clamp) (hwf : c.WellFormed)
    (hne : c.animations ≠ []) (hcb : c.onDone = true) (ks : List (ChainCall × Nat)) :
    (c.calls ks).onDoneCalls ≤ c.onDoneCalls + 1
    ∧ (∀ pre k post, ks = pre ++ k :: post →
        ((c.calls (pre ++ [k])).onDoneCalls = (c.calls pre).onDoneCalls
          ∨ (c.calls (pre ++ [k])).onDoneCalls = (c.calls pre).onDoneCalls + 1)
        ∧ ((c.calls (pre ++ [k])).onDoneCalls = (c.calls pre).onDoneCalls + 1
            ↔ ((c.calls pre).Done = false ∧ (c.calls (pre ++ [k])).Done = true)))
    ∧ (∀ pre post, ks = pre ++ post → (c.calls pre).Done = true →
        (c.calls ks).Done = true
        ∧ (c.calls ks).finalValue = (c.calls pre).finalValue
        ∧ ∀ (offset : ℚ) (now : Nat),
            ((c.calls ks).GetAnimOffset now offset).2 = (c.calls pre).finalValue
            ∧ ((c.calls ks).GetAnimOffset now offset).1.Done = true)
    ∧ (c.Done = false → (c.calls ks).Done = true →
        (c.calls ks).finalValue = some ((c.animations.getLast hne).GetAnimFixed 1)) := by
  have hall := AnimationChain.StepOK_calls ks c hc hwf hcb
  refine ⟨?_, ?_, ?_, ?_⟩
  · obtain ⟨_, _, _, _, hd, hn⟩ := hall
    cases hdone : c.done
    · rcases hn hdone with ⟨_, hk⟩ | ⟨_, hk, _⟩ <;> omega
    · have := (hd hdone).2.2; omega
  · intro pre k post _
    have hpre := AnimationChain.StepOK_calls pre c hc hwf hcb
    have hstep := AnimationChain.StepOK_call (c.calls pre) k.1 k.2 hpre.1 hpre.2.1 hpre.2.2.1
    rw [AnimationChain.calls_append, AnimationChain.calls_singleton]
    obtain ⟨_, _, _, _, hd, hn⟩ := hstep
    unfold AnimationChain.Done
    cases hdone : (c.calls pre).done
    · rcases hn hdone with ⟨hb, hk⟩ | ⟨hb, hk, _⟩
      · refine ⟨Or.inl hk, ?_⟩
        rw [hk, hb]
        constructor
        · intro h; omega
        · intro h; exact absurd h.2 (by simp)
      · exact ⟨Or.inr hk, fun _ => ⟨rfl, hb⟩, fun _ => hk⟩
    · obtain ⟨hb, _, hk⟩ := hd hdone
      refine ⟨Or.inl hk, ?_⟩
      rw [hk]
      constructor
      · intro h; omega
      · intro h; exact absurd h.1 (by simp)
  · intro pre post hks hdone
    have hpre := AnimationChain.StepOK_calls pre c hc hwf hcb
    have hpost := AnimationChain.StepOK_calls post (c.calls pre) hpre.1 hpre.2.1 hpre.2.2.1
    rw [hks, AnimationChain.calls_append]
    obtain ⟨_, hwf2, _, _, hd, _⟩ := hpost
    obtain ⟨hb, hf, _⟩ := hd hdone
    refine ⟨hb, hf, ?_⟩
    intro offset now
    rw [AnimationChain.GetAnimOffset_frozen _ now offset hwf2 hb]
    exact ⟨hf, hb⟩
  · intro h0 h1
    obtain ⟨_, _, _, _, _, hn⟩ := hall
    rcases hn h0 with ⟨hb, _⟩ | ⟨_, _, hf⟩
    · unfold AnimationChain.Done at h1
      rw [hb] at h1; exact Bool.noConfusion h1
    · rw [hf]
      unfold AnimationChain.valueAtOne
      rw [List.getLast?_eq_getLast _ (by simpa using hne)]
      simp [List.getLast_map]

/-! ## AnimationChain: the shape of the chains built through the interface -/

/-- `Start` on a chain whose index is at most the number of entries and whose
cycle type is Clamp or Repeat gives a well-formed chain, provided the chain
is done whenever it has no entry. -/
theorem AnimationChain.WellFormed_Start (c : AnimationChain) (now : Nat) (reset : Bool)
    (hle : c.index ≤ c.animations.length) (hct : c.cycleType ≠ CycleType.Reverse)
    (hempty : c.animations.length = 0 → c.done = true) :
    (c.Start now reset).WellFormed ∧ (c.Start now reset).cycleType = c.cycleType := by
  by_cases hi : c.index < c.animations.length
  · obtain ⟨h1, h2, h3, h4, _⟩ := AnimationChain.Start_inside c now reset hi
    exact ⟨Or.inl ⟨by rw [h2, h3]; exact hi, h1⟩, h4⟩
  · have hend : c.index = c.animations.length := by omega
    cases hc : c.cycleType with
    | Clamp =>
      rw [AnimationChain.Start_at_end c now reset hc hend]
      exact ⟨Or.inr ⟨hend, rfl⟩, hc⟩
    | Reverse => exact absurd hc hct
    | Repeat =>
      by_cases hl : 0 < c.animations.length
      · have he : c.Start now reset
            = AnimationChain.startEntry { c with paused := false, index := 0 } now true := by
          simp [AnimationChain.Start, hi, hc, hl]
        rw [he]
        obtain ⟨h1, h2, h3, h4, _⟩ :=
          AnimationChain.startEntry_facts { c with paused := false, index := 0 } now true
        exact ⟨Or.inl ⟨by rw [h2, h3]; exact hl, h1⟩, by rw [h4]; exact hc⟩
      · have hz : c.animations.length = 0 := by omega
        have he : c.Start now reset = { c with paused := false, index := 0 } := by
          simp [AnimationChain.Start, hi, hc, hl]
        rw [he]
        exact ⟨Or.inr ⟨by simp [hz], hempty hz⟩, hc⟩

/-- Every chain built through the public interface is well-formed, with cycle
type Clamp or Repeat. -/
theorem AnimationChain.Built.wellFormed {c : AnimationChain} (h : c.Built) :
    c.WellFormed ∧ c.cycleType ≠ CycleType.Reverse := by
  have hle_of : ∀ c : AnimationChain, c.WellFormed → c.index ≤ c.animations.length := by
    intro c hw
    rcases hw with ⟨h1, _⟩ | ⟨h1, _⟩ <;> omega
  have hempty_of : ∀ c : AnimationChain, c.WellFormed →
      c.animations.length = 0 → c.done = true := by
    intro c hw hz
    rcases hw with ⟨h1, _⟩ | ⟨_, h2⟩
    · omega
    · exact h2
  have hupd : ∀ (c : AnimationChain) (now : Nat),
      c.WellFormed ∧ c.cycleType ≠ CycleType.Reverse →
      (c.Update now).WellFormed ∧ (c.Update now).cycleType ≠ CycleType.Reverse := by
    intro c now ih
    unfold AnimationChain.Update
    by_cases hi : c.index = c.animations.length
    · rw [if_pos hi]; exact ih
    · rw [if_neg hi]
      cases hget : c.animations[c.index]? with
      | none => exact ih
      | some a =>
        simp only
        by_cases hdone : a.Done now = true
        · rw [if_pos hdone]
          have hlt : c.index < c.animations.length := by
            have := hle_of c ih.1
            omega
          obtain ⟨h1, h2⟩ := AnimationChain.WellFormed_Start
            { c with finalValue := a.GetAnimOffset now 0, index := c.index + 1 } now true
            (by simpa using hlt) ih.2
            (by
              intro hz
              exfalso
              have hz2 : c.animations.length = 0 := hz
              omega)
          exact ⟨h1, by rw [h2]; exact ih.2⟩
        · rw [if_neg hdone]; exact ih
  induction h with
  | empty => exact ⟨Or.inr ⟨rfl, rfl⟩, by simp [AnimationChain.empty]⟩
  | ofAnimation now a =>
    exact ⟨Or.inl ⟨by simp [AnimationChain.ofAnimation, AnimationChain.Add], rfl⟩,
      by simp [AnimationChain.ofAnimation, AnimationChain.Add]⟩
  | add c now a _ ih =>
    refine ⟨Or.inl ⟨?_, rfl⟩, ih.2⟩
    have := hle_of c ih.1
    simp only [AnimationChain.Add, List.length_append, List.length_singleton]
    omega
  | setDoneEventHandler c installed _ ih => exact ih
  | setCycleType c ct _ hct ih => exact ⟨ih.1, hct⟩
  | start c now reset _ ih =>
    obtain ⟨h1, h2⟩ := AnimationChain.WellFormed_Start c now reset (hle_of c ih.1) ih.2
      (hempty_of c ih.1)
    exact ⟨h1, by rw [h2]; exact ih.2⟩
  | reset c now _ ih =>
    unfold AnimationChain.Reset
    by_cases hl : 0 < c.animations.length
    · simp only [hl, if_true]
      obtain ⟨h1, h2⟩ := AnimationChain.WellFormed_Start { c with index := 0 } now true
        (Nat.zero_le _) ih.2 (fun hz => absurd hz (by simpa using Nat.pos_iff_ne_zero.1 hl))
      exact ⟨h1, by rw [h2]; exact ih.2⟩
    · simp only [hl, if_false]
      have hz : c.animations.length = 0 := by omega
      exact ⟨Or.inr ⟨by simp [hz], hempty_of c ih.1 hz⟩, ih.2⟩
  | pause c now pause _ ih =>
    obtain ⟨l, hl⟩ : ∃ l, l = AnimationChain.modifyAt c.animations c.index
        (fun a => a.Pause now pause) := ⟨_, rfl⟩
    have hlen : l.length = c.animations.length := by
      rw [hl]; exact AnimationChain.length_modifyAt _ _ _
    obtain ⟨c1, hc1⟩ : ∃ c1 : AnimationChain, c1 =
        (if c.index < c.animations.length then { c with animations := l } else c) := ⟨_, rfl⟩
    have hw1 : c1.WellFormed ∧ c1.cycleType = c.cycleType := by
      rw [hc1]
      rcases ih.1 with ⟨hi, hd⟩ | ⟨hi, hd⟩
      · simp only [hi, if_true]
        exact ⟨Or.inl ⟨by simpa [hlen] using hi, hd⟩, trivial⟩
      · have : ¬ c.index < c.animations.length := by omega
        simp only [this, if_false]
        exact ⟨Or.inr ⟨hi, hd⟩, trivial⟩
    have he : c.Pause now pause
        = { (if !pause then c1.Start now false else c1) with paused := pause } := by
      rw [hc1, hl]; rfl
    rw [he]
    cases pause
    · obtain ⟨h1, h2⟩ := AnimationChain.WellFormed_Start c1 now false (hle_of c1 hw1.1)
        (by rw [hw1.2]; exact ih.2) (hempty_of c1 hw1.1)
      refine ⟨?_, by simpa [h2, hw1.2] using ih.2⟩
      simpa [AnimationChain.WellFormed] using h1
    · refine ⟨?_, by simpa [hw1.2] using ih.2⟩
      simpa [AnimationChain.WellFormed] using hw1.1
  | update c now _ ih => exact hupd c now ih
  | getAnimOffset c now offset _ ih =>
    rw [AnimationChain.GetAnimOffset_fst]
    exact hupd c now ih

/-! ## SceneObject: the update loop in closed form -/

theorem mem_allBindings (b : SceneObjectBindings) : b ∈ allBindings := by
  cases b <;> simp [allBindings]

theorem nodup_allBindings : allBindings.Nodup := by
  simp [allBindings]

theorem SceneObject.polled_nil (o : SceneObject) (now : Nat) : o.polled now [] = o := by
  cases o
  simp [SceneObject.polled]

/-- One round of the loop, for a name that resolves to a field. -/
theorem SceneObject.updateBinding_eq (o : SceneObject) (now : Nat) (b : SceneObjectBindings)
    (hb : o.animations b ≠ none → o.getBinding b = true) :
    SceneObject.updateBinding now o b = some (o.polled now [b]) := by
  obtain ⟨self, owner, anims, m, db, d, v, gb, fld, i1, i2, i3⟩ := o
  simp only at hb
  unfold SceneObject.updateBinding
  simp only
  cases hch : anims b with
  | none =>
    simp only [SceneObject.polled, Option.some.injEq, SceneObject.mk.injEq, true_and, and_true,
      List.mem_singleton]
    refine ⟨?_, ?_, ?_⟩
    · funext x
      by_cases hx : x = b
      · subst hx; simp [hch]
      · simp [hx]
    · by_cases hm : m = b
      · subst hm; simp [hch, SceneObject.masterDone]
      · simp [hm]
    · funext x
      by_cases hx : x = b
      · subst hx; simp [hch, SceneObject.polledField]
      · simp [hx]
  | some chain =>
    have hg : gb b = true := hb (by simp [hch])
    simp only [hg, Bool.true_eq_false, if_false]
    have ha : Function.update anims b (some (chain.GetAnimOffset now 0).1)
        = fun x => if x ∈ [b] then (anims x).map (fun c => (c.GetAnimOffset now 0).1)
            else anims x := by
      funext x
      by_cases hx : x = b
      · subst hx; simp [hch]
      · simp [hx]
    have hf : Function.update fld b (chain.GetAnimOffset now 0).2
        = fun x => if x ∈ [b] then
            SceneObject.polledField ⟨self, owner, anims, m, db, d, v, gb, fld, i1, i2, i3⟩ now x
            else fld x := by
      funext x
      by_cases hx : x = b
      · subst hx; simp [hch, SceneObject.polledField]
      · simp [hx]
    simp only [SceneObject.polled, ha, hf]
    by_cases hm : m = b
    · subst hm
      cases hd : (chain.GetAnimOffset now 0).1.Done <;>
        simp [hch, hd, SceneObject.masterDone]
    · simp [hm, hch]

theorem SceneObject.polled_polled (o : SceneObject) (now : Nat) (b : SceneObjectBindings)
    (bs : List SceneObjectBindings) (hnb : b ∉ bs) :
    (o.polled now [b]).polled now bs = o.polled now (b :: bs) := by
  obtain ⟨self, owner, anims, m, db, d, v, gb, fld, i1, i2, i3⟩ := o
  simp only [SceneObject.polled, SceneObject.mk.injEq, true_and, and_true, List.mem_singleton,
    List.mem_cons, SceneObject.polledField, SceneObject.masterDone]
  refine ⟨?_, ?_, ?_⟩
  · funext x
    by_cases hx : x = b
    · subst hx; simp [hnb]
    · simp [hx]
  · by_cases hm : m = b
    · subst hm; simp [hnb]
    · by_cases hmb : m ∈ bs <;> simp [hm, hmb]
  · funext x
    by_cases hx : x = b
    · subst hx; simp [hnb]
    · by_cases hxb : x ∈ bs <;> simp [hx, hxb]

theorem SceneObject.Bindable_polled (o : SceneObject) (now : Nat) (bs : List SceneObjectBindings)
    (hb : o.Bindable) : (o.polled now bs).Bindable := by
  intro b hne
  have : o.animations b ≠ none := by
    intro h
    apply hne
    simp [SceneObject.polled, h]
  exact hb b this

theorem SceneObject.foldlM_updateBinding (bs : List SceneObjectBindings) (hnd : bs.Nodup)
    (o : SceneObject) (now : Nat) (hb : o.Bindable) :
    bs.foldlM (SceneObject.updateBinding now) o = some (o.polled now bs) := by
  induction bs generalizing o with
  | nil => simp [SceneObject.polled_nil]
  | cons b bs ih =>
    rw [List.foldlM_cons, SceneObject.updateBinding_eq o now b (hb b)]
    simp only [Option.some_bind, Option.bind_eq_bind]
    rw [ih (List.nodup_cons.1 hnd).2 _ (SceneObject.Bindable_polled o now [b] hb),
      SceneObject.polled_polled o now b bs (List.nodup_cons.1 hnd).1]

/-- `SceneObject::Update` in closed form: every bound chain has been polled
once and its value written to its field; `done` is set when the master
binding is bound and its chain is done after the poll. -/
theorem SceneObject.Update_eq (o : SceneObject) (now : Nat) (hb : o.Bindable) :
    o.Update now = some (o.updated now) := by
  unfold SceneObject.Update
  rw [SceneObject.foldlM_updateBinding allBindings nodup_allBindings o now hb]
  simp [SceneObject.polled, SceneObject.updated, mem_allBindings]

/-! ## Scene: deferred removal -/

theorem Scene.Remove_objects (s : Scene) (addr : Nat) :
    (s.Remove addr).objects = Scene.eraseAddr s.objects addr := by
  unfold Scene.Remove Scene.eraseAddr
  cases h : s.objects.find? (fun o => o.self == addr) with
  | none =>
    simp only
    rw [List.eraseP_of_forall_not]
    intro o ho
    have := List.find?_eq_none.1 h o ho
    simpa using this
  | some o => rfl

theorem Scene.foldl_Remove_objects (as : List Nat) (s : Scene) :
    (as.foldl Scene.Remove s).objects = as.foldl Scene.eraseAddr s.objects := by
  induction as generalizing s with
  | nil => rfl
  | cons a as ih =>
    simp only [List.foldl_cons]
    rw [ih, Scene.Remove_objects]

theorem Scene.flush_objects (s : Scene) :
    (s.flush).objects = s.markedForRemoval.foldl Scene.eraseAddr s.objects := by
  unfold Scene.flush
  exact Scene.foldl_Remove_objects _ s

theorem Scene.eraseAddr_sublist (l : List SceneObject) (a : Nat) :
    (Scene.eraseAddr l a).Sublist l :=
  List.eraseP_sublist l

theorem Scene.foldl_eraseAddr_sublist (as : List Nat) (l : List SceneObject) :
    (as.foldl Scene.eraseAddr l).Sublist l := by
  induction as generalizing l with
  | nil => exact List.Sublist.refl _
  | cons a as ih =>
    simp only [List.foldl_cons]
    exact (ih _).trans (Scene.eraseAddr_sublist l a)

theorem Scene.visit_self (now : Nat) (o : SceneObject) : (Scene.visit now o).self = o.self := by
  unfold Scene.visit
  split <;> rfl

theorem SceneObject.Bindable_updated (o : SceneObject) (now : Nat) (hb : o.Bindable) :
    (o.updated now).Bindable := by
  intro b hne
  have : o.animations b ≠ none := by
    intro h
    apply hne
    simp [SceneObject.updated, h]
  exact hb b this

theorem Scene.Bindable_visit (now : Nat) (o : SceneObject) (hb : o.Bindable) :
    (Scene.visit now o).Bindable := by
  unfold Scene.visit
  split
  · exact SceneObject.Bindable_updated o now hb
  · exact hb

/-- The traversal of `Scene::Update` in closed form: every object that is on
is updated, and the addresses of those then done are pushed in list order. -/
theorem Scene.updateLoop_eq (now : Nat) (l : List SceneObject) (hb : ∀ o ∈ l, o.Bindable) :
    Scene.updateLoop now l
      = some (l.map (Scene.visit now),
          (l.filter (fun o => o.IsOn && (Scene.visit now o).Done)).map (fun o => o.self)) := by
  induction l with
  | nil => rfl
  | cons o l ih =>
    have ho : o.Bindable := hb o (by simp)
    have hl : ∀ p ∈ l, p.Bindable := fun p hp => hb p (by simp [hp])
    unfold Scene.updateLoop
    rw [ih hl]
    cases hon : o.IsOn
    · have hv : Scene.visit now o = o := by simp [Scene.visit, hon]
      simp only [Bool.false_eq_true, if_false, Bool.false_and, List.map_cons, hv,
        List.filter_cons, hon]
    · have hv : Scene.visit now o = o.updated now := by simp [Scene.visit, hon]
      simp only [if_true, SceneObject.Update_eq o now ho, Bool.true_and, List.map_cons, hv,
        List.filter_cons, hon]
      cases hd : (o.updated now).Done
      · simp
      · simp [SceneObject.updated]

/-- `Scene::Update` in closed form, when every object left by the initial
flush resolves its bound names. -/
theorem Scene.Update_closed_form (s : Scene) (now : Nat) (hb : ∀ o ∈ (s.flush).objects, o.Bindable) :
    s.Update now = some
      { s.flush with
        objects := (s.flush).objects.map (Scene.visit now)
        markedForRemoval :=
          ((s.flush).objects.filter (fun o => o.IsOn && (Scene.visit now o).Done)).map
            (fun o => o.self) } := by
  unfold Scene.Update
  rw [Scene.updateLoop_eq now _ hb]

theorem Scene.map_self_visit (now : Nat) (l : List SceneObject) :
    (l.map (Scene.visit now)).map (fun o => o.self) = l.map (fun o => o.self) := by
  induction l with
  | nil => rfl
  | cons o l ih => simp [Scene.visit_self]

/-- In a list of distinct objects, erasing an address removes it altogether. -/
theorem Scene.not_mem_eraseAddr (l : List SceneObject) (a : Nat)
    (hnd : (l.map (fun o => o.self)).Nodup) :
    a ∉ (Scene.eraseAddr l a).map (fun o => o.self) := by
  unfold Scene.eraseAddr
  induction l with
  | nil => simp
  | cons x l ih =>
    simp only [List.map_cons, List.nodup_cons] at hnd
    by_cases hx : x.self = a
    · simp only [List.eraseP_cons, hx, beq_self_eq_true, cond_true]
      rw [← hx]; exact hnd.1
    · have hx2 : (x.self == a) = false := by simpa using hx
      simp only [List.eraseP_cons, hx2, cond_false, List.map_cons, List.mem_cons, not_or]
      exact ⟨fun h => hx h.symm, ih hnd.2⟩

theorem Scene.not_mem_foldl_eraseAddr (as : List Nat) (l : List SceneObject) (a : Nat)
    (hnd : (l.map (fun o => o.self)).Nodup) (ha : a ∈ as) :
    a ∉ (as.foldl Scene.eraseAddr l).map (fun o => o.self) := by
  induction as generalizing l with
  | nil => simp at ha
  | cons x as ih =>
    simp only [List.foldl_cons]
    by_cases hx : a = x
    · subst hx
      intro h
      exact Scene.not_mem_eraseAddr l a hnd
        (((Scene.foldl_eraseAddr_sublist as _).map (fun o => o.self)).subset h)
    · have ha2 : a ∈ as := by
        rcases List.mem_cons.1 ha with h | h
        · exact absurd h hx
        · exact h
      exact ih _ (hnd.sublist ((Scene.eraseAddr_sublist l x).map (fun o => o.self))) ha2

/-- C5: in a scene of distinct objects, the `Update()` call that observes a
visible object to be `Done()` does not remove it: the live list after the
call has the same members in the same order as after the call's initial
flush, the object among them, now scheduled for removal; after the next
`Update()` call the object is absent from the live list. -/
theorem C5_deferred_removal (s : Scene) (now now2 : Nat)
    (hb : ∀ o ∈ s.objects, o.Bindable)
    (hnd : (s.objects.map (fun o => o.self)).Nodup) :
    ∃ s1, s.Update now = some s1
      ∧ s1.objects.map (fun o => o.self) = (s.flush).objects.map (fun o => o.self)
      ∧ ∀ obj ∈ (s.flush).objects, obj.IsOn = true →
          (∃ obj1, obj.Update now = some obj1 ∧ obj1.Done = true) →
          obj.self ∈ s1.objects.map (fun o => o.self)
          ∧ obj.self ∈ s1.markedForRemoval
          ∧ ∃ s2, s1.Update now2 = some s2 ∧ obj.self ∉ s2.objects.map (fun o => o.self) := by
  have hsub : (s.flush).objects.Sublist s.objects := by
    rw [Scene.flush_objects]
    exact Scene.foldl_eraseAddr_sublist _ _
  have hb1 : ∀ o ∈ (s.flush).objects, o.Bindable := fun o ho => hb o (hsub.subset ho)
  have hnd1 : ((s.flush).objects.map (fun o => o.self)).Nodup :=
    hnd.sublist (hsub.map (fun o => o.self))
  refine ⟨_, Scene.Update_closed_form s now hb1, Scene.map_self_visit now _, ?_⟩
  intro obj hobj hon ⟨obj1, hupd, hdone⟩
  have hv : Scene.visit now obj = obj1 := by
    have h1 := SceneObject.Update_eq obj now (hb1 obj hobj)
    rw [h1] at hupd
    simp only [Scene.visit, hon, if_true]
    exact Option.some.inj hupd
  have hmark : obj.self ∈ ((s.flush).objects.filter
      (fun o => o.IsOn && (Scene.visit now o).Done)).map (fun o => o.self) := by
    apply List.mem_map_of_mem
    rw [List.mem_filter]
    exact ⟨hobj, by simp [hon, hv, hdone]⟩
  refine ⟨?_, hmark, ?_⟩
  · show obj.self ∈ ((s.flush).objects.map (Scene.visit now)).map (fun o => o.self)
    rw [Scene.map_self_visit]
    exact List.mem_map_of_mem _ hobj
  · obtain ⟨s1, hs1⟩ : ∃ s1 : Scene, s1 =
        { s.flush with
          objects := (s.flush).objects.map (Scene.visit now)
          markedForRemoval :=
            ((s.flush).objects.filter (fun o => o.IsOn && (Scene.visit now o).Done)).map
              (fun o => o.self) } := ⟨_, rfl⟩
    rw [← hs1]
    have hobjs1 : s1.objects = (s.flush).objects.map (Scene.visit now) := by rw [hs1]
    have hmarks1 : s1.markedForRemoval = ((s.flush).objects.filter
        (fun o => o.IsOn && (Scene.visit now o).Done)).map (fun o => o.self) := by rw [hs1]
    have hnd2 : (s1.objects.map (fun o => o.self)).Nodup := by
      rw [hobjs1, Scene.map_self_visit]; exact hnd1
    have hbs1 : ∀ o ∈ s1.objects, o.Bindable := by
      intro o ho
      rw [hobjs1] at ho
      obtain ⟨p, hp, rfl⟩ := List.mem_map.1 ho
      exact Scene.Bindable_visit now p (hb1 p hp)
    have hsub2 : (s1.flush).objects.Sublist s1.objects := by
      rw [Scene.flush_objects]
      exact Scene.foldl_eraseAddr_sublist _ _
    refine ⟨_, Scene.Update_closed_form s1 now2 (fun o ho => hbs1 o (hsub2.subset ho)), ?_⟩
    show obj.self ∉ ((s1.flush).objects.map (Scene.visit now2)).map (fun o => o.self)
    rw [Scene.map_self_visit, Scene.flush_objects]
    exact Scene.not_mem_foldl_eraseAddr _ _ _ hnd2 (by rw [hmarks1]; exact hmark)

/-! ## SceneObject: completion through the master binding -/

/-- `Start` never completes a Repeat chain. -/
theorem AnimationChain.Start_repeat (c : AnimationChain) (now : Nat) (reset : Bool)
    (hr : c.cycleType = CycleType.Repeat) (hd : c.done = false) :
    (c.Start now reset).done = false ∧ (c.Start now reset).cycleType = CycleType.Repeat := by
  unfold AnimationChain.Start
  by_cases hi : c.index < c.animations.length
  · simp [hi, AnimationChain.startEntry, hr]
  · by_cases hl : 0 < c.animations.length
    · simp [hi, hr, hl, AnimationChain.startEntry]
    · simp [hi, hr, hl, hd]

/-- A poll never completes a Repeat chain. -/
theorem AnimationChain.Update_repeat (c : AnimationChain) (now : Nat)
    (hr : c.cycleType = CycleType.Repeat) (hd : c.done = false) :
    (c.Update now).done = false ∧ (c.Update now).cycleType = CycleType.Repeat := by
  unfold AnimationChain.Update
  by_cases hi : c.index = c.animations.length
  · simp [hi, hd, hr]
  · rw [if_neg hi]
    cases hget : c.animations[c.index]? with
    | none => exact ⟨hd, hr⟩
    | some a =>
      simp only
      by_cases hdone : a.Done now = true
      · rw [if_pos hdone]
        exact AnimationChain.Start_repeat _ now true hr hd
      · rw [if_neg hdone]
        exact ⟨hd, hr⟩

/-- C6: `SceneObject::Update` sets the object's done flag in the call in which
the chain bound to the master binding reports `Done()`; the flag, once true,
stays true; a call in which no chain is bound to the master binding, or in
which the master chain is not done, leaves a false flag false, whatever the
other chains do; every bound chain, master or not, is polled and its value
written to its field in each call; and a Repeat chain that is not done is
never done after a poll, so a binding it drives keeps being animated. -/
theorem C6_master_binding_done (o : SceneObject) (now : Nat) (hb : o.Bindable) :
    ∃ o1, o.Update now = some o1
      ∧ (∀ cm, o.animations o.masterAnimation = some cm →
          (cm.GetAnimOffset now 0).1.Done = true → o1.Done = true)
      ∧ (o.Done = true → o1.Done = true)
      ∧ (o.Done = false →
          (∀ cm, o.animations o.masterAnimation = some cm →
            (cm.GetAnimOffset now 0).1.Done = false) →
          o1.Done = false)
      ∧ (∀ b c, o.animations b = some c →
          o1.animations b = some (c.GetAnimOffset now 0).1
          ∧ o1.field b = (c.GetAnimOffset now 0).2)
      ∧ (∀ b c, o.animations b = some c → c.cycleType = CycleType.Repeat → c.Done = false →
          (c.GetAnimOffset now 0).1.Done = false
          ∧ (c.GetAnimOffset now 0).1.cycleType = CycleType.Repeat)
      ∧ o1.Bindable ∧ o1.masterAnimation = o.masterAnimation := by
  refine ⟨_, SceneObject.Update_eq o now hb, ?_, ?_, ?_, ?_, ?_,
    SceneObject.Bindable_updated o now hb, rfl⟩
  · intro cm hcm hdone
    simp [SceneObject.Done, SceneObject.updated, SceneObject.masterDone, hcm, hdone]
  · intro hd
    simp only [SceneObject.Done] at hd
    simp [SceneObject.Done, SceneObject.updated, hd]
  · intro hd hall
    simp only [SceneObject.Done] at hd
    cases hcm : o.animations o.masterAnimation with
    | none => simp [SceneObject.Done, SceneObject.updated, SceneObject.masterDone, hcm, hd]
    | some cm =>
      have := hall cm hcm
      simp [SceneObject.Done, SceneObject.updated, SceneObject.masterDone, hcm, hd, this]
  · intro b c hc
    simp [SceneObject.updated, SceneObject.polledField, hc]
  · intro b c _ hr hd
    rw [AnimationChain.GetAnimOffset_fst]
    exact AnimationChain.Update_repeat c now hr hd

/-! ## The end-to-end scenario -/

theorem ofAnimation_FromTo (tc : Nat) (start stop : ℚ) (I : Int) :
    AnimationChain.ofAnimation tc (Animation.FromTo tc start stop I false true)
      = idleChain tc start stop I := by
  simp [idleChain, AnimationChain.ofAnimation, AnimationChain.Add, Animation.FromTo,
    Animation.create, Animation.Reset, Animation.SetStartEventHandler, Animation.SetCycleType,
    linEntry]

theorem idleChain_Start (tc : Nat) (start stop : ℚ) (I : Int) :
    (idleChain tc start stop I).Start 0 false = runChain start stop I := by
  simp [idleChain, runChain, AnimationChain.Start, AnimationChain.startEntry,
    AnimationChain.modifyAt, Animation.Pause, linEntry]

/-- A chain that was never started stays at its start value. -/
theorem idleChain_poll (tc : Nat) (start stop : ℚ) (I : Int) (t : Nat) :
    (idleChain tc start stop I).GetAnimOffset t 0 = (idleChain tc start stop I, some start) := by
  have hp : (linEntry tc I (stop - start) start true).GetAnimPos t 0 = some 0 := by
    rw [Animation.GetAnimPos_clamp_paused _ _ _ rfl rfl]
    simp [linEntry]
  have hd : (linEntry tc I (stop - start) start true).Done t = false := by
    unfold Animation.Done
    rw [hp]
    simp
  have hv : (linEntry tc I (stop - start) start true).GetAnimOffset t 0 = some start := by
    unfold Animation.GetAnimOffset
    rw [hp]
    simp only [Option.map_some']
    rw [Animation.linear_value _ _ rfl rfl rfl]
    simp [linEntry]
  have hu : (idleChain tc start stop I).Update t = idleChain tc start stop I := by
    simp only [linEntry] at hd
    simp [AnimationChain.Update, idleChain, linEntry, hd]
  unfold AnimationChain.GetAnimOffset
  rw [hu]
  simp only [linEntry] at hv
  simp [idleChain, linEntry, hv]

/-- A poll of the running chain before the end of its interval. -/
theorem runChain_poll_lt (start stop : ℚ) (I : Int) (t : Nat) (ht : t < 2 ^ 32)
    (hI : 0 < I) (hlt : (t : Int) < I) :
    (runChain start stop I).GetAnimOffset t 0
      = (runChain start stop I, some (start + (stop - start) * ((t : ℚ) / (I : ℚ)))) := by
  have hd : (linEntry 0 I (stop - start) start false).Done t = false := by
    rw [linEntry_done 0 t I _ _ (Nat.zero_le _) ht hI]
    simpa using hlt
  have hIq : (0 : ℚ) < (I : ℚ) := by exact_mod_cast hI
  have hv : (linEntry 0 I (stop - start) start false).GetAnimOffset t 0
      = some (start + (stop - start) * ((t : ℚ) / (I : ℚ))) := by
    rw [linEntry_value 0 t I _ _ 0 (Nat.zero_le _) ht hI]
    have hle : ((t - 0 : Nat) : ℚ) / (I : ℚ) + 0 ≤ 1 := by
      rw [add_zero, div_le_one hIq]
      have : (t : ℚ) < (I : ℚ) := by exact_mod_cast hlt
      simpa using le_of_lt this
    rw [min_eq_left hle]
    simp
  have hu : (runChain start stop I).Update t = runChain start stop I := by
    simp only [linEntry] at hd
    simp [AnimationChain.Update, runChain, linEntry, hd]
  unfold AnimationChain.GetAnimOffset
  rw [hu]
  simp only [linEntry] at hv
  simp [runChain, linEntry, hv]

/-- A poll of the running chain at or after the end of its interval. -/
theorem runChain_poll_ge (start stop : ℚ) (I : Int) (t : Nat) (ht : t < 2 ^ 32)
    (hI : 0 < I) (hge : I ≤ (t : Int)) :
    (runChain start stop I).GetAnimOffset t 0 = (doneChain start stop I, some stop) := by
  have hd : (linEntry 0 I (stop - start) start false).Done t = true := by
    rw [linEntry_done 0 t I _ _ (Nat.zero_le _) ht hI]
    simpa using hge
  have hIq : (0 : ℚ) < (I : ℚ) := by exact_mod_cast hI
  have hv : (linEntry 0 I (stop - start) start false).GetAnimOffset t 0 = some stop := by
    rw [linEntry_value 0 t I _ _ 0 (Nat.zero_le _) ht hI]
    have hle : (1 : ℚ) ≤ ((t - 0 : Nat) : ℚ) / (I : ℚ) + 0 := by
      rw [add_zero, le_div_iff₀ hIq]
      have : (I : ℚ) ≤ (t : ℚ) := by exact_mod_cast hge
      simpa using this
    rw [min_eq_right hle]
    simp
  have hu : (runChain start stop I).Update t = doneChain start stop I := by
    simp only [linEntry] at hd hv
    simp [AnimationChain.Update, runChain, doneChain, linEntry, hd, hv, AnimationChain.Start]
  unfold AnimationChain.GetAnimOffset
  rw [hu]
  simp [doneChain]

theorem doneChain_poll (start stop : ℚ) (I : Int) (t : Nat) :
    (doneChain start stop I).GetAnimOffset t 0 = (doneChain start stop I, some stop) := by
  simp [AnimationChain.GetAnimOffset, AnimationChain.Update, doneChain]

/-- `Scene::Update` on a scene with one object that is on and no pending removal. -/
theorem Scene.Update_single (s : Scene) (o : SceneObject) (now : Nat)
    (hs : s.objects = [o]) (hm : s.markedForRemoval = []) (hon : o.IsOn = true)
    (hb : o.Bindable) :
    ∃ s1, s.Update now = some s1 ∧ s1.objects = [o.updated now]
      ∧ s1.markedForRemoval = (if (o.updated now).Done = true then [o.self] else []) := by
  have hf : (s.flush).objects = [o] := by
    rw [Scene.flush_objects, hm, hs]; rfl
  have hball : ∀ p ∈ (s.flush).objects, p.Bindable := by
    intro p hp; rw [hf] at hp; simp at hp; subst hp; exact hb
  refine ⟨_, Scene.Update_closed_form s now hball, ?_, ?_⟩
  · show (s.flush).objects.map (Scene.visit now) = [o.updated now]
    rw [hf]; simp [Scene.visit, hon]
  · show ((s.flush).objects.filter (fun o => o.IsOn && (Scene.visit now o).Done)).map
        (fun o => o.self) = _
    rw [hf]
    cases hd : (o.updated now).Done <;> simp [Scene.visit, hon, hd, List.filter_cons]

/-- `Scene::Update` on a scene whose one object is pending removal. -/
theorem Scene.Update_single_marked (s : Scene) (o : SceneObject) (now : Nat)
    (hs : s.objects = [o]) (hm : s.markedForRemoval = [o.self]) :
    ∃ s1, s.Update now = some s1 ∧ s1.objects = [] := by
  have hf : (s.flush).objects = [] := by
    rw [Scene.flush_objects, hm, hs]
    simp [Scene.eraseAddr]
  have hball : ∀ p ∈ (s.flush).objects, p.Bindable := by
    intro p hp; rw [hf] at hp; simp at hp
  refine ⟨_, Scene.Update_closed_form s now hball, ?_⟩
  show (s.flush).objects.map (Scene.visit now) = []
  rw [hf]; rfl

/-- The object after `Update`, seen from its master binding `m`, given the
outcome of the poll of the chain bound to `m`. -/
theorem SceneObject.updated_master (o : SceneObject) (now : Nat) (m : SceneObjectBindings)
    (c c1 : AnimationChain) (v : Option ℚ)
    (hchain : o.animations m = some c) (hmaster : o.masterAnimation = m)
    (hp : c.GetAnimOffset now 0 = (c1, v)) :
    (o.updated now).animations m = some c1
    ∧ (o.updated now).field m = v
    ∧ (o.updated now).done = (o.done || c1.done)
    ∧ (o.updated now).masterAnimation = m
    ∧ (o.updated now).IsOn = o.IsOn
    ∧ (o.updated now).self = o.self := by
  refine ⟨?_, ?_, ?_, hmaster, rfl, rfl⟩
  · simp [SceneObject.updated, hchain, hp]
  · simp [SceneObject.updated, SceneObject.polledField, hchain, hp]
  · simp [SceneObject.updated, SceneObject.masterDone, hmaster, hchain, hp, AnimationChain.Done]

open SceneObjectBindings in
/-- C7 (as amended): a scene holds one visible object whose X binding is
bound, as master, to the chain built from `FromTo(0, 100, 1000)` and started
at time 0 before being bound.  `Scene.Update()` at 0, 500 and 1000 ms leaves
X equal to 0, 50 and 100; `Done()` is false after the first two calls and
true after the call at 1000 ms, which leaves the object in the scene; the
call at 1500 ms removes the object from the scene. -/
theorem C7_end_to_end (s : Scene) (o : SceneObject) (tc : Nat)
    (hs : s.objects = [o]) (hm : s.markedForRemoval = [])
    (hchain : o.animations BindX = some
      ((AnimationChain.ofAnimation tc (Animation.FromTo tc 0 100 1000 false true)).Start 0 false))
    (hmaster : o.masterAnimation = BindX) (hon : o.IsOn = true) (hdone : o.Done = false)
    (hb : o.Bindable) :
    ∃ s1 s2 s3 s4 o1 o2 o3,
      s.Update 0 = some s1 ∧ s1.objects = [o1] ∧ o1.field BindX = some 0 ∧ o1.Done = false
      ∧ s1.Update 500 = some s2 ∧ s2.objects = [o2] ∧ o2.field BindX = some 50
        ∧ o2.Done = false
      ∧ s2.Update 1000 = some s3 ∧ s3.objects = [o3] ∧ o3.field BindX = some 100
        ∧ o3.Done = true
      ∧ s3.Update 1500 = some s4 ∧ s4.objects = [] := by
  rw [ofAnimation_FromTo, idleChain_Start] at hchain
  simp only [SceneObject.Done] at hdone
  have hp0 : (runChain 0 100 1000).GetAnimOffset 0 0 = (runChain 0 100 1000, some 0) := by
    rw [runChain_poll_lt 0 100 1000 0 (by norm_num) (by norm_num) (by norm_num)]
    norm_num
  have hp1 : (runChain 0 100 1000).GetAnimOffset 500 0 = (runChain 0 100 1000, some 50) := by
    rw [runChain_poll_lt 0 100 1000 500 (by norm_num) (by norm_num) (by norm_num)]
    norm_num
  have hp2 := runChain_poll_ge 0 100 1000 1000 (by norm_num) (by norm_num) (by norm_num)
  have hrun : (runChain 0 100 1000).done = false := rfl
  have hfin : (doneChain 0 100 1000).done = true := rfl
  -- the call at 0 ms
  obtain ⟨s1, hu1, hs1, hm1⟩ := Scene.Update_single s o 0 hs hm hon hb
  obtain ⟨hc1, hx1, hd1, hma1, hon1, _⟩ :=
    SceneObject.updated_master o 0 BindX _ _ _ hchain hmaster hp0
  rw [hdone, hrun] at hd1
  have hd1 : (o.updated 0).done = false := by simpa using hd1
  have hm1 : s1.markedForRemoval = [] := by
    rw [hm1]; simp [SceneObject.Done, hd1]
  -- the call at 500 ms
  obtain ⟨s2, hu2, hs2, hm2⟩ := Scene.Update_single s1 (o.updated 0) 500 hs1 hm1
    (hon1.trans hon) (SceneObject.Bindable_updated o 0 hb)
  obtain ⟨hc2, hx2, hd2, hma2, hon2, _⟩ :=
    SceneObject.updated_master (o.updated 0) 500 BindX _ _ _ hc1 hma1 hp1
  rw [hd1, hrun] at hd2
  have hd2 : ((o.updated 0).updated 500).done = false := by simpa using hd2
  have hm2 : s2.markedForRemoval = [] := by
    rw [hm2]; simp [SceneObject.Done, hd2]
  -- the call at 1000 ms
  obtain ⟨s3, hu3, hs3, hm3⟩ := Scene.Update_single s2 ((o.updated 0).updated 500) 1000 hs2 hm2
    (hon2.trans (hon1.trans hon))
    (SceneObject.Bindable_updated _ 500 (SceneObject.Bindable_updated o 0 hb))
  obtain ⟨hc3, hx3, hd3, _, _, hself3⟩ :=
    SceneObject.updated_master ((o.updated 0).updated 500) 1000 BindX _ _ _ hc2 hma2 hp2
  rw [hd2, hfin] at hd3
  have hd3 : (((o.updated 0).updated 500).updated 1000).done = true := by simpa using hd3
  have hm3 : s3.markedForRemoval = [(((o.updated 0).updated 500).updated 1000).self] := by
    rw [hm3, hself3]; simp [SceneObject.Done, hd3]
  -- the call at 1500 ms
  obtain ⟨s4, hu4, hs4⟩ := Scene.Update_single_marked s3 _ 1500 hs3 hm3
  exact ⟨s1, s2, s3, s4, _, _, _, hu1, hs1, hx1, hd1, hu2, hs2, hx2, hd2, hu3, hs3, hx3, hd3,
    hu4, hs4⟩

open SceneObjectBindings in
/-- A scene step of an object whose master binding X is driven by a chain
that was never started: X stays at the start value and the object is not done. -/
theorem Scene.Update_idle (s : Scene) (o : SceneObject) (now tc : Nat) (start stop : ℚ) (I : Int)
    (hs : s.objects = [o]) (hm : s.markedForRemoval = [])
    (hchain : o.animations BindX = some (idleChain tc start stop I))
    (hmaster : o.masterAnimation = BindX) (hon : o.IsOn = true) (hdone : o.done = false)
    (hb : o.Bindable) :
    ∃ s1 o1, s.Update now = some s1 ∧ s1.objects = [o1] ∧ s1.markedForRemoval = []
      ∧ o1.animations BindX = some (idleChain tc start stop I)
      ∧ o1.masterAnimation = BindX ∧ o1.IsOn = true ∧ o1.done = false ∧ o1.Bindable
      ∧ o1.field BindX = some start := by
  obtain ⟨s1, hu1, hs1, hm1⟩ := Scene.Update_single s o now hs hm hon hb
  obtain ⟨hc1, hx1, hd1, hma1, hon1, _⟩ :=
    SceneObject.updated_master o now BindX _ _ _ hchain hmaster (idleChain_poll tc start stop I now)
  have hidle : (idleChain tc start stop I).done = false := rfl
  rw [hdone, hidle] at hd1
  have hd1 : (o.updated now).done = false := by simpa using hd1
  have hm1 : s1.markedForRemoval = [] := by
    rw [hm1]; simp [SceneObject.Done, hd1]
  exact ⟨s1, _, hu1, hs1, hm1, hc1, hma1, hon1.trans hon, hd1,
    SceneObject.Bindable_updated o now hb, hx1⟩

open SceneObjectBindings in
theorem Rectangle_Bind_Bindable (addr : Nat) (x y w h : Int) (c : AnimationChain) (m : Bool)
    (sodb : SceneObjectDeleteBehaviour) (own : Option Nat) :
    ((((Rectangle addr x y w h).Bind BindX c m).SetDeleteBehaviour sodb).SetOwner own).Bindable := by
  intro b hne
  by_cases hbx : b = BindX
  · subst hbx
    cases m <;> simp [Rectangle, SceneObject.Bind, SceneObject.SetDeleteBehaviour,
      SceneObject.SetOwner]
  · exfalso
    apply hne
    cases m <;> simp [Rectangle, SceneObject.Bind, SceneObject.SetDeleteBehaviour,
      SceneObject.SetOwner, Function.update, hbx]

open SceneObjectBindings in
/-- C7 (as stated) fails: with the chain bound as the claim words it (made
from `FromTo(0, 100, 1000)` by `Bind`, no further call on it), the chain is
never started, and X is 0, not 50, after `Update()` at 500 ms, and still 0
with `Done()` false after `Update()` at 1000 ms. -/
theorem C7_counterexample :
    ((scenarioScene.Update 0).bind (fun s => s.Update 500)).map
        (fun s => s.objects.map (fun o => (o.field BindX, o.Done))) = some [(some 0, false)]
    ∧ (((scenarioScene.Update 0).bind (fun s => s.Update 500)).bind
        (fun s => s.Update 1000)).map
        (fun s => s.objects.map (fun o => (o.field BindX, o.Done))) = some [(some 0, false)] := by
  obtain ⟨o, ho⟩ : ∃ o, o = ((((Rectangle 1 0 0 10 10).Bind BindX
      (AnimationChain.ofAnimation 0 (Animation.FromTo 0 0 100 1000 false true)) true).SetDeleteBehaviour
      SceneObjectDeleteBehaviour.SODB_Destroy).SetOwner (some 0)) := ⟨_, rfl⟩
  have hs : scenarioScene.objects = [o] := by
    rw [ho]; simp [scenarioScene, Scene.Add, Scene.empty, SceneObject.BindAnimation]
  have hm : scenarioScene.markedForRemoval = [] := rfl
  have hchain : o.animations BindX = some (idleChain 0 0 100 1000) := by
    rw [ho, ← ofAnimation_FromTo]
    simp [SceneObject.Bind, SceneObject.SetDeleteBehaviour, SceneObject.SetOwner]
  have hmaster : o.masterAnimation = BindX := by rw [ho]; rfl
  have hon : o.IsOn = true := by rw [ho]; rfl
  have hdone : o.done = false := by rw [ho]; rfl
  have hb : o.Bindable := by rw [ho]; exact Rectangle_Bind_Bindable _ _ _ _ _ _ _ _ _
  obtain ⟨s1, o1, hu1, hs1, hm1, hc1, hma1, hon1, hd1, hb1, _⟩ :=
    Scene.Update_idle scenarioScene o 0 0 0 100 1000 hs hm hchain hmaster hon hdone hb
  obtain ⟨s2, o2, hu2, hs2, hm2, hc2, hma2, hon2, hd2, hb2, hx2⟩ :=
    Scene.Update_idle s1 o1 500 0 0 100 1000 hs1 hm1 hc1 hma1 hon1 hd1 hb1
  obtain ⟨s3, o3, hu3, hs3, _, _, _, _, hd3, _, hx3⟩ :=
    Scene.Update_idle s2 o2 1000 0 0 100 1000 hs2 hm2 hc2 hma2 hon2 hd2 hb2
  rw [hu1]
  simp only [Option.some_bind, hu2, hu3, Option.map_some', hs2, hs3, List.map_cons, List.map_nil,
    hx2, hx3, SceneObject.Done, hd2, hd3, and_self]

/-! ## Animation: pause and resume -/

/-- Truncation of a number strictly between -1 and 1. -/
theorem castInt_small (x : ℚ) (h1 : -1 < x) (h2 : x < 1) : castInt x = some 0 := by
  unfold castInt
  have ht : (if 0 ≤ x then ⌊x⌋ else -⌊-x⌋) = 0 := by
    split_ifs with h
    · exact Int.floor_eq_iff.2 ⟨by simpa using h, by simpa using h2⟩
    · have : ⌊-x⌋ = 0 := Int.floor_eq_iff.2 ⟨by simp; linarith, by simp; linarith⟩
      rw [this]; rfl
  simp only [ht]
  norm_num

theorem castInt_one : castInt 1 = some 1 := by
  unfold castInt
  norm_num

/-- The fractional part left by truncation toward zero lies strictly between
-1 and 1, is not negative for a positive truncated value and not positive for
a negative one. -/
theorem castInt_frac (x : ℚ) (k : Int) (h : castInt x = some k) :
    -1 < x - (k : ℚ) ∧ x - (k : ℚ) < 1 ∧ (0 < k → 0 ≤ x - (k : ℚ)) := by
  unfold castInt at h
  simp only at h
  split_ifs at h with hx hr
  · have hk : ⌊x⌋ = k := Option.some.inj h
    rw [← hk]
    have h1 := Int.floor_le x
    have h2 := Int.lt_floor_add_one x
    refine ⟨by linarith, by linarith, fun _ => by linarith⟩
  · have hk : -⌊-x⌋ = k := Option.some.inj h
    have hx' : x < 0 := not_le.1 hx
    have h1 := Int.floor_le (-x)
    have h2 := Int.lt_floor_add_one (-x)
    have hk' : (k : ℚ) = -(⌊-x⌋ : ℚ) := by rw [← hk]; push_cast; ring
    rw [hk']
    refine ⟨by linarith, by linarith, fun hpos => ?_⟩
    exfalso
    have hfl : 0 ≤ ⌊-x⌋ := Int.floor_nonneg.2 (by linarith)
    omega

/-- A truncated remainder of 1 modulo 2 arises from positive numbers only
(in C++, `-3 % 2` is `-1`). -/
theorem tmod_two_eq_one_pos (k : Int) (h : Int.tmod k 2 = 1) : 0 < k := by
  cases k with
  | ofNat n =>
    cases n with
    | zero => simp at h
    | succ m => exact Int.ofNat_succ_pos m
  | negSucc n =>
    exfalso
    have h2 : Int.tmod (Int.negSucc n) 2 = -(((n + 1) % 2 : Nat) : Int) := rfl
    rw [h2] at h
    omega

/-- The cycle policy maps each of its results to itself: a position it
produced is returned unchanged when it is fed back. -/
theorem Animation.applyCycle_idem (ct : CycleType) (x p : ℚ)
    (h : Animation.applyCycle ct x = some p) : Animation.applyCycle ct p = some p := by
  cases ct with
  | Clamp =>
    simp only [Animation.applyCycle, Option.some.injEq] at h ⊢
    rw [← h]
    simp
  | Repeat =>
    cases hk : castInt x with
    | none => simp [Animation.applyCycle, hk] at h
    | some k =>
      simp only [Animation.applyCycle, hk, Option.map_some', Option.some.injEq] at h
      obtain ⟨h1, h2, _⟩ := castInt_frac x k hk
      rw [h] at h1 h2
      simp [Animation.applyCycle, castInt_small p h1 h2]
  | Reverse =>
    cases hk : castInt x with
    | none => simp [Animation.applyCycle, hk] at h
    | some k =>
      simp only [Animation.applyCycle, hk, Option.map_some', Option.some.injEq] at h
      obtain ⟨h1, h2, h3⟩ := castInt_frac x k hk
      by_cases hodd : Int.tmod k 2 = 1
      · simp only [hodd, decide_True, if_true] at h
        have h0 := h3 (tmod_two_eq_one_pos k hodd)
        by_cases hp1 : p = 1
        · rw [hp1]
          simp [Animation.applyCycle, castInt_one]
          decide
        · have hlt : p < 1 := lt_of_le_of_ne (by linarith) hp1
          have hgt : -1 < p := by linarith
          simp [Animation.applyCycle, castInt_small p hgt hlt]
      · simp only [hodd, decide_False, Bool.false_eq_true, if_false] at h
        rw [h] at h1 h2
        simp [Animation.applyCycle, castInt_small p h1 h2]

/-- Position of a paused animation: the cycle policy applied to the snapshot. -/
theorem Animation.GetAnimPos_paused (a : Animation) (now : Nat) (offset : ℚ)
    (hp : a.paused = true) :
    a.GetAnimPos now offset = Animation.applyCycle a.cycleType (a.animPcAtPauseTime + offset) := by
  simp [Animation.GetAnimPos, Animation.rawPos, hp]

/-- Position of an animation at the instant its epoch is set, with no time offset. -/
theorem Animation.GetAnimPos_at_epoch (a : Animation) (t : Nat)
    (hp : a.paused = false) (hI : a.intervalMs ≠ 0) (hto : a.timeOffset = 0)
    (hs : a.startTime = toInt32 (GetTickCount t)) :
    a.GetAnimPos t 0 = Animation.applyCycle a.cycleType a.animPcAtPauseTime := by
  have hel : a.elapsed t = 0 := by
    unfold Animation.elapsed
    rw [hs, hto, sub_zero, toUInt32_toInt32_sub]
    simp [toUInt32]
  simp [Animation.GetAnimPos, Animation.rawPos, hp, hI, hel]

/-- C10 (as amended): for every Animation of any cycle type with a non-zero
interval and no time offset: if `Pause(true)` is called when the position is
p, then `GetAnimPos()` returns p at every later time while paused, and
`GetAnimPos()` sampled at the instant `Pause(false)` is called returns
exactly p, whenever that is. -/
theorem C10_pause_resume (a : Animation) (now : Nat) (p : ℚ)
    (hto : a.timeOffset = 0) (hI : a.intervalMs ≠ 0)
    (hp : a.GetAnimPos now 0 = some p) :
    (∀ later : Nat, (a.Pause now true).GetAnimPos later 0 = some p)
    ∧ (∀ t : Nat, ((a.Pause now true).Pause t false).GetAnimPos t 0 = some p) := by
  have hcyc : Animation.applyCycle a.cycleType ((a.Pause now true).animPcAtPauseTime) = some p := by
    cases hpa : a.paused
    · have : (a.Pause now true).animPcAtPauseTime = p := by
        simp [Animation.Pause, hpa, hp]
      rw [this]
      cases hr : a.rawPos now with
      | some x =>
        have hx : Animation.applyCycle a.cycleType (x + 0) = some p := by
          simpa [Animation.GetAnimPos, hr] using hp
        exact Animation.applyCycle_idem _ _ _ hx
      | none =>
        exfalso
        simp [Animation.rawPos, hpa, hI] at hr
    · have h1 : (a.Pause now true).animPcAtPauseTime = a.animPcAtPauseTime := by
        simp [Animation.Pause, hpa]
      rw [h1]
      rw [Animation.GetAnimPos_paused a now 0 hpa, add_zero] at hp
      exact hp
  have hpaused : (a.Pause now true).paused = true := by
    unfold Animation.Pause
    split_ifs <;> simp_all
  have hct : (a.Pause now true).cycleType = a.cycleType := by
    unfold Animation.Pause
    split_ifs <;> rfl
  have hI1 : (a.Pause now true).intervalMs = a.intervalMs := by
    unfold Animation.Pause
    split_ifs <;> rfl
  have hto1 : (a.Pause now true).timeOffset = a.timeOffset := by
    unfold Animation.Pause
    split_ifs <;> rfl
  constructor
  · intro later
    rw [Animation.GetAnimPos_paused _ later 0 hpaused, add_zero, hct]
    exact hcyc
  · intro t
    obtain ⟨b, hb⟩ : ∃ b, b = a.Pause now true := ⟨_, rfl⟩
    rw [← hb] at hcyc hpaused hct hI1 hto1 ⊢
    have hres : b.Pause t false
        = { b with startTime := toInt32 (GetTickCount t), paused := false } := by
      simp [Animation.Pause, hpaused]
    obtain ⟨r, hr⟩ : ∃ r : Animation, r =
        { b with startTime := toInt32 (GetTickCount t), paused := false } := ⟨_, rfl⟩
    rw [hres, ← hr]
    have e1 : r.paused = false := by rw [hr]
    have e2 : r.intervalMs = a.intervalMs := by rw [hr]; exact hI1
    have e3 : r.timeOffset = 0 := by rw [hr]; exact hto1.trans hto
    have e4 : r.startTime = toInt32 (GetTickCount t) := by rw [hr]
    have e5 : r.cycleType = a.cycleType := by rw [hr]; exact hct
    have e6 : r.animPcAtPauseTime = b.animPcAtPauseTime := by rw [hr]
    rw [Animation.GetAnimPos_at_epoch r t e1 (by rw [e2]; exact hI) e3 e4, e5, e6]
    exact hcyc

/-- C10 (as stated) fails for a zero interval: a Clamp animation with interval
0, constructed paused, is at position 0; at the instant it is unpaused its
position is 1, whatever the time spent paused. -/
theorem C10_counterexample :
    (Animation.create 0 Animations.Linear 0 1 0 CycleType.Clamp true).timeOffset = 0
    ∧ (Animation.create 0 Animations.Linear 0 1 0 CycleType.Clamp true).GetAnimPos 10 0 = some 0
    ∧ (((Animation.create 0 Animations.Linear 0 1 0 CycleType.Clamp true).Pause 10 true).Pause
        20 false).GetAnimPos 20 0 = some 1
    ∧ (((Animation.create 0 Animations.Linear 0 1 0 CycleType.Clamp true).Pause 10 true).Pause
        20 false).GetAnimPos 20 0 ≠ some 0 := by
  refine ⟨rfl, ?_, ?_, ?_⟩
  · simp [Animation.create, Animation.Reset, Animation.GetAnimPos, Animation.rawPos,
      Animation.applyCycle]
  · simp [Animation.create, Animation.Reset, Animation.Pause, Animation.GetAnimPos,
      Animation.rawPos]
  · simp [Animation.create, Animation.Reset, Animation.Pause, Animation.GetAnimPos,
      Animation.rawPos]

/-! ## ObjectGroup: tab order -/

theorem ObjectGroup.firstEligibleOr_nil (other : Option SceneObject) :
    firstEligibleOr [] other = other := rfl

theorem ObjectGroup.firstEligibleOr_append (l1 l2 : List SceneObject)
    (other : Option SceneObject) :
    firstEligibleOr (l1 ++ l2) other = firstEligibleOr l1 (firstEligibleOr l2 other) := by
  unfold firstEligibleOr
  rw [List.find?_append]
  cases h1 : l1.find? eligible <;> simp

theorem ObjectGroup.firstEligibleOr_singleton (o : SceneObject) (other : Option SceneObject) :
    firstEligibleOr [o] other = if eligible o then some o else other := by
  unfold firstEligibleOr
  cases h : eligible o <;> simp [List.find?_cons, h]

/-- One pass of the loop body at a position inside the list. -/
theorem ObjectGroup.tabStep_at (objs : List SceneObject) (forwards : Bool) (s : TabState)
    (q : Nat) (hq : q < objs.length) (hit : s.it = q) :
    tabStep objs forwards s = some
      { obj := if objs[q].isTabbedItem then some objs[q].self else none
        found := if eligible objs[q] then some q else s.found
        it := if forwards then q + 1 else (if q ≠ 0 then q - 1 else objs.length) } := by
  subst hit
  unfold tabStep
  have hne : ¬ s.it = objs.length := by omega
  simp only [hne, if_false, List.getElem?_eq_getElem hq]
  rfl

/-- One pass of the loop body when the iterator is at `end`: it wraps to the
first child going forwards and to the last child going backwards. -/
theorem ObjectGroup.tabStep_wrap (objs : List SceneObject) (forwards : Bool) (s : TabState)
    (hn : 0 < objs.length) (hit : s.it = objs.length) :
    tabStep objs forwards s
      = tabStep objs forwards { s with it := if forwards then 0 else objs.length - 1 } := by
  unfold tabStep
  have h1 : (if forwards then 0 else objs.length - 1) ≠ objs.length := by
    cases forwards <;> simp <;> omega
  simp only [hit, if_true, h1, if_false]

/-- With no focus, the forward search runs to the end of the list and keeps
the last eligible child it met. -/
theorem ObjectGroup.tabLoop_forwards_nofocus (objs : List SceneObject) (k : Nat) :
    ∀ (q fuel : Nat) (s : TabState), q + k = objs.length → 0 < k → k ≤ fuel → s.it = q →
      (∀ i, s.found = some i → i < objs.length) →
      ∃ s1, tabLoop objs true none fuel s = some (some s1)
        ∧ foundItem objs s1 = firstEligibleOr (objs.drop q).reverse (foundItem objs s)
        ∧ (∀ i, s1.found = some i → i < objs.length) := by
  induction k with
  | zero => intro q fuel s _ hk; omega
  | succ k ih =>
    intro q fuel s hqk _ hfuel hit hfound
    have hq : q < objs.length := by omega
    obtain ⟨fuel1, rfl⟩ : ∃ f, fuel = f + 1 := ⟨fuel - 1, by omega⟩
    have hstep := tabStep_at objs true s q hq hit
    obtain ⟨s1, hs1⟩ : ∃ s1 : TabState, s1 =
        { obj := if objs[q].isTabbedItem then some objs[q].self else none
          found := if eligible objs[q] then some q else s.found
          it := if true then q + 1 else (if q ≠ 0 then q - 1 else objs.length) } := ⟨_, rfl⟩
    rw [← hs1] at hstep
    have hit1 : s1.it = q + 1 := by rw [hs1]; rfl
    have hf1 : foundItem objs s1 = if eligible objs[q] then some objs[q] else foundItem objs s := by
      rw [hs1]
      unfold foundItem
      cases he : eligible objs[q] <;> simp [List.getElem?_eq_getElem hq]
    have hfound1 : ∀ i, s1.found = some i → i < objs.length := by
      intro i hi
      rw [hs1] at hi
      simp only at hi
      split_ifs at hi
      · cases hi; exact hq
      · exact hfound i hi
    have hdrop : (objs.drop q).reverse = (objs.drop (q + 1)).reverse ++ [objs[q]] := by
      rw [List.drop_eq_getElem_cons hq, List.reverse_cons]
    unfold tabLoop
    rw [hstep]
    simp only
    by_cases hend : q + 1 = objs.length
    · -- the last child was examined: the loop ends
      have hc : tabContinue objs none s1 = false := by
        simp [tabContinue, hit1, hend]
      rw [hc]
      refine ⟨s1, by simp, ?_, hfound1⟩
      rw [hf1, hdrop, firstEligibleOr_append, firstEligibleOr_singleton]
      have : objs.drop (q + 1) = [] := List.drop_eq_nil_of_le (by omega)
      rw [this]
      rfl
    · have hc : tabContinue objs none s1 = true := by
        simp [tabContinue, hit1, hend]
      rw [hc]
      simp only [if_true]
      obtain ⟨s2, h2, hf2, hb2⟩ := ih (q + 1) fuel1 s1 (by omega) (by omega) (by omega) hit1 hfound1
      refine ⟨s2, h2, ?_, hb2⟩
      rw [hf2, hf1, hdrop, firstEligibleOr_append, firstEligibleOr_singleton]

/-- With no focus, the backward search runs down to the first child and keeps
the eligible child nearest to the front of the list. -/
theorem ObjectGroup.tabLoop_backwards_nofocus (objs : List SceneObject) (q : Nat) :
    ∀ (fuel : Nat) (s : TabState), q < objs.length → q + 1 ≤ fuel → s.it = q →
      (∀ i, s.found = some i → i < objs.length) →
      ∃ s1, tabLoop objs false none fuel s = some (some s1)
        ∧ foundItem objs s1 = firstEligibleOr (objs.take (q + 1)) (foundItem objs s)
        ∧ (∀ i, s1.found = some i → i < objs.length) := by
  induction q with
  | zero =>
    intro fuel s hq hfuel hit hfound
    obtain ⟨fuel1, rfl⟩ : ∃ f, fuel = f + 1 := ⟨fuel - 1, by omega⟩
    have hstep := tabStep_at objs false s 0 hq hit
    unfold tabLoop
    rw [hstep]
    simp only [tabContinue, Option.isNone_none, bne_self_eq_false, Bool.and_false,
      Bool.or_false, Option.isSome_none, Bool.false_and, Bool.false_eq_true, if_false,
      ne_eq, not_true_eq_false, Bool.and_self, Bool.true_and]
    refine ⟨_, rfl, ?_, ?_⟩
    · have ht : objs.take 1 = [objs[0]] := by
        rw [List.take_succ, List.take_zero, List.getElem?_eq_getElem hq]; rfl
      rw [ht, firstEligibleOr_singleton]
      unfold foundItem
      cases he : eligible objs[0] <;> simp [List.getElem?_eq_getElem hq]
    · intro i hi
      simp only at hi
      split_ifs at hi
      · cases hi; exact hq
      · exact hfound i hi
  | succ q ih =>
    intro fuel s hq hfuel hit hfound
    obtain ⟨fuel1, rfl⟩ : ∃ f, fuel = f + 1 := ⟨fuel - 1, by omega⟩
    have hstep := tabStep_at objs false s (q + 1) hq hit
    obtain ⟨s1, hs1⟩ : ∃ s1 : TabState, s1 =
        { obj := if objs[q + 1].isTabbedItem then some objs[q + 1].self else none
          found := if eligible objs[q + 1] then some (q + 1) else s.found
          it := if false then q + 1 + 1 else (if q + 1 ≠ 0 then q + 1 - 1 else objs.length) } :=
      ⟨_, rfl⟩
    rw [← hs1] at hstep
    have hit1 : s1.it = q := by rw [hs1]; simp
    have hf1 : foundItem objs s1
        = if eligible objs[q + 1] then some objs[q + 1] else foundItem objs s := by
      rw [hs1]
      unfold foundItem
      cases he : eligible objs[q + 1] <;> simp [List.getElem?_eq_getElem hq]
    have hfound1 : ∀ i, s1.found = some i → i < objs.length := by
      intro i hi
      rw [hs1] at hi
      simp only at hi
      split_ifs at hi
      · cases hi; exact hq
      · exact hfound i hi
    have hc : tabContinue objs none s1 = true := by
      have : q ≠ objs.length := by omega
      simp [tabContinue, hit1, this]
    unfold tabLoop
    rw [hstep]
    simp only [hc, if_true]
    obtain ⟨s2, h2, hf2, hb2⟩ := ih fuel1 s1 (by omega) (by omega) hit1 hfound1
    refine ⟨s2, h2, ?_, hb2⟩
    have ht : objs.take (q + 1 + 1) = objs.take (q + 1) ++ [objs[q + 1]] := by
      rw [List.take_succ, List.getElem?_eq_getElem hq]; rfl
    rw [hf2, hf1, ht, firstEligibleOr_append, firstEligibleOr_singleton]

/-- What is returned after a search without focus item that kept an eligible
child, or none. -/
theorem ObjectGroup.tabReturn_nofocus (objs : List SceneObject) (s : TabState)
    (l : List SceneObject) (hb : ∀ i, s.found = some i → i < objs.length)
    (hf : foundItem objs s = l.find? eligible) :
    tabReturn objs none s = resultOf (l.find? eligible) := by
  unfold tabReturn
  cases hfound : s.found with
  | none =>
    have : foundItem objs s = none := by simp [foundItem, hfound]
    rw [← hf, this]
    rfl
  | some i =>
    have hi := hb i hfound
    have hitem : foundItem objs s = some objs[i] := by
      simp [foundItem, hfound, List.getElem?_eq_getElem hi]
    have hel : eligible objs[i] = true := by
      rw [hitem] at hf
      exact List.find?_some hf.symm
    have htab : objs[i].isTabbedItem = true := by
      unfold eligible at hel
      simp only [Bool.and_eq_true] at hel
      exact hel.1
    simp only [List.getElem?_eq_getElem hi, htab, if_true]
    rw [← hf, hitem]
    rfl

/-- `FindTabbedItem` when the focus object is not a tab-capable child of the
group: forwards it returns the last eligible child of the list, backwards the
first one, and a null pointer when no child is eligible. -/
theorem ObjectGroup.FindTabbedItem_focus_absent (g : ObjectGroup)
    (focusObject : Option SceneObject)
    (hv : g.base.visible = true) (hne : g.objects ≠ [])
    (habs : ∀ fo, focusObject = some fo → fo.isTabbedItem = true →
      ∀ o ∈ g.objects, o.self ≠ fo.self) :
    g.FindTabbedItem focusObject true = resultOf (g.objects.reverse.find? eligible)
    ∧ g.FindTabbedItem focusObject false = resultOf (g.objects.find? eligible) := by
  have hlen : 0 < g.objects.length := List.length_pos.2 hne
  have hlen0 : ¬ g.objects.length = 0 := by omega
  -- the start position is the first or the last child, without focus item
  have hstart : ∀ forwards : Bool,
      tabStart g.objects (tabFocus focusObject) forwards
        = some (if forwards then 0 else g.objects.length - 1, none) := by
    intro forwards
    cases hfo : focusObject with
    | none => rfl
    | some fo =>
      cases htab : fo.isTabbedItem with
      | false => simp [tabFocus, tabStart, htab]
      | true =>
        have hidx : g.objects.findIdx (fun o => o.self == fo.self) = g.objects.length := by
          rw [List.findIdx_eq_length]
          intro o ho
          simpa using habs fo hfo htab o ho
        simp [tabFocus, tabStart, htab, hidx]
  have hfind : ∀ forwards : Bool, g.FindTabbedItem focusObject forwards
      = tabSearch g.objects forwards (if forwards then 0 else g.objects.length - 1) none := by
    intro forwards
    unfold ObjectGroup.FindTabbedItem
    simp only [hv, Bool.true_eq_false, if_false, hlen0, hstart forwards]
  constructor
  · obtain ⟨s1, h1, hf1, hb1⟩ := tabLoop_forwards_nofocus g.objects g.objects.length 0
      (2 * g.objects.length + 2) { it := 0, found := none, obj := none }
      (by omega) hlen (by omega) rfl (by intro i hi; simp at hi)
    rw [hfind true]
    simp only [tabSearch, if_true, h1]
    have hf : foundItem g.objects s1 = g.objects.reverse.find? eligible := by
      rw [hf1]
      simp only [List.drop_zero, firstEligibleOr, foundItem, Option.none_bind]
      cases g.objects.reverse.find? eligible <;> rfl
    exact tabReturn_nofocus g.objects s1 _ hb1 hf
  · obtain ⟨s1, h1, hf1, hb1⟩ := tabLoop_backwards_nofocus g.objects (g.objects.length - 1)
      (2 * g.objects.length + 2) { it := g.objects.length - 1, found := none, obj := none }
      (by omega) (by omega) rfl (by intro i hi; simp at hi)
    rw [hfind false]
    simp only [tabSearch, Bool.false_eq_true, if_false, h1]
    have hf : foundItem g.objects s1 = g.objects.find? eligible := by
      rw [hf1]
      have : g.objects.length - 1 + 1 = g.objects.length := by omega
      rw [this, List.take_length]
      simp only [firstEligibleOr, foundItem, Option.none_bind]
      cases g.objects.find? eligible <;> rfl
    exact tabReturn_nofocus g.objects s1 _ hb1 hf

open ObjectGroup

/-- A pass that starts with the iterator at `end` is the pass from the
position the iterator wraps to. -/
theorem ObjectGroup.tabLoop_wrap (objs : List SceneObject) (forwards : Bool)
    (focus : Option Nat) (fuel : Nat) (s : TabState)
    (hn : 0 < objs.length) (hit : s.it = objs.length) :
    tabLoop objs forwards focus fuel s
      = tabLoop objs forwards focus fuel
          { s with it := if forwards then 0 else objs.length - 1 } := by
  cases fuel with
  | zero => rfl
  | succ fuel =>
    unfold tabLoop
    rw [tabStep_wrap objs forwards s hn hit]

/-- The loop condition when a focus item is being searched from. -/
theorem ObjectGroup.tabContinue_focus (objs : List SceneObject) (f : Nat) (s : TabState) :
    tabContinue objs (some f) s = (s.found.isNone && (s.obj != some f)) := by
  simp [tabContinue]

/-- A pass over an eligible child ends the search from a focus item with that child. -/
theorem ObjectGroup.tabLoop_stop_eligible (objs : List SceneObject) (forwards : Bool) (f : Nat)
    (fuel : Nat) (s : TabState) (q : Nat) (hq : q < objs.length) (hit : s.it = q)
    (hel : eligible objs[q] = true) :
    ∃ s1, tabLoop objs forwards (some f) (fuel + 1) s = some (some s1)
      ∧ tabReturn objs (some f) s1 = TabResult.item objs[q].self := by
  have htab : objs[q].isTabbedItem = true := by
    unfold eligible at hel
    simp only [Bool.and_eq_true] at hel
    exact hel.1
  unfold tabLoop
  rw [tabStep_at objs forwards s q hq hit]
  simp only [tabContinue_focus, hel, if_true, Option.isNone_some, Bool.false_and,
    Bool.false_eq_true, if_false]
  refine ⟨_, rfl, ?_⟩
  simp [tabReturn, List.getElem?_eq_getElem hq, htab]

/-- A pass over the focus item itself, when it is not eligible, ends the
search with the focus item. -/
theorem ObjectGroup.tabLoop_stop_focus (objs : List SceneObject) (forwards : Bool) (f : Nat)
    (fuel : Nat) (s : TabState) (q : Nat) (hq : q < objs.length) (hit : s.it = q)
    (hfound : s.found = none) (hel : eligible objs[q] = false)
    (htab : objs[q].isTabbedItem = true) (hself : objs[q].self = f) :
    ∃ s1, tabLoop objs forwards (some f) (fuel + 1) s = some (some s1)
      ∧ tabReturn objs (some f) s1 = TabResult.item f := by
  unfold tabLoop
  rw [tabStep_at objs forwards s q hq hit]
  simp only [tabContinue_focus, hel, Bool.false_eq_true, if_false, hfound, htab, if_true, hself,
    bne_self_eq_false, Bool.and_false]
  refine ⟨_, rfl, ?_⟩
  simp [tabReturn]

/-- A pass over a child that is neither eligible nor the focus item moves on. -/
theorem ObjectGroup.tabLoop_skip (objs : List SceneObject) (forwards : Bool) (f : Nat)
    (fuel : Nat) (s : TabState) (q : Nat) (hq : q < objs.length) (hit : s.it = q)
    (hfound : s.found = none) (hel : eligible objs[q] = false) (hself : objs[q].self ≠ f) :
    tabLoop objs forwards (some f) (fuel + 1) s
      = tabLoop objs forwards (some f) fuel
          { obj := if objs[q].isTabbedItem then some objs[q].self else none
            found := none
            it := if forwards then q + 1 else (if q ≠ 0 then q - 1 else objs.length) } := by
  conv_lhs => unfold tabLoop
  rw [tabStep_at objs forwards s q hq hit]
  have hc : tabContinue objs (some f)
      { obj := if objs[q].isTabbedItem then some objs[q].self else none
        found := if eligible objs[q] then some q else s.found
        it := if forwards then q + 1 else (if q ≠ 0 then q - 1 else objs.length) } = true := by
    rw [tabContinue_focus]
    simp only [hel, Bool.false_eq_true, if_false, hfound, Option.isNone_none, Bool.true_and]
    cases objs[q].isTabbedItem <;> simp [hself]
  simp only [hel, Bool.false_eq_true, if_false, hfound] at hc ⊢
  rw [hc]
  simp

open ObjectGroup

theorem ObjectGroup.firstEligibleOr_cons (o : SceneObject) (l : List SceneObject)
    (other : Option SceneObject) :
    firstEligibleOr (o :: l) other = if eligible o then some o else firstEligibleOr l other := by
  unfold firstEligibleOr
  cases h : eligible o <;> simp [List.find?_cons, h]

/-- Forward search from a position at or before the focus item (at position
`i`): the first eligible child among those from the position up to the focus
item is returned, or else the focus item. -/
theorem ObjectGroup.tabLoop_forwards_upto (objs : List SceneObject) (i : Nat) (fo : SceneObject)
    (hi : i < objs.length) (hfo : objs[i] = fo) (htab : fo.isTabbedItem = true)
    (hdist : ∀ q (hq : q < objs.length), q ≠ i → objs[q].self ≠ fo.self) (d : Nat) :
    ∀ (q fuel : Nat) (s : TabState), q + d = i → d + 1 ≤ fuel → s.it = q → s.found = none →
      ∃ s1, tabLoop objs true (some fo.self) fuel s = some (some s1)
        ∧ tabReturn objs (some fo.self) s1
          = resultOf (firstEligibleOr ((objs.take i).drop q) (some fo)) := by
  induction d with
  | zero =>
    intro q fuel s hqd hfuel hit hfound
    have hqi : q = i := by omega
    subst hqi
    obtain ⟨fuel1, rfl⟩ : ∃ k, fuel = k + 1 := ⟨fuel - 1, by omega⟩
    have hnil : (objs.take q).drop q = [] := by
      apply List.drop_eq_nil_of_le
      simp [List.length_take]
    rw [hnil, firstEligibleOr_nil]
    cases hel : eligible objs[q] with
    | true =>
      obtain ⟨s1, h1, h2⟩ := tabLoop_stop_eligible objs true fo.self fuel1 s q hi hit hel
      exact ⟨s1, h1, by rw [h2, hfo]; rfl⟩
    | false =>
      exact tabLoop_stop_focus objs true fo.self fuel1 s q hi hit hfound hel
        (by rw [hfo]; exact htab) (by rw [hfo])
  | succ d ih =>
    intro q fuel s hqd hfuel hit hfound
    have hqi : q < i := by omega
    have hq : q < objs.length := by omega
    obtain ⟨fuel1, rfl⟩ : ∃ k, fuel = k + 1 := ⟨fuel - 1, by omega⟩
    have hcons : (objs.take i).drop q = objs[q] :: (objs.take i).drop (q + 1) := by
      have hlt : q < (objs.take i).length := by simp [List.length_take]; omega
      rw [List.drop_eq_getElem_cons hlt, List.getElem_take]
    cases hel : eligible objs[q] with
    | true =>
      obtain ⟨s1, h1, h2⟩ := tabLoop_stop_eligible objs true fo.self fuel1 s q hq hit hel
      refine ⟨s1, h1, ?_⟩
      rw [h2, hcons, firstEligibleOr_cons, hel]
      rfl
    | false =>
      rw [tabLoop_skip objs true fo.self fuel1 s q hq hit hfound hel (hdist q hq (by omega))]
      obtain ⟨s2, hs2⟩ : ∃ s2 : TabState, s2 =
          { obj := if objs[q].isTabbedItem then some objs[q].self else none
            found := none
            it := if true then q + 1 else (if q ≠ 0 then q - 1 else objs.length) } := ⟨_, rfl⟩
      rw [← hs2]
      have hit2 : s2.it = q + 1 := by rw [hs2]; simp
      have hf2 : s2.found = none := by rw [hs2]
      obtain ⟨s1, h1, h2⟩ := ih (q + 1) fuel1 s2 (by omega) (by omega) hit2 hf2
      refine ⟨s1, h1, ?_⟩
      rw [h2, hcons, firstEligibleOr_cons, hel]
      rfl

/-- Forward search from a position after the focus item: the children up to
the end of the list are examined, then those from the first child on. -/
theorem ObjectGroup.tabLoop_forwards_after (objs : List SceneObject) (i : Nat) (fo : SceneObject)
    (hi : i < objs.length) (hfo : objs[i] = fo) (htab : fo.isTabbedItem = true)
    (hdist : ∀ q (hq : q < objs.length), q ≠ i → objs[q].self ≠ fo.self) (d : Nat) :
    ∀ (q fuel : Nat) (s : TabState), q + d = objs.length → i < q → d + i + 2 ≤ fuel →
      s.it = q → s.found = none →
      ∃ s1, tabLoop objs true (some fo.self) fuel s = some (some s1)
        ∧ tabReturn objs (some fo.self) s1
          = resultOf (firstEligibleOr (objs.drop q ++ objs.take i) (some fo)) := by
  induction d with
  | zero =>
    intro q fuel s hqd _ hfuel hit hfound
    have hqn : q = objs.length := by omega
    rw [tabLoop_wrap objs true (some fo.self) fuel s (by omega) (by rw [hit, hqn])]
    obtain ⟨s1, h1, h2⟩ := tabLoop_forwards_upto objs i fo hi hfo htab hdist i 0 fuel
      { s with it := if true then 0 else objs.length - 1 } (by omega) (by omega) rfl hfound
    refine ⟨s1, h1, ?_⟩
    rw [h2, hqn, List.drop_length, List.nil_append, List.drop_zero]
  | succ d ih =>
    intro q fuel s hqd hiq hfuel hit hfound
    have hq : q < objs.length := by omega
    obtain ⟨fuel1, rfl⟩ : ∃ k, fuel = k + 1 := ⟨fuel - 1, by omega⟩
    have hcons : objs.drop q = objs[q] :: objs.drop (q + 1) := List.drop_eq_getElem_cons hq
    cases hel : eligible objs[q] with
    | true =>
      obtain ⟨s1, h1, h2⟩ := tabLoop_stop_eligible objs true fo.self fuel1 s q hq hit hel
      refine ⟨s1, h1, ?_⟩
      rw [h2, firstEligibleOr_append, hcons, firstEligibleOr_cons, hel]
      rfl
    | false =>
      rw [tabLoop_skip objs true fo.self fuel1 s q hq hit hfound hel (hdist q hq (by omega))]
      obtain ⟨s2, hs2⟩ : ∃ s2 : TabState, s2 =
          { obj := if objs[q].isTabbedItem then some objs[q].self else none
            found := none
            it := if true then q + 1 else (if q ≠ 0 then q - 1 else objs.length) } := ⟨_, rfl⟩
      rw [← hs2]
      have hit2 : s2.it = q + 1 := by rw [hs2]; simp
      have hf2 : s2.found = none := by rw [hs2]
      obtain ⟨s1, h1, h2⟩ := ih (q + 1) fuel1 s2 (by omega) (by omega) (by omega) hit2 hf2
      refine ⟨s1, h1, ?_⟩
      rw [h2, firstEligibleOr_append, firstEligibleOr_append, hcons, firstEligibleOr_cons, hel]
      rfl

open ObjectGroup

/-- Backward search from a position at or after the focus item (at position
`i`), `d` places after it: the first eligible child met going down to the
focus item is returned, or else the focus item. -/
theorem ObjectGroup.tabLoop_backwards_downto (objs : List SceneObject) (i : Nat)
    (fo : SceneObject) (hi : i < objs.length) (hfo : objs[i] = fo)
    (htab : fo.isTabbedItem = true)
    (hdist : ∀ q (hq : q < objs.length), q ≠ i → objs[q].self ≠ fo.self) (d : Nat) :
    ∀ (q fuel : Nat) (s : TabState), q = i + d → q < objs.length → d + 1 ≤ fuel →
      s.it = q → s.found = none →
      ∃ s1, tabLoop objs false (some fo.self) fuel s = some (some s1)
        ∧ tabReturn objs (some fo.self) s1
          = resultOf (firstEligibleOr ((objs.drop (i + 1)).take d).reverse (some fo)) := by
  induction d with
  | zero =>
    intro q fuel s hqd hq hfuel hit hfound
    have hqi : q = i := by omega
    subst hqi
    obtain ⟨fuel1, rfl⟩ : ∃ k, fuel = k + 1 := ⟨fuel - 1, by omega⟩
    rw [List.take_zero, List.reverse_nil, firstEligibleOr_nil]
    cases hel : eligible objs[q] with
    | true =>
      obtain ⟨s1, h1, h2⟩ := tabLoop_stop_eligible objs false fo.self fuel1 s q hi hit hel
      exact ⟨s1, h1, by rw [h2, hfo]; rfl⟩
    | false =>
      exact tabLoop_stop_focus objs false fo.self fuel1 s q hi hit hfound hel
        (by rw [hfo]; exact htab) (by rw [hfo])
  | succ d ih =>
    intro q fuel s hqd hq hfuel hit hfound
    obtain ⟨fuel1, rfl⟩ : ∃ k, fuel = k + 1 := ⟨fuel - 1, by omega⟩
    have hget : (objs.drop (i + 1))[d]? = some objs[q] := by
      rw [List.getElem?_drop]
      have : i + 1 + d = q := by omega
      rw [this, List.getElem?_eq_getElem hq]
    have hrev : ((objs.drop (i + 1)).take (d + 1)).reverse
        = objs[q] :: ((objs.drop (i + 1)).take d).reverse := by
      rw [List.take_succ, hget]
      simp
    cases hel : eligible objs[q] with
    | true =>
      obtain ⟨s1, h1, h2⟩ := tabLoop_stop_eligible objs false fo.self fuel1 s q hq hit hel
      refine ⟨s1, h1, ?_⟩
      rw [h2, hrev, firstEligibleOr_cons, hel]
      rfl
    | false =>
      rw [tabLoop_skip objs false fo.self fuel1 s q hq hit hfound hel (hdist q hq (by omega))]
      obtain ⟨s2, hs2⟩ : ∃ s2 : TabState, s2 =
          { obj := if objs[q].isTabbedItem then some objs[q].self else none
            found := none
            it := if false then q + 1 else (if q ≠ 0 then q - 1 else objs.length) } := ⟨_, rfl⟩
      rw [← hs2]
      have hit2 : s2.it = q - 1 := by
        rw [hs2]
        have : q ≠ 0 := by omega
        simp [this]
      have hf2 : s2.found = none := by rw [hs2]
      obtain ⟨s1, h1, h2⟩ := ih (q - 1) fuel1 s2 (by omega) (by omega) (by omega) hit2 hf2
      refine ⟨s1, h1, ?_⟩
      rw [h2, hrev, firstEligibleOr_cons, hel]
      rfl

/-- Backward search from a position before the focus item: the children down
to the first one are examined, then those from the last child down. -/
theorem ObjectGroup.tabLoop_backwards_before (objs : List SceneObject) (i : Nat)
    (fo : SceneObject) (hi : i < objs.length) (hfo : objs[i] = fo)
    (htab : fo.isTabbedItem = true)
    (hdist : ∀ q (hq : q < objs.length), q ≠ i → objs[q].self ≠ fo.self) (q : Nat) :
    ∀ (fuel : Nat) (s : TabState), q < i → q + 1 + (objs.length - i) + 1 ≤ fuel →
      s.it = q → s.found = none →
      ∃ s1, tabLoop objs false (some fo.self) fuel s = some (some s1)
        ∧ tabReturn objs (some fo.self) s1
          = resultOf (firstEligibleOr
              ((objs.take (q + 1)).reverse ++ (objs.drop (i + 1)).reverse) (some fo)) := by
  induction q with
  | zero =>
    intro fuel s hqi hfuel hit hfound
    have hq : 0 < objs.length := by omega
    obtain ⟨fuel1, rfl⟩ : ∃ k, fuel = k + 1 := ⟨fuel - 1, by omega⟩
    have ht : (objs.take (0 + 1)).reverse = [objs[0]] := by
      rw [List.take_succ, List.take_zero, List.getElem?_eq_getElem hq]; rfl
    rw [ht]
    cases hel : eligible objs[0] with
    | true =>
      obtain ⟨s1, h1, h2⟩ := tabLoop_stop_eligible objs false fo.self fuel1 s 0 hq hit hel
      refine ⟨s1, h1, ?_⟩
      rw [h2, List.singleton_append, firstEligibleOr_cons, hel]
      rfl
    | false =>
      rw [tabLoop_skip objs false fo.self fuel1 s 0 hq hit hfound hel (hdist 0 hq (by omega))]
      obtain ⟨s2, hs2⟩ : ∃ s2 : TabState, s2 =
          { obj := if objs[0].isTabbedItem then some objs[0].self else none
            found := none
            it := if false then 0 + 1 else (if 0 ≠ 0 then 0 - 1 else objs.length) } := ⟨_, rfl⟩
      rw [← hs2]
      have hit2 : s2.it = objs.length := by rw [hs2]; simp
      have hf2 : s2.found = none := by rw [hs2]
      rw [tabLoop_wrap objs false (some fo.self) fuel1 s2 hq hit2]
      obtain ⟨s1, h1, h2⟩ := tabLoop_backwards_downto objs i fo hi hfo htab hdist
        (objs.length - 1 - i) (objs.length - 1) fuel1
        { s2 with it := if false then 0 else objs.length - 1 }
        (by omega) (by omega) (by omega) (by simp) hf2
      refine ⟨s1, h1, ?_⟩
      rw [h2, List.singleton_append, firstEligibleOr_cons, hel]
      have hfull : (objs.drop (i + 1)).take (objs.length - 1 - i) = objs.drop (i + 1) := by
        apply List.take_of_length_le
        simp [List.length_drop]
        omega
      rw [hfull]
      rfl
  | succ q ih =>
    intro fuel s hqi hfuel hit hfound
    have hq : q + 1 < objs.length := by omega
    obtain ⟨fuel1, rfl⟩ : ∃ k, fuel = k + 1 := ⟨fuel - 1, by omega⟩
    have ht : (objs.take (q + 1 + 1)).reverse = objs[q + 1] :: (objs.take (q + 1)).reverse := by
      rw [List.take_succ, List.getElem?_eq_getElem hq]
      simp
    rw [ht]
    cases hel : eligible objs[q + 1] with
    | true =>
      obtain ⟨s1, h1, h2⟩ := tabLoop_stop_eligible objs false fo.self fuel1 s (q + 1) hq hit hel
      refine ⟨s1, h1, ?_⟩
      rw [h2, List.cons_append, firstEligibleOr_cons, hel]
      rfl
    | false =>
      rw [tabLoop_skip objs false fo.self fuel1 s (q + 1) hq hit hfound hel
        (hdist (q + 1) hq (by omega))]
      obtain ⟨s2, hs2⟩ : ∃ s2 : TabState, s2 =
          { obj := if objs[q + 1].isTabbedItem then some objs[q + 1].self else none
            found := none
            it := if false then q + 1 + 1 else (if q + 1 ≠ 0 then q + 1 - 1 else objs.length) } :=
        ⟨_, rfl⟩
      rw [← hs2]
      have hit2 : s2.it = q := by rw [hs2]; simp
      have hf2 : s2.found = none := by rw [hs2]
      obtain ⟨s1, h1, h2⟩ := ih fuel1 s2 (by omega) (by omega) hit2 hf2
      refine ⟨s1, h1, ?_⟩
      rw [h2, List.cons_append, firstEligibleOr_cons, hel]
      rfl

open ObjectGroup

/-- `FindTabbedItem` when the focus object is a tab-capable child of a visible
group of distinct objects, at position `i` of the list.  Forwards, the first
eligible child met walking from just after the focus item to the end of the
list and on from the first child is returned, or the focus item itself when
no other child is eligible.  Backwards, when the focus item is not the first
child, the same holds for the walk down to the first child and on from the
last child down; when the focus item is the first child the start position
is computed by decrementing `begin()`, which is undefined. -/
theorem ObjectGroup.FindTabbedItem_focus_inside (g : ObjectGroup) (fo : SceneObject) (i : Nat)
    (hv : g.base.visible = true) (hi : i < g.objects.length) (hfo : g.objects[i] = fo)
    (htab : fo.isTabbedItem = true)
    (hnd : (g.objects.map (fun o => o.self)).Nodup) :
    g.FindTabbedItem (some fo) true
        = resultOf (firstEligibleOr (g.objects.drop (i + 1) ++ g.objects.take i) (some fo))
    ∧ (0 < i → g.FindTabbedItem (some fo) false
        = resultOf (firstEligibleOr
            ((g.objects.take i).reverse ++ (g.objects.drop (i + 1)).reverse) (some fo)))
    ∧ (i = 0 → g.FindTabbedItem (some fo) false = TabResult.undefined) := by
  have hlen0 : ¬ g.objects.length = 0 := by omega
  have hdist : ∀ q (hq : q < g.objects.length), q ≠ i → g.objects[q].self ≠ fo.self := by
    intro q hq hqi heq
    apply hqi
    have hq2 : q < (g.objects.map (fun o => o.self)).length := by simpa using hq
    have hi2 : i < (g.objects.map (fun o => o.self)).length := by simpa using hi
    have h1 : (g.objects.map (fun o => o.self))[q] = (g.objects.map (fun o => o.self))[i] := by
      simp only [List.getElem_map]
      rw [heq, hfo]
    exact (List.Nodup.getElem_inj_iff hnd).1 h1
  have hidx : g.objects.findIdx (fun o => o.self == fo.self) = i := by
    rw [List.findIdx_eq hi]
    refine ⟨by simp [hfo], ?_⟩
    intro j hji
    have := hdist j (by omega) (by omega)
    simpa using this
  have hfocus : tabFocus (some fo) = some fo.self := by simp [tabFocus, htab]
  have hne : ¬ i = g.objects.length := by omega
  refine ⟨?_, ?_, ?_⟩
  · have hstart : tabStart g.objects (some fo.self) true = some (i + 1, some fo.self) := by
      simp [tabStart, hidx, hne]
    unfold ObjectGroup.FindTabbedItem
    simp only [hv, Bool.true_eq_false, if_false, hlen0, hfocus, hstart, tabSearch]
    obtain ⟨s1, h1, h2⟩ := tabLoop_forwards_after g.objects i fo hi hfo htab hdist
      (g.objects.length - (i + 1)) (i + 1) (2 * g.objects.length + 2)
      { it := i + 1, found := none, obj := none } (by omega) (by omega) (by omega) rfl rfl
    rw [h1]
    exact h2
  · intro hpos
    have hi0 : ¬ i = 0 := by omega
    have hstart : tabStart g.objects (some fo.self) false = some (i - 1, some fo.self) := by
      simp [tabStart, hidx, hne, hi0]
    unfold ObjectGroup.FindTabbedItem
    simp only [hv, Bool.true_eq_false, if_false, hlen0, hfocus, hstart, tabSearch]
    obtain ⟨s1, h1, h2⟩ := tabLoop_backwards_before g.objects i fo hi hfo htab hdist (i - 1)
      (2 * g.objects.length + 2) { it := i - 1, found := none, obj := none }
      (by omega) (by omega) rfl rfl
    rw [h1]
    have : i - 1 + 1 = i := by omega
    rw [this] at h2
    exact h2
  · intro hzero
    have h0 : ¬ 0 = g.objects.length := by omega
    have hstart : tabStart g.objects (some fo.self) false = none := by
      simp [tabStart, hidx, hzero, h0]
    unfold ObjectGroup.FindTabbedItem
    simp only [hv, Bool.true_eq_false, if_false, hlen0, hfocus, hstart]

/-- Tab order on three visible tab-capable children: forwards from the second
gives the third, forwards from the third wraps to the first, backwards from
the second gives the first and backwards from the third gives the second. -/
theorem FindTabbedItem_three_children :
    (tabGroup 9 [tabItem 1 true, tabItem 2 true, tabItem 3 true]).FindTabbedItem
        (some (tabItem 2 true)) true = TabResult.item 3
    ∧ (tabGroup 9 [tabItem 1 true, tabItem 2 true, tabItem 3 true]).FindTabbedItem
        (some (tabItem 3 true)) true = TabResult.item 1
    ∧ (tabGroup 9 [tabItem 1 true, tabItem 2 true, tabItem 3 true]).FindTabbedItem
        (some (tabItem 2 true)) false = TabResult.item 1
    ∧ (tabGroup 9 [tabItem 1 true, tabItem 2 true, tabItem 3 true]).FindTabbedItem
        (some (tabItem 3 true)) false = TabResult.item 2 := by
  decide

/-- C8, failing input: in a visible group of three visible tab-capable
children with the first one focused, `FindTabbedItem(false)` moves the
iterator before `begin()` on its way to the start position: the execution
has undefined behaviour, where the claim has the third child returned. -/
theorem C8_backwards_from_first_child :
    (tabGroup 9 [tabItem 1 true, tabItem 2 true, tabItem 3 true]).FindTabbedItem
        (some (tabItem 1 true)) false = TabResult.undefined
    ∧ (tabGroup 9 [tabItem 1 true, tabItem 2 true, tabItem 3 true]).FindTabbedItem
        (some (tabItem 1 true)) false ≠ TabResult.item 3 := by
  decide

/-- C9, failing input: in a visible group of two visible tab-capable children,
with no focus object or with a focused tab-capable item that is not in the
group, `FindTabbedItem(true)` returns the second (last) child, where the
claim has the first, and `FindTabbedItem(false)` returns the first child,
where the claim has the last; with no visible tab-capable child a null
pointer is returned. -/
theorem C9_focus_absent :
    (tabGroup 9 [tabItem 1 true, tabItem 2 true]).FindTabbedItem none true = TabResult.item 2
    ∧ (tabGroup 9 [tabItem 1 true, tabItem 2 true]).FindTabbedItem none false = TabResult.item 1
    ∧ (tabGroup 9 [tabItem 1 true, tabItem 2 true]).FindTabbedItem
        (some (tabItem 7 true)) true = TabResult.item 2
    ∧ (tabGroup 9 [tabItem 1 true, tabItem 2 true]).FindTabbedItem
        (some (tabItem 7 true)) false = TabResult.item 1
    ∧ (tabGroup 9 [tabItem 1 false, tabItem 2 false]).FindTabbedItem none true = TabResult.null := by
  decide

/-! ## Animation: the cycle policy on non-negative positions -/

/-- Truncation of a non-negative number within the range of `int` is its floor. -/
theorem castInt_nonneg (x : ℚ) (h0 : 0 ≤ x) (h1 : x < 2 ^ 31) : castInt x = some ⌊x⌋ := by
  unfold castInt
  have hf0 : (0 : Int) ≤ ⌊x⌋ := Int.floor_nonneg.2 h0
  have hf1 : ⌊x⌋ < (2 : Int) ^ 31 := Int.floor_lt.2 (by exact_mod_cast h1)
  simp only [h0, if_true]
  rw [if_pos ⟨by omega, hf1⟩]

/-- Truncation is undefined from `2^31` on. -/
theorem castInt_large (x : ℚ) (h : 2 ^ 31 ≤ x) : castInt x = none := by
  unfold castInt
  have h0 : 0 ≤ x := le_trans (by norm_num) h
  have hf1 : (2 : Int) ^ 31 ≤ ⌊x⌋ := Int.le_floor.2 (by exact_mod_cast h)
  simp only [h0, if_true]
  rw [if_neg (by omega)]

/-- The Repeat policy on a non-negative position within the range of `int`. -/
theorem Animation.applyCycle_repeat (p : ℚ) (h0 : 0 ≤ p) (h1 : p < 2 ^ 31) :
    Animation.applyCycle CycleType.Repeat p = some (p - (⌊p⌋ : ℚ)) := by
  simp [Animation.applyCycle, castInt_nonneg p h0 h1]

/-- The Reverse policy on a non-negative position within the range of `int`. -/
theorem Animation.applyCycle_reverse (p : ℚ) (h0 : 0 ≤ p) (h1 : p < 2 ^ 31) :
    Animation.applyCycle CycleType.Reverse p
      = some (if ⌊p⌋ % 2 = 0 then p - (⌊p⌋ : ℚ) else 1 - (p - (⌊p⌋ : ℚ))) := by
  have hf0 : (0 : Int) ≤ ⌊p⌋ := Int.floor_nonneg.2 h0
  have ht : Int.tmod ⌊p⌋ 2 = ⌊p⌋ % 2 := Int.tmod_eq_emod hf0 (by norm_num)
  simp only [Animation.applyCycle, castInt_nonneg p h0 h1, Option.map_some', ht]
  by_cases hodd : ⌊p⌋ % 2 = 1
  · have hne : ¬ (⌊p⌋ % 2 = 0) := by omega
    simp [hodd]
  · have he : ⌊p⌋ % 2 = 0 := by omega
    simp [he]

/-- The Reverse policy one period later is the mirror image. -/
theorem Animation.applyCycle_reverse_succ (p : ℚ) (h0 : 0 ≤ p) (h1 : p + 1 < 2 ^ 31) :
    ∃ q, Animation.applyCycle CycleType.Reverse p = some q
      ∧ Animation.applyCycle CycleType.Reverse (p + 1) = some (1 - q) := by
  have hfl : ⌊p + 1⌋ = ⌊p⌋ + 1 := Int.floor_add_one p
  rw [Animation.applyCycle_reverse p h0 (by linarith),
    Animation.applyCycle_reverse (p + 1) (by linarith) h1, hfl]
  refine ⟨_, rfl, ?_⟩
  by_cases he : ⌊p⌋ % 2 = 0
  · have hne : ¬ ((⌊p⌋ + 1) % 2 = 0) := by omega
    simp only [he, hne, if_true, if_false]
    push_cast
    congr 1
    ring
  · have he1 : (⌊p⌋ + 1) % 2 = 0 := by omega
    simp only [he, he1, if_true, if_false]
    push_cast
    congr 1
    ring




/-- Raw position of a running animation whose epoch was set at time `s`, read
at time `t`. -/
theorem Animation.rawPos_running (a : Animation) (s t : Nat)
    (hp : a.paused = false) (hI : a.intervalMs ≠ 0)
    (hs : a.startTime = toInt32 (GetTickCount s)) (hto : a.timeOffset = 0)
    (hst : s ≤ t) (ht : t < 2 ^ 32) :
    a.rawPos t = some ((((t - s : Nat) : Int) : ℚ) / (a.intervalMs : ℚ) + a.animPcAtPauseTime) := by
  have hel : a.elapsed t = ((t - s : Nat) : Int) := by
    unfold Animation.elapsed
    rw [hs, hto]
    exact toUInt32_tick_sub s t hst ht
  simp [Animation.rawPos, hp, hI, hel]

/-- Position in terms of the raw position. -/
theorem Animation.GetAnimPos_of_rawPos (a : Animation) (now : Nat) (offset x : ℚ)
    (hx : a.rawPos now = some x) :
    a.GetAnimPos now offset = Animation.applyCycle a.cycleType (x + offset) := by
  simp [Animation.GetAnimPos, hx]

/-- Raw position of a Linear animation constructed running at time 0. -/
theorem Animation.create_rawPos (ct : CycleType) (I : Int) (hI : I ≠ 0) (t : Nat)
    (ht : t < 2 ^ 32) :
    (Animation.create 0 Animations.Linear I 1 0 ct false).rawPos t = some ((t : ℚ) / (I : ℚ)) := by
  rw [Animation.rawPos_running _ 0 t rfl (by simpa [Animation.create, Animation.Reset] using hI)
    rfl rfl (Nat.zero_le _) ht]
  simp [Animation.create, Animation.Reset]

/-- C11: for every Animation with cycle type Reverse and every raw position
p ≥ 0 (the elapsed time divided by the interval plus the stored position, or
the frozen position while paused, plus the offset) with p + 1 within the range
of `int`: the position `GetAnimPos` returns at raw position p + 1 is 1 minus
the position it returns at raw position p.  In particular, for a running
Reverse animation with interval I = 2h started at time s, the position at
s + 3h (one and a half intervals) is 1 minus the position at s + h (half an
interval). -/
theorem C11_reverse_mirror (a : Animation) (hct : a.cycleType = CycleType.Reverse) :
    (∀ (now now2 : Nat) (offset offset2 x y : ℚ),
        a.rawPos now = some x → a.rawPos now2 = some y →
        0 ≤ x + offset → y + offset2 = x + offset + 1 → x + offset + 1 < 2 ^ 31 →
        ∃ q, a.GetAnimPos now offset = some q ∧ a.GetAnimPos now2 offset2 = some (1 - q))
    ∧ (∀ (s h : Nat), a.paused = false → a.intervalMs = 2 * (h : Int) → 0 < h →
        a.startTime = toInt32 (GetTickCount s) → a.timeOffset = 0 → a.animPcAtPauseTime = 0 →
        s + 3 * h < 2 ^ 32 →
        ∃ q, a.GetAnimPos (s + h) 0 = some q ∧ a.GetAnimPos (s + 3 * h) 0 = some (1 - q)) := by
  have key : ∀ (now now2 : Nat) (offset offset2 x y : ℚ),
      a.rawPos now = some x → a.rawPos now2 = some y →
      0 ≤ x + offset → y + offset2 = x + offset + 1 → x + offset + 1 < 2 ^ 31 →
      ∃ q, a.GetAnimPos now offset = some q ∧ a.GetAnimPos now2 offset2 = some (1 - q) := by
    intro now now2 offset offset2 x y hx hy h0 hxy h1
    rw [Animation.GetAnimPos_of_rawPos a now offset x hx,
      Animation.GetAnimPos_of_rawPos a now2 offset2 y hy, hct, hxy]
    exact Animation.applyCycle_reverse_succ (x + offset) h0 h1
  refine ⟨key, ?_⟩
  intro s h hp hI hh hs hto hpc hr
  have hI0 : a.intervalMs ≠ 0 := by rw [hI]; omega
  have hhq : (h : ℚ) ≠ 0 := by exact_mod_cast (Nat.pos_iff_ne_zero.1 hh)
  have hx := Animation.rawPos_running a s (s + h) hp hI0 hs hto (by omega) (by omega)
  have hy := Animation.rawPos_running a s (s + 3 * h) hp hI0 hs hto (by omega) (by omega)
  have e1 : s + h - s = h := by omega
  have e2 : s + 3 * h - s = 3 * h := by omega
  rw [e1, hI, hpc] at hx
  rw [e2, hI, hpc] at hy
  have vx : (((h : Nat) : Int) : ℚ) / ((2 * (h : Int) : Int) : ℚ) + 0 = 1 / 2 := by
    push_cast
    field_simp
    ring
  have vy : (((3 * h : Nat) : Int) : ℚ) / ((2 * (h : Int) : Int) : ℚ) + 0 = 3 / 2 := by
    push_cast
    field_simp
    ring
  rw [vx] at hx
  rw [vy] at hy
  exact key (s + h) (s + 3 * h) 0 0 (1 / 2) (3 / 2) hx hy (by norm_num) (by norm_num)
    (by norm_num)

/-- C12: for every raw position p ≥ 0 (the elapsed fraction since the start
plus the stored position, or the frozen position while paused, plus the
offset), `GetAnimPos` returns min(p, 1) under Clamp and, for p within the
range of `int`, p - floor(p) under Repeat and under Reverse the triangle
wave: p - floor(p) when floor(p) is even, 1 - (p - floor(p)) when it is odd. -/
theorem C12_cycle_policy (a : Animation) (now : Nat) (offset x : ℚ)
    (hx : a.rawPos now = some x) (h0 : 0 ≤ x + offset) :
    (a.cycleType = CycleType.Clamp → a.GetAnimPos now offset = some (min (x + offset) 1))
    ∧ (a.cycleType = CycleType.Repeat → x + offset < 2 ^ 31 →
        a.GetAnimPos now offset = some ((x + offset) - (⌊x + offset⌋ : ℚ)))
    ∧ (a.cycleType = CycleType.Reverse → x + offset < 2 ^ 31 →
        a.GetAnimPos now offset
          = some (if ⌊x + offset⌋ % 2 = 0 then (x + offset) - (⌊x + offset⌋ : ℚ)
              else 1 - ((x + offset) - (⌊x + offset⌋ : ℚ)))) := by
  rw [Animation.GetAnimPos_of_rawPos a now offset x hx]
  refine ⟨fun hc => ?_, fun hc h1 => ?_, fun hc h1 => ?_⟩
  · rw [hc]; rfl
  · rw [hc]; exact Animation.applyCycle_repeat _ h0 h1
  · rw [hc]; exact Animation.applyCycle_reverse _ h0 h1



/-- C13 (as amended): for every Animation, every cycle type, every sampling
time, every pause state and every offset for which the raw position (the
elapsed fraction plus the stored position, or the frozen position while
paused, plus the offset) is a finite number that is not negative and, for
Repeat and Reverse, lies within the range of `int`: the position returned
by `GetAnimPos` lies in the closed interval [0, 1]. -/
theorem C13_position_range (a : Animation) (now : Nat) (offset x : ℚ)
    (hx : a.rawPos now = some x) (h0 : 0 ≤ x + offset)
    (h1 : a.cycleType = CycleType.Clamp ∨ x + offset < 2 ^ 31) :
    ∃ q, a.GetAnimPos now offset = some q ∧ 0 ≤ q ∧ q ≤ 1 := by
  rw [Animation.GetAnimPos_of_rawPos a now offset x hx]
  have hfl := Int.floor_le (x + offset)
  have hfu := Int.lt_floor_add_one (x + offset)
  cases hct : a.cycleType with
  | Clamp =>
    exact ⟨_, rfl, le_min h0 (by norm_num), min_le_right _ _⟩
  | Repeat =>
    have h2 : x + offset < 2 ^ 31 := by
      rcases h1 with h | h
      · rw [hct] at h; exact absurd h (by decide)
      · exact h
    rw [Animation.applyCycle_repeat _ h0 h2]
    exact ⟨_, rfl, by linarith, by linarith⟩
  | Reverse =>
    have h2 : x + offset < 2 ^ 31 := by
      rcases h1 with h | h
      · rw [hct] at h; exact absurd h (by decide)
      · exact h
    rw [Animation.applyCycle_reverse _ h0 h2]
    refine ⟨_, rfl, ?_, ?_⟩
    · split_ifs <;> linarith
    · split_ifs <;> linarith

/-- C13 (as stated) fails for a negative offset: a Linear animation with
interval 1000 ms started at time 0 is at raw position 1/4 at 250 ms; with
the offset -1/2 `GetAnimPos` returns -1/4 under each of the three cycle
types. -/
theorem C13_counterexample :
    (Animation.create 0 Animations.Linear 1000 1 0 CycleType.Clamp false).GetAnimPos 250 (-1 / 2)
      = some (-1 / 4)
    ∧ (Animation.create 0 Animations.Linear 1000 1 0 CycleType.Repeat false).GetAnimPos 250
        (-1 / 2) = some (-1 / 4)
    ∧ (Animation.create 0 Animations.Linear 1000 1 0 CycleType.Reverse false).GetAnimPos 250
        (-1 / 2) = some (-1 / 4)
    ∧ ¬ ((0 : ℚ) ≤ -1 / 4) := by
  have hraw : ∀ ct, (Animation.create 0 Animations.Linear 1000 1 0 ct false).rawPos 250
      = some (1 / 4) := by
    intro ct
    have h := Animation.rawPos_running (Animation.create 0 Animations.Linear 1000 1 0 ct false)
      0 250 rfl (by simp [Animation.create, Animation.Reset]) rfl rfl (by norm_num) (by norm_num)
    rw [h]
    simp [Animation.create, Animation.Reset]
    norm_num
  have hv : (1 / 4 : ℚ) + -1 / 2 = -1 / 4 := by norm_num
  have hc : castInt (-1 / 4) = some 0 := castInt_small _ (by norm_num) (by norm_num)
  refine ⟨?_, ?_, ?_, by norm_num⟩
  · rw [Animation.GetAnimPos_of_rawPos _ _ _ _ (hraw _), hv]
    simp [Animation.create, Animation.Reset, Animation.applyCycle]
    norm_num
  · rw [Animation.GetAnimPos_of_rawPos _ _ _ _ (hraw _), hv]
    simp [Animation.create, Animation.Reset, Animation.applyCycle, hc]
  · rw [Animation.GetAnimPos_of_rawPos _ _ _ _ (hraw _), hv]
    simp [Animation.create, Animation.Reset, Animation.applyCycle, hc]

/-! ## Animation: crop -/

/-- C14: for every pair of crop bounds, in either order, and every pos,
`Crop(pos)` equals cropLower + (cropUpper - cropLower) * pos; hence
`Crop(0)` is cropLower, `Crop(1)` is cropUpper, and for pos in [0, 1] the
result lies between the two bounds. -/
theorem C14_crop (a : Animation) (pos : ℚ) :
    a.Crop pos = a.cropLower + (a.cropUpper - a.cropLower) * pos
    ∧ a.Crop 0 = a.cropLower
    ∧ a.Crop 1 = a.cropUpper
    ∧ (0 ≤ pos → pos ≤ 1 →
        min a.cropLower a.cropUpper ≤ a.Crop pos ∧ a.Crop pos ≤ max a.cropLower a.cropUpper) := by
  have key : ∀ y : ℚ, a.Crop y = a.cropLower + (a.cropUpper - a.cropLower) * y := by
    intro y
    unfold Animation.Crop
    split_ifs <;> ring
  refine ⟨key pos, by rw [key]; ring, by rw [key]; ring, fun h0 h1 => ?_⟩
  rw [key]
  rcases le_total a.cropLower a.cropUpper with h | h
  · rw [min_eq_left h, max_eq_right h]
    constructor <;> nlinarith
  · rw [min_eq_right h, max_eq_left h]
    constructor <;> nlinarith



/-! ## Animation: completion -/

/-- `Done()` spelled out. -/
theorem Animation.Done_iff (a : Animation) (now : Nat) :
    a.Done now = true ↔ (a.cycleType = CycleType.Clamp ∧ a.GetAnimPos now 0 = some 1) := by
  simp [Animation.Done]

/-- A paused animation stays paused under `Pause(true)`, and a running one is
frozen at the position it has. -/
theorem Animation.GetAnimPos_Pause_clamp (a : Animation) (now later : Nat) (p : ℚ)
    (hct : a.cycleType = CycleType.Clamp) (hp : a.GetAnimPos now 0 = some p) :
    (a.Pause now true).GetAnimPos later 0 = some (min p 1) := by
  cases hpa : a.paused
  · have hP : a.Pause now true = { a with animPcAtPauseTime := p, paused := true } := by
      simp [Animation.Pause, hpa, hp]
    rw [hP]
    simp [Animation.GetAnimPos, Animation.rawPos, hct, Animation.applyCycle]
  · rw [Animation.GetAnimPos_paused a now 0 hpa, hct] at hp
    simp only [Animation.applyCycle, add_zero, Option.some.injEq] at hp
    simp [Animation.Pause, hpa, Animation.GetAnimPos, Animation.rawPos, hct,
      Animation.applyCycle, hp]
    rw [← hp]
    exact min_le_right _ _

/-- C15: for every Animation, `Done()` is true if and only if its cycle type
is Clamp and `GetAnimPos()` equals exactly 1.  Consequently a running Clamp
animation with interval I > 0 whose epoch was set at time s (stored position
0, no time offset) is done at a tick t ≥ s iff t - s ≥ I; a Clamp animation
paused (by `Pause(true)` at any time) at a position below 1 is not done at
any later time; and an animation whose cycle type is Repeat or Reverse is
never done. -/
theorem C15_animation_done (a : Animation) :
    (∀ now : Nat,
        a.Done now = true ↔ (a.cycleType = CycleType.Clamp ∧ a.GetAnimPos now 0 = some 1))
    ∧ (∀ s t : Nat, a.cycleType = CycleType.Clamp → a.paused = false → 0 < a.intervalMs →
        a.startTime = toInt32 (GetTickCount s) → a.timeOffset = 0 → a.animPcAtPauseTime = 0 →
        s ≤ t → t < 2 ^ 32 →
        (a.Done t = true ↔ a.intervalMs ≤ ((t - s : Nat) : Int)))
    ∧ (∀ (now : Nat) (p : ℚ), a.cycleType = CycleType.Clamp → a.GetAnimPos now 0 = some p →
        p < 1 → ∀ later : Nat, (a.Pause now true).Done later = false)
    ∧ (a.cycleType ≠ CycleType.Clamp → ∀ now : Nat, a.Done now = false) := by
  refine ⟨fun now => Animation.Done_iff a now, ?_, ?_, ?_⟩
  · intro s t hct hp hI hs hto hpc hst ht
    have hIq : (0 : ℚ) < (a.intervalMs : ℚ) := by exact_mod_cast hI
    rw [Animation.Done_iff,
      Animation.GetAnimPos_of_rawPos a t 0 _
        (Animation.rawPos_running a s t hp (ne_of_gt hI) hs hto hst ht), hct, hpc]
    simp only [Animation.applyCycle, add_zero, true_and, Option.some.injEq]
    rw [min_eq_right_iff, le_div_iff₀ hIq, one_mul]
    exact ⟨fun h => by exact_mod_cast h, fun h => by exact_mod_cast h⟩
  · intro now p hct hp hlt later
    have hpos := Animation.GetAnimPos_Pause_clamp a now later p hct hp
    rw [min_eq_left (le_of_lt hlt)] at hpos
    cases hd : (a.Pause now true).Done later
    · rfl
    · exfalso
      have h1 := ((Animation.Done_iff _ _).1 hd).2
      rw [hpos] at h1
      have : p = 1 := Option.some.inj h1
      linarith
  · intro hct now
    simp [Animation.Done, hct]

/-! ## Animation: a zero interval -/

/-- With a zero interval a running animation has no finite raw position; the
Clamp branch then yields 1 and the other branches nothing defined. -/
theorem Animation.GetAnimPos_interval_zero (a : Animation) (now : Nat) (offset : ℚ)
    (hI : a.intervalMs = 0) (hp : a.paused = false) :
    a.rawPos now = none
    ∧ a.GetAnimPos now offset = (if a.cycleType = CycleType.Clamp then some 1 else none) := by
  have hr : a.rawPos now = none := by simp [Animation.rawPos, hp, hI]
  refine ⟨hr, ?_⟩
  cases hct : a.cycleType <;> simp [Animation.GetAnimPos, hr, hct]

/-- C16 (as amended): a running Clamp animation whose interval is 0 is at
position 1 at every sampling time and for every offset (the quotient by the
zero interval is not a finite number and `min(animPc, 1.0f)` yields 1), so
`GetAnimOffset` returns the finite value
`animFunc(Crop(1)) * amplitude + base`. -/
theorem C16_zero_interval (a : Animation) (hI : a.intervalMs = 0) (hp : a.paused = false)
    (hct : a.cycleType = CycleType.Clamp) :
    ∀ (now : Nat) (offset : ℚ),
      a.GetAnimPos now offset = some 1
      ∧ a.GetAnimOffset now offset = some (a.animFunc (a.Crop 1) * a.amplitude + a.base)
      ∧ a.GetAnimOffset now offset = some (a.GetAnimFixed 1)
      ∧ a.Crop 1 = a.cropUpper := by
  intro now offset
  have h := (Animation.GetAnimPos_interval_zero a now offset hI hp).2
  rw [if_pos hct] at h
  refine ⟨h, ?_, ?_, ?_⟩
  · unfold Animation.GetAnimOffset
    rw [h]
    rfl
  · unfold Animation.GetAnimOffset Animation.GetAnimFixed
    rw [h]
    rfl
  · unfold Animation.Crop
    split_ifs <;> ring

/-- C16 as stated fails: the running Repeat animation `FromTo(0, 100, 0)`
(interval 0) divides the elapsed time by zero at every sampling time, its
position and its value are not defined (not finite numbers), and likewise
under Reverse; a Clamp animation with interval 0 constructed paused is at
position 0, not 1. -/
theorem C16_counterexample :
    (Animation.FromTo 0 0 100 0 false false).intervalMs = 0
    ∧ (∀ t : Nat, (Animation.FromTo 0 0 100 0 false false).rawPos t = none)
    ∧ (∀ t : Nat, (Animation.FromTo 0 0 100 0 false false).GetAnimPos t 0 = none)
    ∧ (∀ t : Nat, (Animation.FromTo 0 0 100 0 false false).GetAnimOffset t 0 = none)
    ∧ (∀ t : Nat,
        (Animation.create 0 Animations.Linear 0 1 0 CycleType.Reverse false).GetAnimOffset t 0
          = none)
    ∧ (∀ t : Nat,
        (Animation.create 0 Animations.Linear 0 1 0 CycleType.Clamp true).GetAnimPos t 0
          = some 0) := by
  have h1 := fun t : Nat =>
    Animation.GetAnimPos_interval_zero (Animation.FromTo 0 0 100 0 false false) t 0 rfl rfl
  have h2 := fun t : Nat => Animation.GetAnimPos_interval_zero
    (Animation.create 0 Animations.Linear 0 1 0 CycleType.Reverse false) t 0 rfl rfl
  have c1 : (Animation.FromTo 0 0 100 0 false false).cycleType = CycleType.Repeat := rfl
  have c2 : (Animation.create 0 Animations.Linear 0 1 0 CycleType.Reverse false).cycleType
      = CycleType.Reverse := rfl
  refine ⟨rfl, fun t => (h1 t).1, fun t => ?_, fun t => ?_, fun t => ?_, fun t => ?_⟩
  · rw [(h1 t).2, c1]; rfl
  · unfold Animation.GetAnimOffset
    rw [(h1 t).2, c1]; rfl
  · unfold Animation.GetAnimOffset
    rw [(h2 t).2, c2]; rfl
  · rw [Animation.GetAnimPos_paused _ t 0 rfl]
    simp [Animation.create, Animation.Reset, Animation.applyCycle]

/-! ## AnimationChain: `Add` -/

/-- C17: for every AnimationChain and every Animation a of any cycle type,
after `Add(a)` the chain has one more entry; the new last entry has cycle
type Clamp, is paused and is at position 0 at every time; the chain's
`Done()` is false; the current index and all earlier entries are unchanged. -/
theorem C17_chain_add (c : AnimationChain) (now : Nat) (a : Animation) :
    (c.Add now a).animations.length = c.animations.length + 1
    ∧ (∃ e, (c.Add now a).animations[c.animations.length]? = some e
        ∧ (c.Add now a).animations.getLast? = some e
        ∧ e.cycleType = CycleType.Clamp ∧ e.IsPaused = true
        ∧ ∀ t : Nat, e.GetAnimPos t 0 = some 0)
    ∧ (c.Add now a).Done = false
    ∧ (c.Add now a).index = c.index
    ∧ (c.Add now a).animations.take c.animations.length = c.animations := by
  refine ⟨by simp [AnimationChain.Add], ⟨(a.SetCycleType CycleType.Clamp).Reset now true, ?_, ?_,
    rfl, rfl, fun t => ?_⟩, rfl, rfl, by simp [AnimationChain.Add]⟩
  · simp [AnimationChain.Add]
  · simp [AnimationChain.Add]
  · rw [Animation.GetAnimPos_paused _ t 0 rfl]
    simp [Animation.Reset, Animation.SetCycleType, Animation.applyCycle]

/-! ## AnimationChain: one entry per poll -/

/-- `Start` leaves the index where it is, or sets it to 0 in a Repeat chain. -/
theorem AnimationChain.Start_index (c : AnimationChain) (now : Nat) (reset : Bool) :
    (c.Start now reset).index = c.index
      ∨ (c.cycleType = CycleType.Repeat ∧ (c.Start now reset).index = 0) := by
  unfold AnimationChain.Start
  by_cases hi : c.index < c.animations.length
  · left
    simp [hi, AnimationChain.startEntry]
  · by_cases hr : c.cycleType = CycleType.Repeat
    · right
      refine ⟨hr, ?_⟩
      by_cases hl : 0 < c.animations.length
      · simp [hi, hr, hl, AnimationChain.startEntry]
      · simp [hi, hr, hl]
    · left
      by_cases hc : c.cycleType = CycleType.Clamp ∧ c.done = false
      · simp [hi, hr, hc]
      · simp [hi, hr, hc]

/-- C18: for every AnimationChain state and every time, a single `Update()`
call, and so a single `GetAnimOffset` call, leaves the current index where
it is, moves it forward by exactly one entry, or sets it to 0 (in a Repeat
chain): it never moves the index forward by two or more entries, whatever
the intervals that have elapsed. -/
theorem C18_one_entry_per_poll (c : AnimationChain) (now : Nat) (offset : ℚ) :
    ((c.Update now).index = c.index ∨ (c.Update now).index = c.index + 1
      ∨ (c.cycleType = CycleType.Repeat ∧ (c.Update now).index = 0))
    ∧ ((c.GetAnimOffset now offset).1.index = c.index
      ∨ (c.GetAnimOffset now offset).1.index = c.index + 1
      ∨ (c.cycleType = CycleType.Repeat ∧ (c.GetAnimOffset now offset).1.index = 0)) := by
  have key : (c.Update now).index = c.index ∨ (c.Update now).index = c.index + 1
      ∨ (c.cycleType = CycleType.Repeat ∧ (c.Update now).index = 0) := by
    unfold AnimationChain.Update
    by_cases hi : c.index = c.animations.length
    · left; rw [if_pos hi]
    · rw [if_neg hi]
      cases hget : c.animations[c.index]? with
      | none => left; rfl
      | some a =>
        simp only
        by_cases hdone : a.Done now = true
        · rw [if_pos hdone]
          right
          rcases AnimationChain.Start_index
            { c with finalValue := a.GetAnimOffset now 0, index := c.index + 1 } now true
            with h | h
          · left; exact h
          · right; exact h
        · rw [if_neg hdone]
          left; rfl
  rw [AnimationChain.GetAnimOffset_fst]
  exact ⟨key, key⟩



/-! ## AnimationChain: the Repeat cycle type -/

/-- `Start` leaves a non-empty Repeat chain not done, whatever it was before. -/
theorem AnimationChain.Start_repeat_nonempty (c : AnimationChain) (now : Nat) (reset : Bool)
    (hr : c.cycleType = CycleType.Repeat) (hn : 0 < c.animations.length) :
    (c.Start now reset).done = false ∧ (c.Start now reset).cycleType = CycleType.Repeat := by
  unfold AnimationChain.Start
  by_cases hi : c.index < c.animations.length
  · simp [hi, AnimationChain.startEntry, hr]
  · simp [hi, hr, hn, AnimationChain.startEntry]

/-- `Pause` never completes a Repeat chain. -/
theorem AnimationChain.Pause_repeat (c : AnimationChain) (now : Nat) (pause : Bool)
    (hr : c.cycleType = CycleType.Repeat) (hd : c.done = false) :
    (c.Pause now pause).done = false ∧ (c.Pause now pause).cycleType = CycleType.Repeat := by
  have key : ∀ c1 : AnimationChain, c1.done = false → c1.cycleType = CycleType.Repeat →
      (if !pause then c1.Start now false else c1).done = false
      ∧ (if !pause then c1.Start now false else c1).cycleType = CycleType.Repeat := by
    intro c1 h1 h2
    cases pause
    · exact AnimationChain.Start_repeat c1 now false h2 h1
    · exact ⟨h1, h2⟩
  unfold AnimationChain.Pause
  exact key _ (by split_ifs <;> exact hd) (by split_ifs <;> exact hr)

/-- No call completes a Repeat chain that is not done. -/
theorem AnimationChain.calls_repeat (ks : List (ChainCall × Nat)) (c : AnimationChain)
    (hr : c.cycleType = CycleType.Repeat) (hd : c.done = false) :
    (c.calls ks).done = false ∧ (c.calls ks).cycleType = CycleType.Repeat := by
  induction ks generalizing c with
  | nil => exact ⟨hd, hr⟩
  | cons k rest ih =>
    have hstep : (c.call k.1 k.2).done = false ∧ (c.call k.1 k.2).cycleType = CycleType.Repeat := by
      cases hk : k.1 with
      | update => exact AnimationChain.Update_repeat c k.2 hr hd
      | getAnimOffset offset =>
        simp only [AnimationChain.call]
        rw [AnimationChain.GetAnimOffset_fst]
        exact AnimationChain.Update_repeat c k.2 hr hd
      | start reset => exact AnimationChain.Start_repeat c k.2 reset hr hd
      | pause p => exact AnimationChain.Pause_repeat c k.2 p hr hd
    have := ih (c.call k.1 k.2) hstep.2 hstep.1
    simpa [AnimationChain.calls] using this

/-- The poll of a Repeat chain in which the last entry is done. -/
theorem AnimationChain.Update_wrap (c : AnimationChain) (now : Nat) (e : Animation)
    (hr : c.cycleType = CycleType.Repeat) (hl : c.index + 1 = c.animations.length)
    (he : c.animations[c.index]? = some e) (hdone : e.Done now = true) :
    (c.Update now).index = 0
    ∧ (c.Update now).animations
      = AnimationChain.modifyAt c.animations 0 (fun a => (a.Reset now false).Pause now false)
    ∧ (c.Update now).done = false
    ∧ (c.Update now).onDoneCalls = c.onDoneCalls
    ∧ (c.Update now).paused = false := by
  have hi : c.index ≠ c.animations.length := by omega
  have hn : 0 < c.animations.length := by omega
  unfold AnimationChain.Update
  rw [if_neg hi, he]
  simp only [hdone, if_true]
  unfold AnimationChain.Start
  simp [hl, hr, hn, AnimationChain.startEntry]



/-- The cycle policy leaves position 0 where it is. -/
theorem Animation.applyCycle_zero (ct : CycleType) : Animation.applyCycle ct 0 = some 0 := by
  have hc : castInt 0 = some 0 := castInt_small 0 (by norm_num) (by norm_num)
  cases ct <;> simp [Animation.applyCycle, hc]

/-- An entry restarted by `Reset()` and `Pause(false)`: it runs, its stored
position is 0 and its epoch is the time of the call; with a non-zero interval
and no time offset its position at that time is 0. -/
theorem Animation.Reset_Pause_facts (e : Animation) (now : Nat) :
    ((e.Reset now false).Pause now false).IsPaused = false
    ∧ ((e.Reset now false).Pause now false).animPcAtPauseTime = 0
    ∧ ((e.Reset now false).Pause now false).startTime = toInt32 (GetTickCount now)
    ∧ (e.intervalMs ≠ 0 → e.timeOffset = 0 →
        ((e.Reset now false).Pause now false).GetAnimPos now 0 = some 0) := by
  have h1 : ((e.Reset now false).Pause now false).paused = false := by
    simp [Animation.Reset, Animation.Pause]
  have h2 : ((e.Reset now false).Pause now false).animPcAtPauseTime = 0 := by
    simp [Animation.Reset, Animation.Pause]
  have h3 : ((e.Reset now false).Pause now false).startTime = toInt32 (GetTickCount now) := by
    simp [Animation.Reset, Animation.Pause]
  have h4 : ((e.Reset now false).Pause now false).intervalMs = e.intervalMs := by
    simp [Animation.Reset, Animation.Pause]
  have h5 : ((e.Reset now false).Pause now false).timeOffset = e.timeOffset := by
    simp [Animation.Reset, Animation.Pause]
  refine ⟨h1, h2, h3, fun hI hto => ?_⟩
  rw [Animation.GetAnimPos_at_epoch _ now h1 (by rw [h4]; exact hI) (by rw [h5]; exact hto) h3,
    h2]
  exact Animation.applyCycle_zero _

/-- C19: for every AnimationChain with at least one entry and chain cycle
type Repeat: the poll (`Update()` or `GetAnimOffset`) in which the last entry
is found done sets the current index back to 0 and restarts entry 0, which
is reset (stored position 0, epoch at the time of the poll, so that its
position is 0 when its interval is not zero and it has no time offset) and
unpaused; the poll does not invoke the completion callback and leaves
`Done()` false.  Once such a chain is started, `Done()` is false after
every sequence of `Update`, `GetAnimOffset`, `Start` and `Pause` calls. -/
theorem C19_repeat_chain (c : AnimationChain) (hr : c.cycleType = CycleType.Repeat)
    (hn : 0 < c.animations.length) :
    (∀ (now : Nat) (offset : ℚ) (e : Animation), c.index + 1 = c.animations.length →
        c.animations[c.index]? = some e → e.Done now = true →
        (c.GetAnimOffset now offset).1 = c.Update now
        ∧ (c.Update now).index = 0
        ∧ (∃ e0 r0, c.animations[0]? = some e0 ∧ (c.Update now).animations[0]? = some r0
            ∧ r0 = (e0.Reset now false).Pause now false
            ∧ r0.IsPaused = false ∧ r0.animPcAtPauseTime = 0
            ∧ r0.startTime = toInt32 (GetTickCount now)
            ∧ (e0.intervalMs ≠ 0 → e0.timeOffset = 0 → r0.GetAnimPos now 0 = some 0))
        ∧ (c.Update now).onDoneCalls = c.onDoneCalls
        ∧ (c.Update now).Done = false)
    ∧ (∀ (now : Nat) (reset : Bool) (ks : List (ChainCall × Nat)),
        (c.Start now reset).Done = false ∧ ((c.Start now reset).calls ks).Done = false) := by
  constructor
  · intro now offset e hl he hdone
    obtain ⟨w1, w2, w3, w4, _⟩ := AnimationChain.Update_wrap c now e hr hl he hdone
    refine ⟨AnimationChain.GetAnimOffset_fst c now offset, w1, ?_, w4, w3⟩
    have h0 : c.animations[0]? = some (c.animations[0]) := List.getElem?_eq_getElem hn
    refine ⟨c.animations[0], (c.animations[0].Reset now false).Pause now false, h0, ?_, rfl,
      Animation.Reset_Pause_facts _ now⟩
    rw [w2]
    unfold AnimationChain.modifyAt
    rw [h0]
    simp [hn]
  · intro now reset ks
    obtain ⟨h1, h2⟩ := AnimationChain.Start_repeat_nonempty c now reset hr hn
    exact ⟨h1, (AnimationChain.calls_repeat ks _ h2 h1).1⟩

/-! ## SceneObject: the frame of `Update` -/

/-- With the default hook `UpdateWith` is `Update`. -/
theorem SceneObject.UpdateWith_default (o : SceneObject) (now : Nat) :
    o.UpdateWith (fun x => x) now = o.Update now := by
  unfold SceneObject.UpdateWith SceneObject.Update
  cases allBindings.foldlM (SceneObject.updateBinding now) o <;> rfl

/-- C20: for every SceneObject whose bound names resolve to fields,
`Update()` assigns to the field of each bound name exactly the value its
chain's `GetAnimOffset()` returns at that call and leaves every field with
no binding unchanged; the subtype update hook is invoked after the loop, on
the object in which all bound fields have been written. -/
theorem C20_update_frame (o : SceneObject) (now : Nat) (doUpdate : SceneObject → SceneObject)
    (hb : o.Bindable) :
    ∃ o1, o.Update now = some o1
      ∧ (∀ b chain, o.animations b = some chain → o1.field b = (chain.GetAnimOffset now 0).2)
      ∧ (∀ b, o.animations b = none → o1.field b = o.field b)
      ∧ o.UpdateWith doUpdate now = some (doUpdate o1) := by
  have hu := SceneObject.Update_eq o now hb
  refine ⟨o.updated now, hu, ?_, ?_, ?_⟩
  · intro b chain hc
    simp [SceneObject.updated, SceneObject.polledField, hc]
  · intro b hc
    simp [SceneObject.updated, SceneObject.polledField, hc]
  · unfold SceneObject.Update at hu
    unfold SceneObject.UpdateWith
    rw [hu]
    rfl

/-! ## SceneObject: binding a name that does not resolve -/

/-- `Bind` stores the chain under the name, whatever `getBinding` says. -/
theorem SceneObject.Bind_animations (o : SceneObject) (b : SceneObjectBindings)
    (anim : AnimationChain) (master : Bool) :
    (o.Bind b anim master).animations b = some anim
    ∧ (o.Bind b anim master).getBinding = o.getBinding
    ∧ (o.Bind b anim master).masterAnimation = (if master then b else o.masterAnimation) := by
  cases master <;> simp [SceneObject.Bind]

/-- The loop of `Update` is undefined as soon as one of the names still to be
visited is bound and does not resolve to a field. -/
theorem SceneObject.foldlM_updateBinding_none (now : Nat) (bs : List SceneObjectBindings) :
    ∀ o : SceneObject, (∃ b ∈ bs, o.animations b ≠ none ∧ o.getBinding b = false) →
      bs.foldlM (SceneObject.updateBinding now) o = none := by
  induction bs with
  | nil => intro o h; obtain ⟨b, hb, _⟩ := h; simp at hb
  | cons b0 bs ih =>
    intro o h
    obtain ⟨b, hb, hne, hg⟩ := h
    rw [List.foldlM_cons]
    cases hu : SceneObject.updateBinding now o b0 with
    | none => rfl
    | some o1 =>
      simp only [Option.some_bind, Option.bind_eq_bind]
      have hbb : b ≠ b0 := by
        intro heq
        subst heq
        unfold SceneObject.updateBinding at hu
        cases hch : o.animations b with
        | none => exact hne hch
        | some chain => simp [hch, hg] at hu
      have hmem : b ∈ bs := by
        rcases List.mem_cons.1 hb with h1 | h1
        · exact absurd h1 hbb
        · exact h1
      apply ih o1
      refine ⟨b, hmem, ?_, ?_⟩
      · unfold SceneObject.updateBinding at hu
        cases hch : o.animations b0 with
        | none =>
          simp only [hch, Option.some.injEq] at hu
          rw [← hu]; exact hne
        | some chain =>
          simp only [hch] at hu
          split_ifs at hu with h1 h2
          · have := Option.some.inj hu
            rw [← this]
            simpa [Function.update, hbb] using hne
          · have := Option.some.inj hu
            rw [← this]
            simpa [Function.update, hbb] using hne
      · unfold SceneObject.updateBinding at hu
        cases hch : o.animations b0 with
        | none =>
          simp only [hch, Option.some.injEq] at hu
          rw [← hu]; exact hg
        | some chain =>
          simp only [hch] at hu
          split_ifs at hu with h1 h2
          · have := Option.some.inj hu
            rw [← this]
            exact hg
          · have := Option.some.inj hu
            rw [← this]
            exact hg

/-- `Update` is undefined (it writes through a null pointer) when a bound
name does not resolve to a field. -/
theorem SceneObject.Update_unresolved (o : SceneObject) (now : Nat) (b : SceneObjectBindings)
    (hne : o.animations b ≠ none) (hg : o.getBinding b = false) : o.Update now = none :=
  SceneObject.foldlM_updateBinding_none now allBindings o ⟨b, mem_allBindings b, hne, hg⟩

open SceneObjectBindings in
/-- C21 fails: `Rectangle::getBinding` does not resolve `BindRotation`, yet
`Bind(BindRotation, chain, true)` on a rectangle stores the chain in the
binding map and changes the master designation (the `Assert` only writes a
debug message); every later `Update()` then writes through the null pointer. -/
theorem C21_bind_unresolved :
    (Rectangle 1 0 0 10 10).getBinding BindRotation = false
    ∧ (Rectangle 1 0 0 10 10).animations BindRotation = none
    ∧ (Rectangle 1 0 0 10 10).masterAnimation = BindNone
    ∧ ((Rectangle 1 0 0 10 10).Bind BindRotation (runChain 0 1 1000) true).animations BindRotation
        = some (runChain 0 1 1000)
    ∧ ((Rectangle 1 0 0 10 10).Bind BindRotation (runChain 0 1 1000) true).masterAnimation
        = BindRotation
    ∧ (∀ now : Nat,
        ((Rectangle 1 0 0 10 10).Bind BindRotation (runChain 0 1 1000) true).Update now = none)
    ∧ (∀ now : Nat,
        ((Rectangle 1 0 0 10 10).Bind BindRotation (runChain 0 1 1000) false).Update now
          = none) := by
  have hg : (Rectangle 1 0 0 10 10).getBinding BindRotation = false := by
    simp [Rectangle]
  refine ⟨hg, rfl, rfl, ?_, ?_, fun now => ?_, fun now => ?_⟩
  · exact (SceneObject.Bind_animations _ _ _ _).1
  · exact (SceneObject.Bind_animations _ _ _ _).2.2
  · apply SceneObject.Update_unresolved _ now BindRotation
    · rw [(SceneObject.Bind_animations _ _ _ _).1]; simp
    · rw [(SceneObject.Bind_animations _ _ _ _).2.1]; exact hg
  · apply SceneObject.Update_unresolved _ now BindRotation
    · rw [(SceneObject.Bind_animations _ _ _ _).1]; simp
    · rw [(SceneObject.Bind_animations _ _ _ _).2.1]; exact hg

/-! ## ObjectManager: `Remove` -/

/-- `Remove` of an address that no child has leaves the manager as it is. -/
theorem Scene.Remove_absent (s : Scene) (addr : Nat) (h : ∀ o ∈ s.objects, o.self ≠ addr) :
    s.Remove addr = s := by
  unfold Scene.Remove
  have hf : s.objects.find? (fun o => o.self == addr) = none := by
    rw [List.find?_eq_none]
    intro o ho
    simpa using h o ho
  rw [hf]

/-- `Remove` erases the first child at the address and keeps the others in order. -/
theorem Scene.Remove_first (s : Scene) (addr : Nat) (pre post : List SceneObject)
    (o : SceneObject) (hl : s.objects = pre ++ o :: post) (hpre : ∀ p ∈ pre, p.self ≠ addr)
    (ho : o.self = addr) : (s.Remove addr).objects = pre ++ post := by
  rw [Scene.Remove_objects, hl]
  unfold Scene.eraseAddr
  rw [List.eraseP_append_right _ (by intro p hp; simpa using hpre p hp)]
  rw [List.eraseP_cons_of_pos (by simpa using ho)]

/-- C22: for every ObjectManager and every object address, `Remove` yields the
child list with the first child at that address erased and all other
children in their original order; when no child is at the address the
manager is unchanged; so calling `Remove` twice on a list that holds the
object once has the same result as calling it once. -/
theorem C22_remove (s : Scene) (addr : Nat) :
    ((∀ o ∈ s.objects, o.self ≠ addr) → s.Remove addr = s)
    ∧ (∀ (pre post : List SceneObject) (o : SceneObject), s.objects = pre ++ o :: post →
        (∀ p ∈ pre, p.self ≠ addr) → o.self = addr →
        (s.Remove addr).objects = pre ++ post)
    ∧ (∀ (pre post : List SceneObject) (o : SceneObject), s.objects = pre ++ o :: post →
        (∀ p ∈ pre, p.self ≠ addr) → o.self = addr → (∀ p ∈ post, p.self ≠ addr) →
        (s.Remove addr).Remove addr = s.Remove addr) := by
  refine ⟨Scene.Remove_absent s addr, ?_, ?_⟩
  · intro pre post o hl hpre ho
    exact Scene.Remove_first s addr pre post o hl hpre ho
  · intro pre post o hl hpre ho hpost
    apply Scene.Remove_absent
    intro p hp
    rw [Scene.Remove_first s addr pre post o hl hpre ho] at hp
    rcases List.mem_append.1 hp with h | h
    · exact hpre p h
    · exact hpost p h

/-! ## SceneObject: the master designation under `Unbind` and `Bind` -/

/-- C29: `Unbind(n)` removes the chain bound to n and leaves the master
designation as it is; `Bind(m, chain, false)` does not change the master
designation; so for an object whose master binding is n, after `Unbind(n)`
and `Bind(n, chain2, false)` an `Update()` in which chain2 is done after its
poll sets the object's done flag (the bound names resolving to fields). -/
theorem C29_master_designation (o : SceneObject) (n : SceneObjectBindings)
    (hm : o.masterAnimation = n) :
    (o.Unbind n).animations n = none
    ∧ (o.Unbind n).masterAnimation = n
    ∧ (∀ (m : SceneObjectBindings) (chain : AnimationChain),
        (o.Bind m chain false).masterAnimation = n)
    ∧ (∀ chain2 : AnimationChain, ((o.Unbind n).Bind n chain2 false).masterAnimation = n
        ∧ ((o.Unbind n).Bind n chain2 false).animations n = some chain2)
    ∧ (∀ (chain2 : AnimationChain) (now : Nat), ((o.Unbind n).Bind n chain2 false).Bindable →
        (chain2.GetAnimOffset now 0).1.Done = true →
        ∃ o1, ((o.Unbind n).Bind n chain2 false).Update now = some o1 ∧ o1.Done = true) := by
  refine ⟨by simp [SceneObject.Unbind], hm, fun m chain => ?_, fun chain2 => ⟨?_, ?_⟩,
    fun chain2 now hb hd => ?_⟩
  · simp [SceneObject.Bind, hm]
  · simp [SceneObject.Bind, SceneObject.Unbind, hm]
  · simp [SceneObject.Bind, SceneObject.Unbind]
  · refine ⟨_, SceneObject.Update_eq _ now hb, ?_⟩
    have h1 : ((o.Unbind n).Bind n chain2 false).masterAnimation = n := by
      simp [SceneObject.Bind, SceneObject.Unbind, hm]
    have h2 : ((o.Unbind n).Bind n chain2 false).animations n = some chain2 := by
      simp [SceneObject.Bind, SceneObject.Unbind]
    simp [SceneObject.updated, SceneObject.Done, SceneObject.masterDone, h1, h2, hd]

/-! ## ObjectGroup: the update hook -/

/-- `Update()` with a hook, in closed form. -/
theorem SceneObject.UpdateWith_eq (o : SceneObject) (now : Nat)
    (hook : SceneObject → SceneObject) (hb : o.Bindable) :
    o.UpdateWith hook now = some (hook (o.updated now)) := by
  have hu := SceneObject.Update_eq o now hb
  unfold SceneObject.Update at hu
  unfold SceneObject.UpdateWith
  rw [hu]
  rfl

/-- The loop of `doUpdate` in closed form. -/
theorem ObjectGroup.updateChildren_eq (childHook : SceneObject → SceneObject) (now : Nat)
    (l : List SceneObject) (hb : ∀ o ∈ l, o.Bindable) :
    ObjectGroup.updateChildren childHook now l
      = some (l.map (fun o => childHook (o.updated now))) := by
  induction l with
  | nil => rfl
  | cons o rest ih =>
    unfold ObjectGroup.updateChildren
    rw [SceneObject.UpdateWith_eq o now childHook (hb o (List.mem_cons_self _ _)),
      ih (fun p hp => hb p (List.mem_cons_of_mem _ hp))]
    rfl

/-- With nothing pending, the flush of `Scene::Update` changes nothing. -/
theorem Scene.flush_of_nil (s : Scene) (h : s.markedForRemoval = []) : s.flush = s := by
  obtain ⟨self, objects, marked, focus⟩ := s
  simp only at h
  subst h
  rfl

/-- C30: for every ObjectGroup whose children's bound names resolve to
fields, the update hook `doUpdate` calls `Update()` on every child in list
order, visible or not, and leaves the child list otherwise as it is: it has
the same length and each position holds the updated child, done or not; the
group keeps no removal list.  `Scene::Update` on the same child list leaves
hidden children untouched and schedules the visible children that are done
for removal. -/
theorem C30_group_update (g : ObjectGroup) (childHook : SceneObject → SceneObject) (now : Nat)
    (hb : ∀ o ∈ g.objects, o.Bindable) :
    g.doUpdate childHook now
        = some { g with objects := g.objects.map (fun o => childHook (o.updated now)) }
    ∧ (∃ g1, g.doUpdate (fun x => x) now = some g1
        ∧ g1.objects.length = g.objects.length
        ∧ g1.objects.map (fun o => o.self) = g.objects.map (fun o => o.self)
        ∧ g1.objects = g.objects.map (fun o => o.updated now)
        ∧ g1.base = g.base)
    ∧ (∀ s : Scene, s.objects = g.objects → s.markedForRemoval = [] →
        ∃ s1, s.Update now = some s1
          ∧ s1.objects = g.objects.map (fun o => if o.IsOn then o.updated now else o)
          ∧ s1.markedForRemoval
            = ((g.objects.filter (fun o => o.IsOn && (o.updated now).Done)).map
                (fun o => o.self))) := by
  refine ⟨?_, ?_, ?_⟩
  · unfold ObjectGroup.doUpdate
    rw [ObjectGroup.updateChildren_eq childHook now g.objects hb]
  · refine ⟨{ g with objects := g.objects.map (fun o => o.updated now) }, ?_, ?_, ?_, rfl, rfl⟩
    · unfold ObjectGroup.doUpdate
      rw [ObjectGroup.updateChildren_eq (fun x => x) now g.objects hb]
    · simp
    · simp [SceneObject.updated]
  · intro s hs hm
    have hf : s.flush = s := Scene.flush_of_nil s hm
    have hb2 : ∀ o ∈ (s.flush).objects, o.Bindable := by
      rw [hf, hs]; exact hb
    refine ⟨_, Scene.Update_closed_form s now hb2, ?_, ?_⟩
    · simp only [hf, hs]
      rfl
    · simp only [hf, hs]
      congr 1
      apply List.filter_congr
      intro o ho
      by_cases hon : o.IsOn = true
      · simp [Scene.visit, hon]
      · simp [hon]

/-! ## Animation: pausing shifts the animation in time -/

/-- A running animation paused at `t1` and resumed at `t2`: the epoch is `t2`
and the stored position is the position it had at `t1`. -/
theorem Animation.Pause_resume (a : Animation) (t1 t2 : Nat) (p1 : ℚ)
    (hp : a.paused = false) (hget : a.GetAnimPos t1 0 = some p1) :
    (a.Pause t1 true).Pause t2 false
      = { a with animPcAtPauseTime := p1, startTime := toInt32 (GetTickCount t2),
                 paused := false } := by
  have h1 : a.Pause t1 true = { a with animPcAtPauseTime := p1, paused := true } := by
    simp [Animation.Pause, hp, hget]
  rw [h1]
  simp [Animation.Pause]

/-- Raw position of a running animation paused at `t1` and resumed at `t2`,
read at `t`. -/
theorem Animation.Pause_resume_rawPos (a : Animation) (t1 t2 t : Nat) (p1 : ℚ)
    (hp : a.paused = false) (hI : a.intervalMs ≠ 0) (hto : a.timeOffset = 0)
    (hget : a.GetAnimPos t1 0 = some p1) (h3 : t2 ≤ t) (h4 : t < 2 ^ 32) :
    ((a.Pause t1 true).Pause t2 false).rawPos t
        = some ((((t - t2 : Nat) : Int) : ℚ) / (a.intervalMs : ℚ) + p1)
    ∧ ((a.Pause t1 true).Pause t2 false).cycleType = a.cycleType := by
  rw [Animation.Pause_resume a t1 t2 p1 hp hget]
  obtain ⟨r, hr⟩ : ∃ r : Animation, r =
      { a with animPcAtPauseTime := p1, startTime := toInt32 (GetTickCount t2),
               paused := false } := ⟨_, rfl⟩
  rw [← hr]
  have e1 : r.paused = false := by rw [hr]
  have e2 : r.intervalMs = a.intervalMs := by rw [hr]
  have e3 : r.timeOffset = 0 := by rw [hr]; exact hto
  have e4 : r.startTime = toInt32 (GetTickCount t2) := by rw [hr]
  have e5 : r.cycleType = a.cycleType := by rw [hr]
  have e6 : r.animPcAtPauseTime = p1 := by rw [hr]
  refine ⟨?_, e5⟩
  rw [Animation.rawPos_running r t2 t e1 (by rw [e2]; exact hI) e4 e3 h3 h4, e2, e6]

/-- Clamp: moving on from the clamped position is moving on from the raw one. -/
theorem Animation.applyCycle_clamp_shift (d r : ℚ) (hd : 0 ≤ d) :
    Animation.applyCycle CycleType.Clamp (d + min r 1)
      = Animation.applyCycle CycleType.Clamp (d + r) := by
  simp only [Animation.applyCycle, Option.some.injEq]
  rcases le_total r 1 with h | h
  · rw [min_eq_left h]
  · rw [min_eq_right h, min_eq_right (by linarith), min_eq_right (by linarith)]

/-- Repeat: moving on from the wrapped position is moving on from the raw one. -/
theorem Animation.applyCycle_repeat_shift (d r : ℚ) (hd : 0 ≤ d) (hr : 0 ≤ r)
    (hlt : d + r < 2 ^ 31) :
    Animation.applyCycle CycleType.Repeat (d + (r - (⌊r⌋ : ℚ)))
      = Animation.applyCycle CycleType.Repeat (d + r) := by
  have hf0 : (0 : ℚ) ≤ (⌊r⌋ : ℚ) := by exact_mod_cast Int.floor_nonneg.2 hr
  have hfl := Int.floor_le r
  have e : d + (r - (⌊r⌋ : ℚ)) = d + r - (⌊r⌋ : ℚ) := by ring
  rw [Animation.applyCycle_repeat _ (by linarith) (by linarith),
    Animation.applyCycle_repeat _ (by linarith) hlt, e, Int.floor_sub_int]
  push_cast
  congr 1
  ring

/-- Reverse: moving on from a position folded in a forward section is moving
on from the raw one. -/
theorem Animation.applyCycle_reverse_shift (d r : ℚ) (hd : 0 ≤ d) (hr : 0 ≤ r)
    (hlt : d + r < 2 ^ 31) (hev : ⌊r⌋ % 2 = 0) :
    Animation.applyCycle CycleType.Reverse (d + (r - (⌊r⌋ : ℚ)))
      = Animation.applyCycle CycleType.Reverse (d + r) := by
  have hf0 : (0 : ℚ) ≤ (⌊r⌋ : ℚ) := by exact_mod_cast Int.floor_nonneg.2 hr
  have hfl := Int.floor_le r
  have e : d + (r - (⌊r⌋ : ℚ)) = d + r - (⌊r⌋ : ℚ) := by ring
  rw [Animation.applyCycle_reverse _ (by linarith) (by linarith),
    Animation.applyCycle_reverse _ (by linarith) hlt, e, Int.floor_sub_int]
  by_cases h2 : ⌊d + r⌋ % 2 = 0
  · have h3 : (⌊d + r⌋ - ⌊r⌋) % 2 = 0 := by omega
    simp only [h2, h3, if_true]
    push_cast
    congr 1
    ring
  · have h3 : ¬ ((⌊d + r⌋ - ⌊r⌋) % 2 = 0) := by omega
    simp only [h2, h3, if_false]
    push_cast
    congr 1
    ring

/-- C25 (as amended): for every Animation of cycle type Clamp or Repeat, or of
cycle type Reverse when it is paused in a forward section (the integer part
of its raw position is even), with interval > 0 and no time offset, running
from an epoch s at a non-negative stored position: if it is paused at time
t1 and unpaused at time t2 ≥ t1, then at every later tick t ≥ t2 its
position is the position the never-paused animation has at time
t - (t2 - t1) (for Repeat and Reverse, raw positions within the range of
`int`). -/
theorem C25_pause_shift (a : Animation) (s t1 t2 t : Nat)
    (hp : a.paused = false) (hI : 0 < a.intervalMs) (hto : a.timeOffset = 0)
    (hs : a.startTime = toInt32 (GetTickCount s)) (hpc : 0 ≤ a.animPcAtPauseTime)
    (h1 : s ≤ t1) (h2 : t1 ≤ t2) (h3 : t2 ≤ t) (h4 : t < 2 ^ 32)
    (hct : a.cycleType = CycleType.Clamp
      ∨ ((((t - (t2 - t1) - s : Nat) : Int) : ℚ) / (a.intervalMs : ℚ) + a.animPcAtPauseTime
            < 2 ^ 31
          ∧ (a.cycleType = CycleType.Repeat
            ∨ (a.cycleType = CycleType.Reverse
              ∧ ⌊(((t1 - s : Nat) : Int) : ℚ) / (a.intervalMs : ℚ) + a.animPcAtPauseTime⌋ % 2
                  = 0)))) :
    ∃ q, ((a.Pause t1 true).Pause t2 false).GetAnimPos t 0 = some q
      ∧ a.GetAnimPos (t - (t2 - t1)) 0 = some q := by
  have hI0 : a.intervalMs ≠ 0 := ne_of_gt hI
  have hIq : (0 : ℚ) < (a.intervalMs : ℚ) := by exact_mod_cast hI
  -- the raw positions involved
  obtain ⟨r, hr⟩ : ∃ r : ℚ,
      r = (((t1 - s : Nat) : Int) : ℚ) / (a.intervalMs : ℚ) + a.animPcAtPauseTime := ⟨_, rfl⟩
  obtain ⟨d, hd⟩ : ∃ d : ℚ, d = (((t - t2 : Nat) : Int) : ℚ) / (a.intervalMs : ℚ) := ⟨_, rfl⟩
  have hr0 : 0 ≤ r := by
    rw [hr]
    have : (0 : ℚ) ≤ (((t1 - s : Nat) : Int) : ℚ) / (a.intervalMs : ℚ) :=
      div_nonneg (by exact_mod_cast Nat.zero_le _) (le_of_lt hIq)
    linarith
  have hd0 : 0 ≤ d := by
    rw [hd]
    exact div_nonneg (by exact_mod_cast Nat.zero_le _) (le_of_lt hIq)
  have hraw1 : a.rawPos t1 = some r := by
    rw [hr]
    exact Animation.rawPos_running a s t1 hp hI0 hs hto h1 (by omega)
  have hshift : (((t - (t2 - t1) - s : Nat) : Int) : ℚ) / (a.intervalMs : ℚ)
      + a.animPcAtPauseTime = d + r := by
    rw [hd, hr]
    have e : t - (t2 - t1) - s = (t - t2) + (t1 - s) := by omega
    rw [e]
    push_cast
    ring
  have hraw2 : a.rawPos (t - (t2 - t1)) = some (d + r) := by
    rw [← hshift]
    exact Animation.rawPos_running a s (t - (t2 - t1)) hp hI0 hs hto (by omega) (by omega)
  rw [Animation.GetAnimPos_of_rawPos a _ 0 _ hraw2, add_zero]
  have hpos1 : a.GetAnimPos t1 0 = Animation.applyCycle a.cycleType r := by
    rw [Animation.GetAnimPos_of_rawPos a _ 0 _ hraw1, add_zero]
  rw [hshift] at hct
  rw [← hr] at hct
  -- the position at the pause, by cycle type
  have key : ∀ p1 : ℚ, Animation.applyCycle a.cycleType r = some p1 →
      Animation.applyCycle a.cycleType (d + p1) = Animation.applyCycle a.cycleType (d + r) →
      (∃ q, Animation.applyCycle a.cycleType (d + r) = some q) →
      ∃ q, ((a.Pause t1 true).Pause t2 false).GetAnimPos t 0 = some q
        ∧ Animation.applyCycle a.cycleType (d + r) = some q := by
    intro p1 hp1 heq hdef
    obtain ⟨q, hq⟩ := hdef
    obtain ⟨w1, w2⟩ := Animation.Pause_resume_rawPos a t1 t2 t p1 hp hI0 hto
      (by rw [hpos1]; exact hp1) h3 h4
    refine ⟨q, ?_, hq⟩
    rw [Animation.GetAnimPos_of_rawPos _ _ 0 _ w1, add_zero, w2, ← hd, heq, hq]
  rcases hct with hc | ⟨hlt, hc | ⟨hc, hev⟩⟩
  · rw [hc] at key ⊢
    exact key (min r 1) rfl (Animation.applyCycle_clamp_shift d r hd0) ⟨_, rfl⟩
  · rw [hc] at key ⊢
    exact key _ (Animation.applyCycle_repeat r hr0 (by linarith))
      (Animation.applyCycle_repeat_shift d r hd0 hr0 hlt)
      ⟨_, Animation.applyCycle_repeat _ (by linarith) hlt⟩
  · rw [hc] at key ⊢
    have hp1 : Animation.applyCycle CycleType.Reverse r = some (r - (⌊r⌋ : ℚ)) := by
      rw [Animation.applyCycle_reverse r hr0 (by linarith), if_pos hev]
    exact key _ hp1 (Animation.applyCycle_reverse_shift d r hd0 hr0 hlt hev)
      ⟨_, Animation.applyCycle_reverse _ (by linarith) hlt⟩

/-- C25 (as stated) fails for Reverse: an animation with interval 1000 ms
started at time 0 is in its backward section at 1250 ms (raw position 5/4,
position 3/4, decreasing).  Paused there and unpaused at 2000 ms, it moves
forward from 3/4 and is at position 1 at 2250 ms; the never-paused animation
is at position 1/2 at 2250 - (2000 - 1250) = 1500 ms. -/
theorem C25_counterexample :
    (Animation.create 0 Animations.Linear 1000 1 0 CycleType.Reverse false).GetAnimPos 1250 0
      = some (3 / 4)
    ∧ (((Animation.create 0 Animations.Linear 1000 1 0 CycleType.Reverse false).Pause 1250
          true).Pause 2000 false).GetAnimPos 2250 0 = some 1
    ∧ (Animation.create 0 Animations.Linear 1000 1 0 CycleType.Reverse false).GetAnimPos
        (2250 - (2000 - 1250)) 0 = some (1 / 2) := by
  have hraw : ∀ t : Nat, t < 2 ^ 32 →
      (Animation.create 0 Animations.Linear 1000 1 0 CycleType.Reverse false).rawPos t
        = some ((t : ℚ) / ((1000 : Int) : ℚ)) :=
    fun t ht => Animation.create_rawPos CycleType.Reverse 1000 (by norm_num) t ht
  have hct : (Animation.create 0 Animations.Linear 1000 1 0 CycleType.Reverse false).cycleType
      = CycleType.Reverse := rfl
  have f1 : ⌊(5 / 4 : ℚ)⌋ = 1 := by
    rw [Int.floor_eq_iff]; norm_num
  have f2 : ⌊(3 / 2 : ℚ)⌋ = 1 := by
    rw [Int.floor_eq_iff]; norm_num
  have hpos1 : (Animation.create 0 Animations.Linear 1000 1 0 CycleType.Reverse false).GetAnimPos
      1250 0 = some (3 / 4) := by
    rw [Animation.GetAnimPos_of_rawPos _ _ 0 _ (hraw 1250 (by norm_num)), hct]
    have e : ((1250 : Nat) : ℚ) / ((1000 : Int) : ℚ) + 0 = 5 / 4 := by norm_num
    rw [e, Animation.applyCycle_reverse _ (by norm_num) (by norm_num), f1]
    norm_num
  refine ⟨hpos1, ?_, ?_⟩
  · obtain ⟨w1, w2⟩ := Animation.Pause_resume_rawPos _ 1250 2000 2250 (3 / 4) rfl
      (by simp [Animation.create, Animation.Reset]) rfl hpos1 (by norm_num) (by norm_num)
    rw [Animation.GetAnimPos_of_rawPos _ _ 0 _ w1, w2, hct]
    have e : (((2250 - 2000 : Nat) : Int) : ℚ)
        / ((Animation.create 0 Animations.Linear 1000 1 0 CycleType.Reverse false).intervalMs : ℚ)
        + 3 / 4 + 0 = 1 := by
      simp [Animation.create, Animation.Reset]
      norm_num
    rw [e]
    simp [Animation.applyCycle, castInt_one]
    decide
  · rw [Animation.GetAnimPos_of_rawPos _ _ 0 _ (hraw _ (by norm_num)), hct]
    have e : (((2250 - (2000 - 1250) : Nat) : Nat) : ℚ) / ((1000 : Int) : ℚ) + 0 = 3 / 2 := by
      norm_num
    rw [e, Animation.applyCycle_reverse _ (by norm_num) (by norm_num), f2]
    norm_num

/-! ## Animation: `SetPosTime` -/

/-- The members `SetPos` leaves alone and those it sets. -/
theorem Animation.SetPos_fields (a : Animation) (now : Nat) (pc : ℚ) :
    (a.SetPos now pc).paused = a.paused ∧ (a.SetPos now pc).intervalMs = a.intervalMs
    ∧ (a.SetPos now pc).cycleType = a.cycleType ∧ (a.SetPos now pc).timeOffset = 0
    ∧ (a.SetPos now pc).startTime = toInt32 (GetTickCount now)
    ∧ (a.SetPos now pc).animPcAtPauseTime = pc := by
  refine ⟨?_, ?_, ?_, ?_, ?_, ?_⟩ <;> rw [Animation.SetPos]

/-- The members `SetPosTime` leaves alone and those it sets. -/
theorem Animation.SetPosTime_fields (a : Animation) (now : Nat) (ms : Int) :
    (a.SetPosTime now ms).paused = a.paused ∧ (a.SetPosTime now ms).intervalMs = a.intervalMs
    ∧ (a.SetPosTime now ms).cycleType = a.cycleType ∧ (a.SetPosTime now ms).timeOffset = ms
    ∧ (a.SetPosTime now ms).startTime = toInt32 (GetTickCount now)
    ∧ (a.SetPosTime now ms).animPcAtPauseTime = 0 := by
  refine ⟨?_, ?_, ?_, ?_, ?_, ?_⟩ <;> rw [Animation.SetPosTime]

/-- Elapsed time read at the instant `SetPosTime(ms)` is called: the unsigned
value of `-ms`. -/
theorem Animation.elapsed_SetPosTime (a : Animation) (now : Nat) (ms : Int) :
    (a.SetPosTime now ms).elapsed now = toUInt32 (-ms) := by
  unfold Animation.elapsed Animation.SetPosTime
  simp only
  generalize GetTickCount now = x
  unfold toUInt32 toInt32
  omega

/-- Position of a running Clamp animation with interval I > 0 at the instant
`SetPosTime(ms)` is called with 0 < ms ≤ I: the unsigned elapsed time is
`2^32 - ms`, at least one interval, and the position is 1. -/
theorem Animation.GetAnimPos_SetPosTime_clamp (a : Animation) (now : Nat) (ms : Int)
    (hct : a.cycleType = CycleType.Clamp) (hp : a.paused = false)
    (hI : 0 < a.intervalMs) (hI2 : a.intervalMs < 2 ^ 31) (h0 : 0 < ms) (h1 : ms ≤ a.intervalMs) :
    (a.SetPosTime now ms).GetAnimPos now 0 = some 1 := by
  have hIq : (0 : ℚ) < (a.intervalMs : ℚ) := by exact_mod_cast hI
  have hle : a.intervalMs ≤ 2 ^ 32 - ms := by omega
  have hwrap : toUInt32 (-ms) = 2 ^ 32 - ms := by
    unfold toUInt32
    omega
  have hge : (1 : ℚ) ≤ ((2 ^ 32 - ms : Int) : ℚ) / (a.intervalMs : ℚ) := by
    rw [le_div_iff₀ hIq, one_mul]
    exact_mod_cast hle
  have hel : (a.SetPosTime now ms).elapsed now = 2 ^ 32 - ms := by
    rw [Animation.elapsed_SetPosTime, hwrap]
  obtain ⟨b, hb⟩ : ∃ b : Animation, b = a.SetPosTime now ms := ⟨_, rfl⟩
  rw [← hb] at hel ⊢
  obtain ⟨f1, f2, f3, _, _, f6⟩ := Animation.SetPosTime_fields a now ms
  have e1 : b.intervalMs = a.intervalMs := by rw [hb, f2]
  have e2 : b.animPcAtPauseTime = 0 := by rw [hb, f6]
  have e3 : b.cycleType = CycleType.Clamp := by rw [hb, f3, hct]
  have e4 : b.paused = false := by rw [hb, f1, hp]
  rw [Animation.GetAnimPos_clamp_running b now 0 e3 e4 (by rw [e1]; exact ne_of_gt hI), hel,
    e1, e2, add_zero, add_zero, min_eq_right hge]

/-- C28 fails: on a running Clamp animation with interval 1000 ms,
`SetPosTime(250)` followed at the same instant by `GetAnimPos()` gives
position 1 (the time offset is subtracted from the unsigned tick difference,
which wraps to `2^32 - 250`), where `SetPos(1/4)` gives 1/4; on a running
Repeat animation it gives 23/500 (the fraction of 4294967046 / 1000); on an
animation that is paused it gives the stored position 0. -/
theorem C28_set_pos_time :
    (∀ now : Nat,
      ((Animation.create 0 Animations.Linear 1000 1 0 CycleType.Clamp false).SetPosTime now
        250).GetAnimPos now 0 = some 1)
    ∧ (∀ now : Nat,
      ((Animation.create 0 Animations.Linear 1000 1 0 CycleType.Clamp false).SetPos now
        (250 / 1000)).GetAnimPos now 0 = some (250 / 1000))
    ∧ (∀ now : Nat,
      ((Animation.create 0 Animations.Linear 1000 1 0 CycleType.Repeat false).SetPosTime now
        250).GetAnimPos now 0 = some (23 / 500))
    ∧ (∀ now : Nat,
      ((Animation.create 0 Animations.Linear 1000 1 0 CycleType.Clamp true).SetPosTime now
        250).GetAnimPos now 0 = some 0) := by
  have hI : ∀ (ct : CycleType) (sp : Bool),
      (Animation.create 0 Animations.Linear 1000 1 0 ct sp).intervalMs = 1000 := by
    intro ct sp; rw [Animation.create, Animation.Reset]
  have hpa : ∀ (ct : CycleType) (sp : Bool),
      (Animation.create 0 Animations.Linear 1000 1 0 ct sp).paused = sp := by
    intro ct sp; rw [Animation.create, Animation.Reset]
  have hcy : ∀ (ct : CycleType) (sp : Bool),
      (Animation.create 0 Animations.Linear 1000 1 0 ct sp).cycleType = ct := by
    intro ct sp; rw [Animation.create, Animation.Reset]
  refine ⟨fun now => ?_, fun now => ?_, fun now => ?_, fun now => ?_⟩
  · exact Animation.GetAnimPos_SetPosTime_clamp _ now 250 (hcy _ _) (hpa _ _)
      (by rw [hI]; norm_num) (by rw [hI]; norm_num) (by norm_num) (by rw [hI]; norm_num)
  · obtain ⟨b, hb⟩ : ∃ b : Animation, b =
        (Animation.create 0 Animations.Linear 1000 1 0 CycleType.Clamp false).SetPos now
          (250 / 1000) := ⟨_, rfl⟩
    rw [← hb]
    obtain ⟨f1, f2, f3, f4, f5, f6⟩ := Animation.SetPos_fields
      (Animation.create 0 Animations.Linear 1000 1 0 CycleType.Clamp false) now (250 / 1000)
    have e1 : b.paused = false := by rw [hb, f1, hpa]
    have e2 : b.intervalMs ≠ 0 := by rw [hb, f2, hI]; norm_num
    have e3 : b.timeOffset = 0 := by rw [hb, f4]
    have e4 : b.startTime = toInt32 (GetTickCount now) := by rw [hb, f5]
    have e5 : b.cycleType = CycleType.Clamp := by rw [hb, f3, hcy]
    have e6 : b.animPcAtPauseTime = 250 / 1000 := by rw [hb, f6]
    rw [Animation.GetAnimPos_at_epoch b now e1 e2 e3 e4, e5, e6]
    simp only [Animation.applyCycle, Option.some.injEq]
    norm_num
  · have hel := Animation.elapsed_SetPosTime
      (Animation.create 0 Animations.Linear 1000 1 0 CycleType.Repeat false) now 250
    have hv : toUInt32 (-250) = 4294967046 := by
      unfold toUInt32; norm_num
    rw [hv] at hel
    obtain ⟨b, hb⟩ : ∃ b : Animation, b =
        (Animation.create 0 Animations.Linear 1000 1 0 CycleType.Repeat false).SetPosTime now
          250 := ⟨_, rfl⟩
    rw [← hb] at hel ⊢
    obtain ⟨f1, f2, f3, _, _, f6⟩ := Animation.SetPosTime_fields
      (Animation.create 0 Animations.Linear 1000 1 0 CycleType.Repeat false) now 250
    have e1 : b.intervalMs = 1000 := by rw [hb, f2, hI]
    have e2 : b.animPcAtPauseTime = 0 := by rw [hb, f6]
    have e4 : b.paused = false := by rw [hb, f1, hpa]
    have e5 : b.cycleType = CycleType.Repeat := by rw [hb, f3, hcy]
    have hraw : b.rawPos now = some (4294967046 / 1000) := by
      unfold Animation.rawPos
      rw [e4, e1, e2, hel]
      norm_num
    have hfl : ⌊(4294967046 / 1000 : ℚ)⌋ = 4294967 := by
      rw [Int.floor_eq_iff]; norm_num
    rw [Animation.GetAnimPos_of_rawPos _ _ 0 _ hraw, add_zero, e5,
      Animation.applyCycle_repeat _ (by norm_num) (by norm_num), hfl]
    norm_num
  · obtain ⟨b, hb⟩ : ∃ b : Animation, b =
        (Animation.create 0 Animations.Linear 1000 1 0 CycleType.Clamp true).SetPosTime now
          250 := ⟨_, rfl⟩
    rw [← hb]
    obtain ⟨f1, _, f3, _, _, f6⟩ := Animation.SetPosTime_fields
      (Animation.create 0 Animations.Linear 1000 1 0 CycleType.Clamp true) now 250
    have e2 : b.animPcAtPauseTime = 0 := by rw [hb, f6]
    have e4 : b.paused = true := by rw [hb, f1, hpa]
    have e5 : b.cycleType = CycleType.Clamp := by rw [hb, f3, hcy]
    rw [Animation.GetAnimPos_paused b now 0 e4, e5, e2]
    simp only [Animation.applyCycle, Option.some.injEq]
    norm_num

/-! ## AnimationChain: the index stays inside the sequence -/

/-- C26: every AnimationChain state reachable from construction through any
sequence of `Add`, `Start`, `Reset`, `Pause`, `SetCycleType` (to Clamp or
Repeat), `SetDoneEventHandler`, `Update` and `GetAnimOffset` has its index
at most the number of entries, and below it when `Done()` is false; hence
the entry `Update` tests and the entry `GetAnimOffset` reads exist (`Pause`
and `Start` index the vector only under the test `index < size`). -/
theorem C26_chain_index_bound (c : AnimationChain) (h : c.Built) :
    c.index ≤ c.animations.length
    ∧ (c.Done = false → c.index < c.animations.length)
    ∧ (c.index ≠ c.animations.length → ∃ a, c.animations[c.index]? = some a)
    ∧ (∀ (now : Nat) (offset : ℚ), (c.GetAnimOffset now offset).1.Done = false →
        ∃ a, (c.GetAnimOffset now offset).1.animations[(c.GetAnimOffset now offset).1.index]?
          = some a) := by
  have hw : ∀ c1 : AnimationChain, c1.Built →
      c1.index ≤ c1.animations.length ∧ (c1.done = false → c1.index < c1.animations.length) := by
    intro c1 h1
    rcases (AnimationChain.Built.wellFormed h1).1 with ⟨h2, _⟩ | ⟨h2, h3⟩
    · exact ⟨by omega, fun _ => h2⟩
    · exact ⟨by omega, fun hd => by rw [h3] at hd; exact absurd hd (by decide)⟩
  obtain ⟨w1, w2⟩ := hw c h
  refine ⟨w1, w2, fun hne => ?_, fun now offset hd => ?_⟩
  · exact ⟨_, List.getElem?_eq_getElem (by omega)⟩
  · have hlt := (hw _ (AnimationChain.Built.getAnimOffset c now offset h)).2 hd
    exact ⟨_, List.getElem?_eq_getElem hlt⟩

open ObjectGroup

/-! ## ObjectGroup: the search loop terminates -/

/-- The position a pass examines is inside the list. -/
theorem ObjectGroup.tabVisit_lt (n : Nat) (forwards : Bool) (it : Nat) (hn : 0 < n)
    (hit : it ≤ n) : tabVisit n forwards it < n := by
  unfold tabVisit
  split_ifs <;> omega

/-- One pass of the loop body from an iterator inside the list or at `end`. -/
theorem ObjectGroup.tabStep_spec (objs : List SceneObject) (forwards : Bool) (s : TabState)
    (hn : 0 < objs.length) (hit : s.it ≤ objs.length) :
    ∃ o, objs[tabVisit objs.length forwards s.it]? = some o
      ∧ tabStep objs forwards s = some
        { obj := if o.isTabbedItem then some o.self else none
          found := if o.isTabbedItem && o.IsOn then some (tabVisit objs.length forwards s.it)
            else s.found
          it := if forwards then tabVisit objs.length forwards s.it + 1
            else (if tabVisit objs.length forwards s.it ≠ 0
              then tabVisit objs.length forwards s.it - 1 else objs.length) } := by
  have hv := tabVisit_lt objs.length forwards s.it hn hit
  have hget : objs[tabVisit objs.length forwards s.it]?
      = some objs[tabVisit objs.length forwards s.it] := List.getElem?_eq_getElem hv
  refine ⟨_, hget, ?_⟩
  unfold tabStep
  simp only
  unfold tabVisit at hget ⊢
  rw [hget]

/-- The loop returns within `m + 1` passes when each pass that does not end
it lowers a measure of the iterator that is at most `m` at the start. -/
theorem ObjectGroup.tabLoop_terminates (objs : List SceneObject) (forwards : Bool)
    (focus : Option Nat) (μ : Nat → Nat) (hn : 0 < objs.length)
    (hstep : ∀ s s1 : TabState, s.it ≤ objs.length → tabStep objs forwards s = some s1 →
      tabContinue objs focus s1 = true →
      s1.it ≤ objs.length
      ∧ μ (tabVisit objs.length forwards s1.it) < μ (tabVisit objs.length forwards s.it)) :
    ∀ (m fuel : Nat) (s : TabState), s.it ≤ objs.length →
      μ (tabVisit objs.length forwards s.it) ≤ m → m + 1 ≤ fuel →
      ∃ s1, tabLoop objs forwards focus fuel s = some (some s1) := by
  intro m
  induction m with
  | zero =>
    intro fuel s hit hm hfuel
    obtain ⟨fuel1, rfl⟩ : ∃ k, fuel = k + 1 := ⟨fuel - 1, by omega⟩
    obtain ⟨o, _, hs⟩ := tabStep_spec objs forwards s hn hit
    obtain ⟨s1, hs1⟩ : ∃ s1, tabStep objs forwards s = some s1 := ⟨_, hs⟩
    unfold tabLoop
    rw [hs1]
    simp only
    by_cases hc : tabContinue objs focus s1 = true
    · exfalso
      have := (hstep s s1 hit hs1 hc).2
      omega
    · rw [if_neg hc]
      exact ⟨_, rfl⟩
  | succ m ih =>
    intro fuel s hit hm hfuel
    obtain ⟨fuel1, rfl⟩ : ∃ k, fuel = k + 1 := ⟨fuel - 1, by omega⟩
    obtain ⟨o, _, hs⟩ := tabStep_spec objs forwards s hn hit
    obtain ⟨s1, hs1⟩ : ∃ s1, tabStep objs forwards s = some s1 := ⟨_, hs⟩
    unfold tabLoop
    rw [hs1]
    simp only
    by_cases hc : tabContinue objs focus s1 = true
    · rw [if_pos hc]
      obtain ⟨h1, h2⟩ := hstep s s1 hit hs1 hc
      exact ih fuel1 s1 h1 (by omega) (by omega)
    · rw [if_neg hc]
      exact ⟨_, rfl⟩

/-- Each pass that does not end the loop lowers `tabMeasure`. -/
theorem ObjectGroup.tabMeasure_step (objs : List SceneObject) (forwards : Bool)
    (focus : Option Nat) (i : Option Nat) (hn : 0 < objs.length)
    (hfoc : ∀ f, focus = some f → ∃ k o, i = some k ∧ objs[k]? = some o
      ∧ o.isTabbedItem = true ∧ o.self = f)
    (hnone : focus = none → i = none)
    (s s1 : TabState) (hit : s.it ≤ objs.length) (hs : tabStep objs forwards s = some s1)
    (hc : tabContinue objs focus s1 = true) :
    s1.it ≤ objs.length
    ∧ tabMeasure objs.length forwards i (tabVisit objs.length forwards s1.it)
        < tabMeasure objs.length forwards i (tabVisit objs.length forwards s.it) := by
  obtain ⟨o, hget, hs2⟩ := tabStep_spec objs forwards s hn hit
  have hv := tabVisit_lt objs.length forwards s.it hn hit
  rw [hs2] at hs
  have hs1 := Option.some.inj hs
  obtain ⟨v, hvdef⟩ : ∃ v, v = tabVisit objs.length forwards s.it := ⟨_, rfl⟩
  rw [← hvdef] at hv hget hs1 ⊢
  have hit1 : s1.it = if forwards then v + 1 else (if v ≠ 0 then v - 1 else objs.length) := by
    rw [← hs1]
  have hobj : s1.obj = if o.isTabbedItem then some o.self else none := by
    rw [← hs1]
  cases hfo : focus with
  | none =>
    have hi : i = none := hnone hfo
    rw [hfo] at hc
    have hne : s1.it ≠ objs.length := by
      simpa [tabContinue] using hc
    rw [hi]
    cases forwards
    · simp only [Bool.false_eq_true, if_false] at hit1
      simp only [tabMeasure, tabVisit, Bool.false_eq_true, if_false]
      by_cases hv0 : v = 0
      · rw [hv0] at hit1; simp at hit1; exact absurd hit1 hne
      · rw [if_pos hv0] at hit1
        rw [if_neg hne, hit1]
        omega
    · simp only [if_true] at hit1
      simp only [tabMeasure, tabVisit, if_true]
      rw [if_neg hne, hit1]
      omega
  | some f =>
    obtain ⟨k, ok, hik, hgetk, htab, hself⟩ := hfoc f hfo
    have hk : k < objs.length := by
      by_contra hkn
      rw [List.getElem?_eq_none (by omega)] at hgetk
      exact absurd hgetk (by simp)
    rw [hfo] at hc
    have hvk : v ≠ k := by
      intro hvk
      rw [hvk, hgetk] at hget
      have hok : ok = o := Option.some.inj hget
      rw [← hok, htab, hself] at hobj
      simp [tabContinue, hobj] at hc
    rw [hik]
    cases forwards
    · simp only [Bool.false_eq_true, if_false] at hit1
      simp only [tabMeasure, tabVisit, Bool.false_eq_true, if_false]
      by_cases hv0 : v = 0
      · have : s1.it = objs.length := by rw [hit1, hv0]; simp
        rw [this]
        simp only [if_true]
        constructor
        · omega
        · split_ifs <;> omega
      · rw [if_pos hv0] at hit1
        have hne : s1.it ≠ objs.length := by omega
        rw [if_neg hne, hit1]
        constructor
        · omega
        · split_ifs <;> omega
    · simp only [if_true] at hit1
      simp only [tabMeasure, tabVisit, if_true]
      by_cases hend : v + 1 = objs.length
      · have : s1.it = objs.length := by rw [hit1, hend]
        rw [this]
        simp only [if_true]
        constructor
        · omega
        · split_ifs <;> omega
      · have hne : s1.it ≠ objs.length := by omega
        rw [if_neg hne, hit1]
        constructor
        · omega
        · split_ifs <;> omega

/-- The measure is below the length of the list. -/
theorem ObjectGroup.tabMeasure_lt (n : Nat) (forwards : Bool) (i : Option Nat) (v : Nat)
    (hv : v < n) (hi : ∀ k, i = some k → k < n) : tabMeasure n forwards i v < n := by
  cases i with
  | none =>
    cases forwards <;> simp only [tabMeasure] <;> simp <;> omega
  | some k =>
    have := hi k rfl
    cases forwards <;> simp only [tabMeasure] <;> simp <;> split_ifs <;> omega



/-- From every iterator position the search loop returns within as many
passes as the list has children, provided a focus item it searches from is a
tab-capable child of the list. -/
theorem ObjectGroup.tabLoop_returns (objs : List SceneObject) (forwards : Bool)
    (focus : Option Nat) (s : TabState) (fuel : Nat) (hn : 0 < objs.length)
    (hit : s.it ≤ objs.length) (hfuel : objs.length ≤ fuel)
    (hfoc : ∀ f, focus = some f → ∃ o ∈ objs, o.isTabbedItem = true ∧ o.self = f) :
    ∃ s1, tabLoop objs forwards focus fuel s = some (some s1) := by
  have hv := tabVisit_lt objs.length forwards s.it hn hit
  cases hfo : focus with
  | none =>
    refine tabLoop_terminates objs forwards none (tabMeasure objs.length forwards none) hn ?_
      (objs.length - 1) fuel s hit ?_ (by omega)
    · intro s0 s1 h0 hs hc
      exact tabMeasure_step objs forwards none none hn (fun f hf => by simp at hf)
        (fun _ => rfl) s0 s1 h0 hs hc
    · have := tabMeasure_lt objs.length forwards none _ hv (fun k hk => by simp at hk)
      omega
  | some f =>
    obtain ⟨o, ho, htab, hself⟩ := hfoc f hfo
    obtain ⟨k, hk, hko⟩ := List.getElem_of_mem ho
    have hget : objs[k]? = some o := by rw [List.getElem?_eq_getElem hk, hko]
    refine tabLoop_terminates objs forwards (some f) (tabMeasure objs.length forwards (some k))
      hn ?_ (objs.length - 1) fuel s hit ?_ (by omega)
    · intro s0 s1 h0 hs hc
      exact tabMeasure_step objs forwards (some f) (some k) hn
        (fun f1 hf1 => ⟨k, o, rfl, hget, htab, by rw [hself]; exact Option.some.inj hf1⟩)
        (fun h => by simp at h) s0 s1 h0 hs hc
    · have := tabMeasure_lt objs.length forwards (some k) _ hv
        (fun k1 hk1 => by rw [← Option.some.inj hk1]; exact hk)
      omega

/-- What `FindTabbedItem` returns after the loop is a child, a null pointer
or an undefined result: the iteration bound plays no part in it. -/
theorem ObjectGroup.tabReturn_ne_outOfFuel (objs : List SceneObject) (focus : Option Nat)
    (s : TabState) : tabReturn objs focus s ≠ TabResult.outOfFuel := by
  unfold tabReturn
  cases s.found with
  | some i =>
    simp only
    cases objs[i]? with
    | some o => simp only; split_ifs <;> simp
    | none => simp
  | none =>
    simp only
    cases focus with
    | some f => simp only; split_ifs <;> simp
    | none => simp

/-- The search of `FindTabbedItem` from a start position inside the list
does not reach the iteration bound. -/
theorem ObjectGroup.tabSearch_ne_outOfFuel (objs : List SceneObject) (forwards : Bool)
    (it : Nat) (focus : Option Nat) (hn : 0 < objs.length) (hit : it ≤ objs.length)
    (hfoc : ∀ f, focus = some f → ∃ o ∈ objs, o.isTabbedItem = true ∧ o.self = f) :
    tabSearch objs forwards it focus ≠ TabResult.outOfFuel := by
  obtain ⟨s1, hs1⟩ := tabLoop_returns objs forwards focus
    { it := it, found := none, obj := none } (2 * objs.length + 2) hn hit (by omega) hfoc
  unfold tabSearch
  rw [hs1]
  exact tabReturn_ne_outOfFuel objs focus s1

/-- C27: for every ObjectGroup child list, every visibility and
tab-capability assignment of its children, every focus state and both
directions, `FindTabbedItem` does not reach the iteration bound of the
search loop; and from every iterator position (inside the list or at `end`)
the loop returns within as many passes as the list has children, each pass
examining one child — at most one full cycle of the list.  (A focus object
at the address of a child is that child: it is tab-capable as the child is.) -/
theorem C27_tab_search_terminates (g : ObjectGroup) (focusObject : Option SceneObject)
    (forwards : Bool)
    (hcons : ∀ fo, focusObject = some fo → fo.isTabbedItem = true →
      ∀ o ∈ g.objects, o.self = fo.self → o.isTabbedItem = true) :
    g.FindTabbedItem focusObject forwards ≠ TabResult.outOfFuel
    ∧ (∀ (focus : Option Nat) (s : TabState), 0 < g.objects.length →
        s.it ≤ g.objects.length →
        (∀ f, focus = some f → ∃ o ∈ g.objects, o.isTabbedItem = true ∧ o.self = f) →
        ∃ s1, tabLoop g.objects forwards focus g.objects.length s = some (some s1)) := by
  constructor
  · unfold ObjectGroup.FindTabbedItem
    by_cases hv : g.base.visible = false
    · rw [if_pos hv]; simp
    · rw [if_neg hv]
      by_cases hl : g.objects.length = 0
      · rw [if_pos hl]; simp
      · rw [if_neg hl]
        have hn : 0 < g.objects.length := by omega
        cases hst : tabStart g.objects (tabFocus focusObject) forwards with
        | none => simp
        | some p =>
          obtain ⟨it, focus⟩ := p
          simp only
          -- the start position is inside the list and a focus item kept is a child
          have hstart : it ≤ g.objects.length
              ∧ (∀ f, focus = some f →
                  ∃ o ∈ g.objects, o.isTabbedItem = true ∧ o.self = f) := by
            unfold tabStart at hst
            cases hfo : tabFocus focusObject with
            | none =>
              rw [hfo] at hst
              simp only [Option.some.injEq, Prod.mk.injEq] at hst
              obtain ⟨h1, h2⟩ := hst
              refine ⟨?_, fun f hf => by rw [← h2] at hf; simp at hf⟩
              rw [← h1]
              split_ifs <;> omega
            | some f0 =>
              rw [hfo] at hst
              simp only at hst
              -- the focus object behind the focus address
              have hfocus : ∃ fo, focusObject = some fo ∧ fo.isTabbedItem = true
                  ∧ fo.self = f0 := by
                unfold tabFocus at hfo
                cases hfob : focusObject with
                | none => rw [hfob] at hfo; simp at hfo
                | some fo =>
                  rw [hfob] at hfo
                  simp only at hfo
                  by_cases ht : fo.isTabbedItem = true
                  · rw [if_pos ht] at hfo
                    exact ⟨fo, rfl, ht, Option.some.inj hfo⟩
                  · rw [if_neg ht] at hfo; simp at hfo
              obtain ⟨fo, hfob, hfotab, hfoself⟩ := hfocus
              by_cases hidx : g.objects.findIdx (fun o => o.self == f0) = g.objects.length
              · rw [if_pos hidx] at hst
                simp only [Option.some.injEq, Prod.mk.injEq] at hst
                obtain ⟨h1, h2⟩ := hst
                refine ⟨?_, fun f hf => by rw [← h2] at hf; simp at hf⟩
                rw [← h1]
                split_ifs <;> omega
              · rw [if_neg hidx] at hst
                have hlt : g.objects.findIdx (fun o => o.self == f0) < g.objects.length := by
                  have : g.objects.findIdx (fun o => o.self == f0) ≤ g.objects.length :=
                    List.findIdx_le_length _
                  omega
                have hchild : ∃ o ∈ g.objects, o.isTabbedItem = true ∧ o.self = f0 := by
                  have hp := List.findIdx_getElem (w := hlt)
                  have hself : (g.objects[g.objects.findIdx (fun o => o.self == f0)]).self
                      = f0 := by simpa using hp
                  refine ⟨_, List.getElem_mem hlt, ?_, hself⟩
                  exact hcons fo hfob hfotab _ (List.getElem_mem hlt) (by rw [hself, hfoself])
                by_cases hfw : forwards = true
                · rw [if_pos hfw] at hst
                  simp only [Option.some.injEq, Prod.mk.injEq] at hst
                  obtain ⟨h1, h2⟩ := hst
                  refine ⟨by omega, fun f hf => ?_⟩
                  rw [← h2] at hf
                  rw [← Option.some.inj hf]
                  exact hchild
                · rw [if_neg hfw] at hst
                  by_cases h0 : g.objects.findIdx (fun o => o.self == f0) = 0
                  · rw [if_pos h0] at hst; simp at hst
                  · rw [if_neg h0] at hst
                    simp only [Option.some.injEq, Prod.mk.injEq] at hst
                    obtain ⟨h1, h2⟩ := hst
                    refine ⟨by omega, fun f hf => ?_⟩
                    rw [← h2] at hf
                    rw [← Option.some.inj hf]
                    exact hchild
          exact tabSearch_ne_outOfFuel g.objects forwards it focus hn hstart.1 hstart.2
  · intro focus s hn hit hfoc
    exact tabLoop_returns g.objects forwards focus s g.objects.length hn hit (le_refl _) hfoc

/-! ## ObjectManager: mouse dispatch -/

theorem dispatchList_nil (ev : MouseEvent) (keys : Nat) (x y : Int) :
    dispatchList ev keys [] x y = some (false, []) := by
  rw [dispatchList]

theorem dispatchList_cons (ev : MouseEvent) (keys : Nat) (o : MouseObject)
    (rest : List MouseObject) (x y : Int) :
    dispatchList ev keys (o :: rest) x y
      = (match dispatchObject ev keys o x y with
        | none => none
        | some r =>
            if r.1 then some r
            else
              match dispatchList ev keys rest x y with
              | some r2 => some (r2.1, r.2 ++ r2.2)
              | none => none) := by
  rw [dispatchList]

/-- A child that consumes the event ends the loop: the later children are
not offered the event. -/
theorem dispatchList_cons_true (ev : MouseEvent) (keys : Nat) (o : MouseObject)
    (rest : List MouseObject) (x y : Int) (lg : List HandlerCall)
    (h : dispatchObject ev keys o x y = some (true, lg)) :
    dispatchList ev keys (o :: rest) x y = some (true, lg) := by
  rw [dispatchList_cons, h]
  simp

/-- A child that does not consume the event hands the loop on. -/
theorem dispatchList_cons_false (ev : MouseEvent) (keys : Nat) (o : MouseObject)
    (rest : List MouseObject) (x y : Int) (lg : List HandlerCall)
    (h : dispatchObject ev keys o x y = some (false, lg)) :
    dispatchList ev keys (o :: rest) x y
      = (dispatchList ev keys rest x y).map (fun r2 => (r2.1, lg ++ r2.2)) := by
  rw [dispatchList_cons, h]
  cases dispatchList ev keys rest x y <;> simp

/-- Children that do not consume the event are passed over in list order. -/
theorem dispatchList_append_false (ev : MouseEvent) (keys : Nat) (x y : Int)
    (pre rest : List MouseObject)
    (hpre : ∀ p ∈ pre, ∃ lg, dispatchObject ev keys p x y = some (false, lg)) :
    dispatchList ev keys (pre ++ rest) x y
      = (dispatchList ev keys rest x y).map
          (fun r2 => (r2.1, dispatchCalls ev keys pre x y ++ r2.2)) := by
  induction pre with
  | nil =>
    rw [List.nil_append]
    cases dispatchList ev keys rest x y <;> simp [dispatchCalls]
  | cons p pre ih =>
    obtain ⟨lg, hlg⟩ := hpre p (List.mem_cons_self _ _)
    rw [List.cons_append, dispatchList_cons_false ev keys p _ x y lg hlg,
      ih (fun q hq => hpre q (List.mem_cons_of_mem _ hq))]
    cases dispatchList ev keys rest x y with
    | none => simp
    | some r2 => simp [dispatchCalls, hlg]

/-- The loop returns true exactly through a first child that consumes the event. -/
theorem dispatchList_true (ev : MouseEvent) (keys : Nat) (x y : Int) (l : List MouseObject)
    (lg : List HandlerCall) (h : dispatchList ev keys l x y = some (true, lg)) :
    ∃ pre c post lgc, l = pre ++ c :: post
      ∧ (∀ p ∈ pre, ∃ lg1, dispatchObject ev keys p x y = some (false, lg1))
      ∧ dispatchObject ev keys c x y = some (true, lgc)
      ∧ lg = dispatchCalls ev keys pre x y ++ lgc := by
  induction l generalizing lg with
  | nil => rw [dispatchList_nil] at h; simp at h
  | cons o rest ih =>
    rw [dispatchList_cons] at h
    cases ho : dispatchObject ev keys o x y with
    | none => rw [ho] at h; simp at h
    | some r =>
      obtain ⟨b, lgo⟩ := r
      rw [ho] at h
      cases b with
      | true =>
        simp only [if_true, Option.some.injEq, Prod.mk.injEq, true_and] at h
        exact ⟨[], o, rest, lgo, rfl, by simp, ho, by simp [dispatchCalls, h]⟩
      | false =>
        simp only [Bool.false_eq_true, if_false] at h
        cases hr : dispatchList ev keys rest x y with
        | none => rw [hr] at h; simp at h
        | some r2 =>
          obtain ⟨b2, lg2⟩ := r2
          rw [hr] at h
          simp only [Option.some.injEq, Prod.mk.injEq] at h
          obtain ⟨hb2, hlg⟩ := h
          subst hb2
          obtain ⟨pre, c, post, lgc, hl, hpre, hc, hlg2⟩ := ih lg2 hr
          refine ⟨o :: pre, c, post, lgc, by rw [hl]; rfl, ?_, hc, ?_⟩
          · intro p hp
            rcases List.mem_cons.1 hp with h1 | h1
            · rw [h1]; exact ⟨lgo, ho⟩
            · exact hpre p h1
          · rw [← hlg, hlg2]
            simp [dispatchCalls, ho]

/-- C23: for every ObjectManager child list, `DispatchOnMouseMove` and
`DispatchOnMouseButton` offer the event to the children in list (insertion)
order and return true at the first child that consumes it, the handler calls
made being those of the children before it and its own, none of a later
child; they return true only through such a child, and return false, having
offered the event to every child, when no child consumes it.  Hence of two
interface children that both would consume the event, the one added first
receives it and the one added later is not called. -/
theorem C23_mouse_dispatch (ev : MouseEvent) (keys : Nat) (l : List MouseObject) (x y : Int) :
    DispatchOnMouseMove l x y keys = dispatchList none keys l x y
    ∧ (∀ button : Nat, DispatchOnMouseButton l button x y keys
        = dispatchList (some button) keys l x y)
    ∧ (∀ (pre post : List MouseObject) (c : MouseObject) (lgc : List HandlerCall),
        l = pre ++ c :: post →
        (∀ p ∈ pre, ∃ lg, dispatchObject ev keys p x y = some (false, lg)) →
        dispatchObject ev keys c x y = some (true, lgc) →
        dispatchList ev keys l x y = some (true, dispatchCalls ev keys pre x y ++ lgc))
    ∧ (∀ lg : List HandlerCall, dispatchList ev keys l x y = some (true, lg) →
        ∃ pre c post lgc, l = pre ++ c :: post
          ∧ (∀ p ∈ pre, ∃ lg1, dispatchObject ev keys p x y = some (false, lg1))
          ∧ dispatchObject ev keys c x y = some (true, lgc)
          ∧ lg = dispatchCalls ev keys pre x y ++ lgc)
    ∧ ((∀ c ∈ l, ∃ lg, dispatchObject ev keys c x y = some (false, lg)) →
        dispatchList ev keys l x y = some (false, dispatchCalls ev keys l x y))
    ∧ (∀ (a1 a2 : Nat) (h1 h2 : MouseHandlers),
        h1.OnMouseMove x y keys = true → h2.OnMouseMove x y keys = true →
        DispatchOnMouseMove [MouseObject.plain a1 (some h1), MouseObject.plain a2 (some h2)]
            x y keys
          = some (true, [{ self := a1, x := x, y := y }]))
    ∧ (∀ (button a1 a2 : Nat) (h1 h2 : MouseHandlers),
        h1.OnMouseButton button x y keys = true → h2.OnMouseButton button x y keys = true →
        DispatchOnMouseButton [MouseObject.plain a1 (some h1), MouseObject.plain a2 (some h2)]
            button x y keys
          = some (true, [{ self := a1, x := x, y := y }])) := by
  refine ⟨rfl, fun _ => rfl, ?_, ?_, ?_, ?_, ?_⟩
  · intro pre post c lgc hl hpre hc
    rw [hl, dispatchList_append_false ev keys x y pre (c :: post) hpre,
      dispatchList_cons_true ev keys c post x y lgc hc]
    rfl
  · intro lg h
    exact dispatchList_true ev keys x y l lg h
  · intro hall
    have h := dispatchList_append_false ev keys x y l [] hall
    rw [List.append_nil, dispatchList_nil] at h
    rw [h]
    simp
  · intro a1 a2 h1 h2 e1 e2
    unfold DispatchOnMouseMove
    apply dispatchList_cons_true
    rw [dispatchObject]
    simp [offerInterface, e1]
  · intro button a1 a2 h1 h2 e1 e2
    unfold DispatchOnMouseButton
    apply dispatchList_cons_true
    rw [dispatchObject]
    simp [offerInterface, e1]

/-- Truncation of an integer within the range of `int`. -/
theorem castInt_intCast (k : Int) (h0 : 0 ≤ k) (h1 : k < 2 ^ 31) :
    castInt (k : ℚ) = some k := by
  rw [castInt_nonneg (k : ℚ) (by exact_mod_cast h0) (by exact_mod_cast h1), Int.floor_intCast]

/-- The coordinates a visible group without handlers of its own passes to
its children: the incoming point minus the truncated differences
`baseX - x` and `baseY - y` of its members. -/
theorem dispatchObject_group (ev : MouseEvent) (keys : Nat) (self : Nat)
    (baseX baseY gx gy : ℚ) (objects : List MouseObject) (x y dx dy : Int)
    (hx : castInt (baseX - gx) = some dx) (hy : castInt (baseY - gy) = some dy) :
    dispatchObject ev keys (MouseObject.group self none true baseX baseY gx gy objects) x y
      = dispatchList ev keys objects (x - dx) (y - dy) := by
  rw [dispatchObject]
  simp only [offerInterface, Bool.false_eq_true, if_false, if_true, hx, hy, List.nil_append]
  cases dispatchList ev keys objects (x - dx) (y - dy) <;> rfl

/-- C24 fails: a visible group with base offset (100, 50) and animated
relative position (10, 5) draws its children translated by (110, 55), so a
child with the box [0, 10) x [0, 10) is drawn over [110, 120) x [55, 65).
Mouse dispatch passes the children the incoming point minus
(100 - 10, 50 - 5) = (90, 45): for the point (115, 60), which is over the
drawn child, the child is given (25, 15) and does not consume the event; for
the point (95, 50), which is not over the drawn child, it is given (5, 5)
and consumes it. -/
theorem C24_group_translation :
    groupDrawOffset 100 50 10 5 = (110, 55)
    ∧ DispatchOnMouseMove [MouseObject.group 7 none true 100 50 10 5 [hitBox 1 10 10]] 115 60 0
        = some (false, [{ self := 1, x := 25, y := 15 }])
    ∧ DispatchOnMouseMove [MouseObject.group 7 none true 100 50 10 5 [hitBox 1 10 10]] 95 50 0
        = some (true, [{ self := 1, x := 5, y := 5 }])
    ∧ DispatchOnMouseButton [MouseObject.group 7 none true 100 50 10 5 [hitBox 1 10 10]] 513
        115 60 0 = some (false, [{ self := 1, x := 25, y := 15 }])
    ∧ ((115 : Int) - 110, (60 : Int) - 55) = (5, 5) := by
  have hx : castInt ((100 : ℚ) - 10) = some 90 := by
    have := castInt_intCast 90 (by norm_num) (by norm_num)
    norm_num at this ⊢
    exact this
  have hy : castInt ((50 : ℚ) - 5) = some 45 := by
    have := castInt_intCast 45 (by norm_num) (by norm_num)
    norm_num at this ⊢
    exact this
  have hleaf : ∀ (ev : MouseEvent) (x y : Int),
      dispatchList ev 0 [hitBox 1 10 10] x y
        = some (decide (0 ≤ x ∧ x < 10 ∧ 0 ≤ y ∧ y < 10), [{ self := 1, x := x, y := y }]) := by
    intro ev x y
    have ho : dispatchObject ev 0 (hitBox 1 10 10) x y
        = some (decide (0 ≤ x ∧ x < 10 ∧ 0 ≤ y ∧ y < 10), [{ self := 1, x := x, y := y }]) := by
      unfold hitBox
      rw [dispatchObject]
      cases ev <;> simp [offerInterface]
    rw [dispatchList_cons, ho, dispatchList_nil]
    by_cases h : (0 ≤ x ∧ x < 10 ∧ 0 ≤ y ∧ y < 10) <;> simp [h]
  have hgroup : ∀ (ev : MouseEvent) (x y : Int),
      dispatchList ev 0 [MouseObject.group 7 none true 100 50 10 5 [hitBox 1 10 10]] x y
        = some (decide (0 ≤ x - 90 ∧ x - 90 < 10 ∧ 0 ≤ y - 45 ∧ y - 45 < 10),
            [{ self := 1, x := x - 90, y := y - 45 }]) := by
    intro ev x y
    rw [dispatchList_cons, dispatchObject_group ev 0 7 100 50 10 5 _ x y 90 45 hx hy, hleaf,
      dispatchList_nil]
    by_cases h : (0 ≤ x - 90 ∧ x - 90 < 10 ∧ 0 ≤ y - 45 ∧ y - 45 < 10) <;> simp [h]
  refine ⟨?_, ?_, ?_, ?_, by norm_num⟩
  · unfold groupDrawOffset; norm_num
  · unfold DispatchOnMouseMove; rw [hgroup]; norm_num
  · unfold DispatchOnMouseMove; rw [hgroup]; norm_num
  · unfold DispatchOnMouseButton; rw [hgroup]; norm_num

/-! ## The theorems at concrete inputs -/

/-- C1 at A = 2, B = 1, I = 1000 ms: the value at the half interval is A / 2 + B. -/
theorem C1_linear_clamp_value_witness :
    (Animation.create 0 Animations.Linear 1000 2 1 CycleType.Clamp false).GetAnimOffset 500 0
      = some (2 / 2 + 1) :=
  (C1_linear_clamp_value 0 2 1 1000 _ (by norm_num) (Or.inr rfl)).2.2.1 500 (by norm_num)
    (by norm_num)

/-- C2 (as amended) at I1 = I2 = 1000 ms, polls at 1000 and 2000 ms: the second
poll returns 2, the handler has been invoked once, the chain is done. -/
theorem C2_chain_sequencing_witness :
    (((seqChain 0 1000 1000).polls [1000]).GetAnimOffset 2000 0).2 = some 2
    ∧ (((seqChain 0 1000 1000).polls [1000]).GetAnimOffset 2000 0).1.onDoneCalls = 1
    ∧ (((seqChain 0 1000 1000).polls [1000]).GetAnimOffset 2000 0).1.Done = true :=
  (C2_chain_sequencing 0 1000 1000 (by norm_num) (by norm_num) [1000] 2000 (by simp)
    (by intro u hu; simp at hu; rcases hu with h | h <;> subst h <;> norm_num)).2.1
    ⟨1000, by simp, by norm_num, by norm_num⟩

/-- C3 on the started two-entry chain with a run of four calls: the handler
is invoked at most once. -/
theorem C3_clamp_chain_completion_witness :
    ((seqPhase0 0 1000 1000).calls
        [(ChainCall.update, 1000), (ChainCall.pause true, 1500), (ChainCall.start false, 1600),
         (ChainCall.getAnimOffset 0, 3000)]).onDoneCalls
      ≤ (seqPhase0 0 1000 1000).onDoneCalls + 1 :=
  (C3_clamp_chain_completion (seqPhase0 0 1000 1000) rfl (Or.inl ⟨by decide, rfl⟩)
    (by simp [seqPhase0]) rfl _).1

open SceneObjectBindings in
theorem demoObject_Bindable : demoObject.Bindable := by
  intro b hne
  by_cases hx : b = BindX
  · subst hx; simp [demoObject, Rectangle, SceneObject.Bind]
  · by_cases hy : b = BindY
    · subst hy; simp [demoObject, Rectangle, SceneObject.Bind]
    · exfalso
      apply hne
      simp [demoObject, Rectangle, SceneObject.Bind, Function.update, hx, hy]

open SceneObjectBindings in
/-- C5 on a scene holding the rectangle whose master chain completes at
1000 ms: the `Update()` at 1000 ms, which observes the rectangle done, keeps
it in the live list and schedules it for removal; after the `Update()` at
1500 ms it is gone. -/
theorem C5_deferred_removal_witness :
    ∃ s1 s2, ((Scene.empty 0).Add demoObject).Update 1000 = some s1
      ∧ s1.objects.map (fun o => o.self) = [1]
      ∧ 1 ∈ s1.objects.map (fun o => o.self)
      ∧ 1 ∈ s1.markedForRemoval
      ∧ s1.Update 1500 = some s2
      ∧ 1 ∉ s2.objects.map (fun o => o.self) := by
  have hbo : ((demoObject.SetDeleteBehaviour SceneObjectDeleteBehaviour.SODB_Destroy).SetOwner
      (some 0)).Bindable := fun b hne => demoObject_Bindable b hne
  have hobjs : ((Scene.empty 0).Add demoObject).objects
      = [(demoObject.SetDeleteBehaviour SceneObjectDeleteBehaviour.SODB_Destroy).SetOwner
          (some 0)] := by
    simp [Scene.Add, Scene.empty]
  have hf : (((Scene.empty 0).Add demoObject).flush).objects
      = [(demoObject.SetDeleteBehaviour SceneObjectDeleteBehaviour.SODB_Destroy).SetOwner
          (some 0)] := by
    rw [Scene.flush_objects, hobjs]
    rfl
  obtain ⟨s1, h1, h2, h3⟩ := C5_deferred_removal ((Scene.empty 0).Add demoObject) 1000 1500
    (by
      intro o ho
      rw [hobjs, List.mem_singleton] at ho
      subst ho
      exact hbo)
    (by rw [hobjs]; simp)
  have hup := SceneObject.updated_master
    ((demoObject.SetDeleteBehaviour SceneObjectDeleteBehaviour.SODB_Destroy).SetOwner (some 0))
    1000 BindX (runChain 0 100 1000) (doneChain 0 100 1000) (some 100)
    (by simp [demoObject, Rectangle, SceneObject.Bind, SceneObject.SetDeleteBehaviour,
      SceneObject.SetOwner])
    (by simp [demoObject, Rectangle, SceneObject.Bind, SceneObject.SetDeleteBehaviour,
      SceneObject.SetOwner])
    (runChain_poll_ge 0 100 1000 1000 (by norm_num) (by norm_num) (by norm_num))
  obtain ⟨hin, hm, s2, hs2, hout⟩ := h3
    ((demoObject.SetDeleteBehaviour SceneObjectDeleteBehaviour.SODB_Destroy).SetOwner (some 0))
    (by rw [hf]; exact List.mem_singleton.mpr rfl) rfl
    ⟨_, SceneObject.Update_eq _ 1000 hbo, by
      show (SceneObject.updated _ 1000).done = true
      rw [hup.2.2.1]
      simp [doneChain]⟩
  refine ⟨s1, s2, h1, ?_, hin, hm, hs2, hout⟩
  rw [h2, hf]
  rfl

open SceneObjectBindings in
/-- C6 on a rectangle with a master Clamp chain on X and a Repeat chain on Y:
the `Update()` at 1000 ms, in which the master chain completes, sets `done`. -/
theorem C6_master_binding_done_witness :
    ∃ o1, demoObject.Update 1000 = some o1 ∧ o1.Done = true := by
  obtain ⟨o1, h1, h2, _⟩ := C6_master_binding_done demoObject 1000 demoObject_Bindable
  refine ⟨o1, h1, h2 (runChain 0 100 1000) ?_ ?_⟩
  · simp [demoObject, Rectangle, SceneObject.Bind]
  · rw [runChain_poll_ge 0 100 1000 1000 (by norm_num) (by norm_num) (by norm_num)]
    rfl

open SceneObjectBindings in
/-- C7 (as amended) on the scene whose rectangle has the started chain bound. -/
theorem C7_end_to_end_witness :
    ∃ s1 s2 s3 s4 o1 o2 o3,
      startedScene.Update 0 = some s1 ∧ s1.objects = [o1] ∧ o1.field BindX = some 0
        ∧ o1.Done = false
      ∧ s1.Update 500 = some s2 ∧ s2.objects = [o2] ∧ o2.field BindX = some 50
        ∧ o2.Done = false
      ∧ s2.Update 1000 = some s3 ∧ s3.objects = [o3] ∧ o3.field BindX = some 100
        ∧ o3.Done = true
      ∧ s3.Update 1500 = some s4 ∧ s4.objects = [] :=
  C7_end_to_end startedScene
    ((((Rectangle 1 0 0 10 10).Bind BindX
      ((AnimationChain.ofAnimation 0 (Animation.FromTo 0 0 100 1000 false true)).Start 0 false)
      true).SetDeleteBehaviour SceneObjectDeleteBehaviour.SODB_Destroy).SetOwner (some 0))
    0
    (by simp [startedScene, Scene.Add, Scene.empty])
    rfl
    (by simp [SceneObject.Bind, SceneObject.SetDeleteBehaviour, SceneObject.SetOwner])
    rfl rfl rfl
    (Rectangle_Bind_Bindable _ _ _ _ _ _ _ _ _)

/-- C10 (as amended) on a Linear Clamp animation with interval 1000 ms paused
at 250 ms and resumed at 9000 ms. -/
theorem C10_pause_resume_witness :
    (((linEntry 0 1000 1 0 false).Pause 250 true).Pause 9000 false).GetAnimPos 9000 0
      = some (min (((250 - 0 : Nat) : ℚ) / ((1000 : Int) : ℚ) + 0) 1) :=
  (C10_pause_resume (linEntry 0 1000 1 0 false) 250 _ rfl (by simp [linEntry])
    (linEntry_pos 0 250 1000 1 0 0 (by norm_num) (by norm_num) (by norm_num))).2 9000

/-- C11 on a Reverse animation with interval 1000 ms started at time 0: the
position at 1500 ms is 1 minus the position at 500 ms. -/
theorem C11_reverse_mirror_witness :
    ∃ q, (Animation.create 0 Animations.Linear 1000 1 0 CycleType.Reverse false).GetAnimPos
          (0 + 500) 0 = some q
      ∧ (Animation.create 0 Animations.Linear 1000 1 0 CycleType.Reverse false).GetAnimPos
          (0 + 3 * 500) 0 = some (1 - q) :=
  (C11_reverse_mirror (Animation.create 0 Animations.Linear 1000 1 0 CycleType.Reverse false)
    rfl).2 0 500 rfl (by simp [Animation.create, Animation.Reset]) (by norm_num) rfl rfl rfl
    (by norm_num)

/-- C12 on a Repeat animation with interval 1000 ms started at time 0, read
at 1250 ms: raw position 5/4. -/
theorem C12_cycle_policy_witness :
    (Animation.create 0 Animations.Linear 1000 1 0 CycleType.Repeat false).GetAnimPos 1250 0
      = some ((((1250 : Nat) : ℚ) / ((1000 : Int) : ℚ) + 0)
          - (⌊((1250 : Nat) : ℚ) / ((1000 : Int) : ℚ) + 0⌋ : ℚ)) :=
  (C12_cycle_policy _ 1250 0 _
    (Animation.create_rawPos CycleType.Repeat 1000 (by norm_num) 1250 (by norm_num))
    (by norm_num)).2.1 rfl (by norm_num)

/-- C13 (as amended) on a Reverse animation with interval 1000 ms started at
time 0, read at 1250 ms with offset 1/2. -/
theorem C13_position_range_witness :
    ∃ q, (Animation.create 0 Animations.Linear 1000 1 0 CycleType.Reverse false).GetAnimPos 1250
          (1 / 2) = some q
      ∧ 0 ≤ q ∧ q ≤ 1 :=
  C13_position_range _ 1250 (1 / 2) _
    (Animation.create_rawPos CycleType.Reverse 1000 (by norm_num) 1250 (by norm_num))
    (by norm_num) (Or.inr (by norm_num))

/-- C14 on crop bounds in reverse order (from 1 down to 0) at pos = 1/4. -/
theorem C14_crop_witness :
    min (1 : ℚ) 0 ≤ Animation.Crop
        { Animation.create 0 Animations.Linear 1000 1 0 CycleType.Clamp false with
          cropLower := 1, cropUpper := 0 } (1 / 4)
    ∧ Animation.Crop
        { Animation.create 0 Animations.Linear 1000 1 0 CycleType.Clamp false with
          cropLower := 1, cropUpper := 0 } (1 / 4) ≤ max (1 : ℚ) 0 :=
  (C14_crop
    { Animation.create 0 Animations.Linear 1000 1 0 CycleType.Clamp false with
      cropLower := 1, cropUpper := 0 } (1 / 4)).2.2.2 (by norm_num) (by norm_num)

/-- C15 on a running Clamp animation with interval 1000 ms started at time 0,
read at 1500 ms. -/
theorem C15_animation_done_witness :
    (linEntry 0 1000 1 0 false).Done 1500 = true
      ↔ (linEntry 0 1000 1 0 false).intervalMs ≤ ((1500 - 0 : Nat) : Int) :=
  (C15_animation_done (linEntry 0 1000 1 0 false)).2.1 0 1500 rfl rfl (by simp [linEntry]) rfl rfl
    rfl (by norm_num) (by norm_num)

/-- C16 (as amended) on the running Linear Clamp animation with interval 0,
amplitude 2 and base 3, read at 500 ms: position 1, value 1 * 2 + 3. -/
theorem C16_zero_interval_witness :
    (Animation.create 0 Animations.Linear 0 2 3 CycleType.Clamp false).GetAnimPos 500 0 = some 1
    ∧ (Animation.create 0 Animations.Linear 0 2 3 CycleType.Clamp false).GetAnimOffset 500 0
        = some (1 * 2 + 3) := by
  have h := C16_zero_interval (Animation.create 0 Animations.Linear 0 2 3 CycleType.Clamp false)
    rfl rfl rfl 500 0
  refine ⟨h.1, ?_⟩
  rw [h.2.1, h.2.2.2]
  rfl

/-- C19 on the one-entry Repeat chain of `FromTo(0, 1, 1000)` started at time
0, polled at 1000 ms: the index is back at 0 and the chain is not done. -/
theorem C19_repeat_chain_witness :
    (((runChain 0 1 1000).SetCycleType CycleType.Repeat).Update 1000).index = 0
    ∧ (((runChain 0 1 1000).SetCycleType CycleType.Repeat).Update 1000).Done = false :=
  have h := (C19_repeat_chain ((runChain 0 1 1000).SetCycleType CycleType.Repeat) rfl
    (by simp [runChain, AnimationChain.SetCycleType])).1 1000 0 (linEntry 0 1000 (1 - 0) 0 false)
    rfl rfl (by rw [linEntry_done 0 1000 1000 _ _ (by norm_num) (by norm_num) (by norm_num)]; rfl)
  ⟨h.2.1, h.2.2.2.2⟩

open SceneObjectBindings in
/-- C20 on the rectangle with chains bound to X and Y, with a hook that marks
the object done. -/
theorem C20_update_frame_witness :
    ∃ o1, demoObject.Update 500 = some o1
      ∧ o1.field BindX = some 50
      ∧ o1.field BindWidth = demoObject.field BindWidth
      ∧ demoObject.UpdateWith SceneObject.SetDone 500 = some o1.SetDone := by
  obtain ⟨o1, h1, h2, h3, h4⟩ :=
    C20_update_frame demoObject 500 SceneObject.SetDone demoObject_Bindable
  have hx : demoObject.animations BindX = some (runChain 0 100 1000) := by
    simp [demoObject, Rectangle, SceneObject.Bind]
  have hw : demoObject.animations BindWidth = none := by
    simp [demoObject, Rectangle, SceneObject.Bind]
  refine ⟨o1, h1, ?_, h3 BindWidth hw, h4⟩
  rw [h2 BindX _ hx, runChain_poll_lt 0 100 1000 500 (by norm_num) (by norm_num) (by norm_num)]
  norm_num

/-- C25 (as amended) on a Linear Clamp animation with interval 1000 ms started
at time 0, paused at 250 ms and resumed at 2000 ms: its position at 2250 ms
is that of the never-paused animation at 2250 - (2000 - 250) = 500 ms. -/
theorem C25_pause_shift_witness :
    ∃ q, (((linEntry 0 1000 1 0 false).Pause 250 true).Pause 2000 false).GetAnimPos 2250 0
          = some q
      ∧ (linEntry 0 1000 1 0 false).GetAnimPos (2250 - (2000 - 250)) 0 = some q :=
  C25_pause_shift (linEntry 0 1000 1 0 false) 0 250 2000 2250 rfl (by simp [linEntry]) rfl rfl
    (by simp [linEntry]) (by norm_num) (by norm_num) (by norm_num) (by norm_num) (Or.inl rfl)

/-- C26 on the chain of one Linear entry, started at time 0 and polled at
500 ms: the index is within the list, and below its size while the chain is
not done. -/
theorem C26_chain_index_bound_witness :
    ((((AnimationChain.ofAnimation 0 (linEntry 0 1000 1 0 false)).Start 0 false).GetAnimOffset
        500 0).1).index
      ≤ ((((AnimationChain.ofAnimation 0 (linEntry 0 1000 1 0 false)).Start 0
          false).GetAnimOffset 500 0).1).animations.length
    ∧ (((((AnimationChain.ofAnimation 0 (linEntry 0 1000 1 0 false)).Start 0 false).GetAnimOffset
          500 0).1).Done = false →
        ((((AnimationChain.ofAnimation 0 (linEntry 0 1000 1 0 false)).Start 0
          false).GetAnimOffset 500 0).1).index
        < ((((AnimationChain.ofAnimation 0 (linEntry 0 1000 1 0 false)).Start 0
          false).GetAnimOffset 500 0).1).animations.length) :=
  have h := C26_chain_index_bound
    ((((AnimationChain.ofAnimation 0 (linEntry 0 1000 1 0 false)).Start 0 false).GetAnimOffset
      500 0).1)
    (AnimationChain.Built.getAnimOffset _ 500 0
      (AnimationChain.Built.start _ 0 false (AnimationChain.Built.ofAnimation 0 _)))
  ⟨h.1, h.2.1⟩

/-- C27 on a group of a visible and a hidden tab-capable child, searched
forwards from the first child: the search loop returns. -/
theorem C27_tab_search_terminates_witness :
    (tabGroup 9 [tabItem 1 true, tabItem 2 false]).FindTabbedItem (some (tabItem 1 true)) true
      ≠ TabResult.outOfFuel :=
  (C27_tab_search_terminates (tabGroup 9 [tabItem 1 true, tabItem 2 false])
    (some (tabItem 1 true)) true
    (by
      intro fo _ _ o ho _
      simp only [tabGroup, List.mem_cons, List.mem_singleton, List.not_mem_nil, or_false] at ho
      rcases ho with h | h <;> subst h <;> rfl)).1

open SceneObjectBindings in
/-- C29 on the rectangle whose master binding is X: unbinding X leaves the
master designation, and re-binding X with `master = false` keeps it. -/
theorem C29_master_designation_witness :
    (demoObject.Unbind BindX).animations BindX = none
    ∧ (demoObject.Unbind BindX).masterAnimation = BindX
    ∧ ((demoObject.Unbind BindX).Bind BindX (doneChain 0 100 1000) false).masterAnimation
        = BindX :=
  have h := C29_master_designation demoObject BindX
    (by simp [demoObject, Rectangle, SceneObject.Bind])
  ⟨h.1, h.2.1, (h.2.2.2.1 (doneChain 0 100 1000)).1⟩

/-- C30 on a group whose only child is the rectangle with chains bound to X
and Y: the child is updated and the list keeps its length. -/
theorem C30_group_update_witness :
    ∃ g1, (tabGroup 9 [demoObject]).doUpdate (fun x => x) 500 = some g1
      ∧ g1.objects.length = (tabGroup 9 [demoObject]).objects.length
      ∧ g1.objects = (tabGroup 9 [demoObject]).objects.map (fun o => o.updated 500) := by
  obtain ⟨g1, h1, h2, _, h4, _⟩ := (C30_group_update (tabGroup 9 [demoObject]) (fun x => x) 500
    (by
      intro o ho
      simp only [tabGroup, List.mem_singleton] at ho
      subst ho
      exact demoObject_Bindable)).2.1
  exact ⟨g1, h1, h2, h4⟩

end S2D
